import Mathlib

/-!
Verification of the Spine-Database-API parameter-value codec, scenario filter
and filter-URL tools, as a shallow embedding of the Python sources
(`spinedb_api/parameter_value.py`, `spinedb_api/filters/scenario_filter.py`,
`spinedb_api/filters/url_tools.py`).

Conventions of the embedding:
* Python `int` is `Int`, `float` data values are `ℚ` (the codec only moves
  them around, so exact rationals model the bit-exact float round trip).
* Fallible Python code (raising `ParameterValueFormatError`,
  `SpineDBAPIError`, `KeyError`, ...) is modelled with `Except String`.
* `dateutil.relativedelta` is modelled by `RelativeDelta` together with the
  normalisation `_fix` that the dateutil constructor applies after every
  arithmetic operation (microseconds and the absolute/weekday fields are not
  used by any code path of this repository and are omitted).
-/

namespace SpineDB

deriving instance DecidableEq for Except


/-- Model of `dateutil.relativedelta` restricted to the six relative fields
used by `spinedb_api.parameter_value`. -/
structure RelativeDelta where
  years   : Int := 0
  months  : Int := 0
  days    : Int := 0
  hours   : Int := 0
  minutes : Int := 0
  seconds : Int := 0
deriving DecidableEq, Repr

/-- One step of dateutil's `relativedelta._fix`: when `|v| > bound` it carries
`sign(v) * (|v| / ratio)` into the next-larger unit and keeps
`sign(v) * (|v| % ratio)` (Python computes `divmod(v * s, ratio)` with
`s = _sign(v)`).  Returns `(carry, remainder)`. -/
def rdCarry (v : Int) (bound ratio : Nat) : Int × Int :=
  if v.natAbs ≤ bound then (0, v)
  else if 0 ≤ v then (v / (ratio : Int), v % (ratio : Int))
  else (-((-v) / (ratio : Int)), -((-v) % (ratio : Int)))

/-- dateutil's `relativedelta._fix`: normalises seconds into minutes, minutes
into hours, hours into days and months into years.  Days are never folded
into months.  Every dateutil constructor and arithmetic operation applies
this normalisation. -/
def RelativeDelta.fix (r : RelativeDelta) : RelativeDelta :=
  let cs := rdCarry r.seconds 59 60
  let cm := rdCarry (r.minutes + cs.1) 59 60
  let ch := rdCarry (r.hours + cm.1) 23 24
  let cM := rdCarry r.months 11 12
  { years := r.years + cM.1
    months := cM.2
    days := r.days + ch.1
    hours := ch.2
    minutes := cm.2
    seconds := cs.2 }

/-- `relativedelta.__add__` for two relativedeltas: fieldwise sum followed by
the constructor normalisation. -/
def RelativeDelta.add (a b : RelativeDelta) : RelativeDelta :=
  RelativeDelta.fix
    { years := a.years + b.years
      months := a.months + b.months
      days := a.days + b.days
      hours := a.hours + b.hours
      minutes := a.minutes + b.minutes
      seconds := a.seconds + b.seconds }

/-- `int * relativedelta` (`relativedelta.__rmul__`): fieldwise product with
the scalar followed by the constructor normalisation.  (dateutil multiplies
by `float(n)` and truncates with `int(...)`; for the natural-number factors
used by `TimeSeriesFixedResolution.indexes` this is exact integer
multiplication.) -/
def RelativeDelta.nsmul (n : Nat) (a : RelativeDelta) : RelativeDelta :=
  RelativeDelta.fix
    { years := n * a.years
      months := n * a.months
      days := n * a.days
      hours := n * a.hours
      minutes := n * a.minutes
      seconds := n * a.seconds }

/-- The zero `relativedelta()`. -/
def RelativeDelta.zero : RelativeDelta := {}

/-- Python `sum(deltas, relativedelta())`: left fold of `__add__` starting
from the zero delta. -/
def RelativeDelta.pySum (l : List RelativeDelta) : RelativeDelta :=
  l.foldl RelativeDelta.add RelativeDelta.zero

/-- Total number of seconds represented by the day/hour/minute/second chain
(days are the largest unit of that chain; months never mix in). -/
def RelativeDelta.timeTotal (r : RelativeDelta) : Int :=
  r.seconds + 60 * r.minutes + 3600 * r.hours + 86400 * r.days

/-- Total number of months represented by the month/year chain. -/
def RelativeDelta.monthTotal (r : RelativeDelta) : Int :=
  r.months + 12 * r.years

theorem rdCarry_spec (v : Int) (bound ratio : Nat) (_hρ : 0 < ratio) :
    (rdCarry v bound ratio).1 * (ratio : Int) + (rdCarry v bound ratio).2 = v := by
  unfold rdCarry
  split
  · simp
  · split
    · have := Int.ediv_add_emod v (ratio : Int)
      push_cast
      linarith
    · have := Int.ediv_add_emod (-v) (ratio : Int)
      push_cast
      linarith

theorem RelativeDelta.fix_timeTotal (r : RelativeDelta) :
    (RelativeDelta.fix r).timeTotal = r.timeTotal := by
  have h1 := rdCarry_spec r.seconds 59 60 (by norm_num)
  have h2 := rdCarry_spec (r.minutes + (rdCarry r.seconds 59 60).1) 59 60 (by norm_num)
  have h3 := rdCarry_spec
    (r.hours + (rdCarry (r.minutes + (rdCarry r.seconds 59 60).1) 59 60).1) 23 24 (by norm_num)
  simp only [RelativeDelta.fix, RelativeDelta.timeTotal]
  push_cast at h1 h2 h3
  linarith

theorem RelativeDelta.fix_monthTotal (r : RelativeDelta) :
    (RelativeDelta.fix r).monthTotal = r.monthTotal := by
  have h := rdCarry_spec r.months 11 12 (by norm_num)
  simp only [RelativeDelta.fix, RelativeDelta.monthTotal]
  push_cast at h
  linarith

/-- Fields of the carry step stay nonnegative and the remainder lands below
the ratio, for nonnegative input and `bound + 1 = ratio`. -/
theorem rdCarry_nonneg (v : Int) (bound ratio : Nat) (hv : 0 ≤ v)
    (hb : bound + 1 = ratio) :
    0 ≤ (rdCarry v bound ratio).1 ∧ 0 ≤ (rdCarry v bound ratio).2 ∧
      (rdCarry v bound ratio).2 < (ratio : Int) := by
  have hρ : (0 : Int) < (ratio : Int) := by
    have h0 : 0 < ratio := by omega
    exact_mod_cast h0
  unfold rdCarry
  by_cases habs : v.natAbs ≤ bound
  · rw [if_pos habs]
    refine ⟨le_refl 0, hv, by omega⟩
  · rw [if_neg habs, if_pos hv]
    exact ⟨Int.ediv_nonneg hv hρ.le, Int.emod_nonneg v (by omega),
      Int.emod_lt_of_pos v hρ⟩

/-- All six fields nonnegative. -/
def RelativeDelta.Nonneg (r : RelativeDelta) : Prop :=
  0 ≤ r.years ∧ 0 ≤ r.months ∧ 0 ≤ r.days ∧ 0 ≤ r.hours ∧ 0 ≤ r.minutes ∧ 0 ≤ r.seconds

instance (r : RelativeDelta) : Decidable r.Nonneg := by
  unfold RelativeDelta.Nonneg; infer_instance

/-- The bounds `_fix` establishes: seconds and minutes below 60, hours below
24, months below 12. -/
def RelativeDelta.InBounds (r : RelativeDelta) : Prop :=
  r.seconds < 60 ∧ r.minutes < 60 ∧ r.hours < 24 ∧ r.months < 12

instance (r : RelativeDelta) : Decidable r.InBounds := by
  unfold RelativeDelta.InBounds; infer_instance

theorem RelativeDelta.fix_nonneg (r : RelativeDelta) (h : r.Nonneg) :
    (RelativeDelta.fix r).Nonneg ∧ (RelativeDelta.fix r).InBounds := by
  obtain ⟨hy, hM, hd, hh, hm, hs⟩ := h
  have c1 := rdCarry_nonneg r.seconds 59 60 hs (by norm_num)
  have c2 := rdCarry_nonneg (r.minutes + (rdCarry r.seconds 59 60).1) 59 60
    (by omega) (by norm_num)
  have c3 := rdCarry_nonneg
    (r.hours + (rdCarry (r.minutes + (rdCarry r.seconds 59 60).1) 59 60).1) 23 24
    (by omega) (by norm_num)
  have c4 := rdCarry_nonneg r.months 11 12 hM (by norm_num)
  simp only [RelativeDelta.fix, RelativeDelta.Nonneg, RelativeDelta.InBounds]
  refine ⟨⟨by omega, by omega, by omega, by omega, by omega, by omega⟩,
    by omega, by omega, by omega, by omega⟩

/-- A nonnegative in-bounds delta is determined by its two totals (unique
mixed-radix representation; days and years are the unbounded top units of
their chains). -/
theorem RelativeDelta.eq_of_totals (a b : RelativeDelta)
    (ha1 : a.Nonneg) (ha2 : a.InBounds) (hb1 : b.Nonneg) (hb2 : b.InBounds)
    (ht : a.timeTotal = b.timeTotal) (hM : a.monthTotal = b.monthTotal) :
    a = b := by
  obtain ⟨hy, hMo, hd, hh, hm, hs⟩ := ha1
  obtain ⟨hy', hMo', hd', hh', hm', hs'⟩ := hb1
  obtain ⟨i1, i2, i3, i4⟩ := ha2
  obtain ⟨j1, j2, j3, j4⟩ := hb2
  simp only [RelativeDelta.timeTotal, RelativeDelta.monthTotal] at ht hM
  cases a; cases b
  simp_all only [RelativeDelta.mk.injEq]
  omega

theorem RelativeDelta.add_timeTotal (a b : RelativeDelta) :
    (a.add b).timeTotal = a.timeTotal + b.timeTotal := by
  unfold RelativeDelta.add
  rw [RelativeDelta.fix_timeTotal]
  simp [RelativeDelta.timeTotal]; ring

theorem RelativeDelta.add_monthTotal (a b : RelativeDelta) :
    (a.add b).monthTotal = a.monthTotal + b.monthTotal := by
  unfold RelativeDelta.add
  rw [RelativeDelta.fix_monthTotal]
  simp [RelativeDelta.monthTotal]; ring

theorem RelativeDelta.nsmul_timeTotal (n : Nat) (a : RelativeDelta) :
    (RelativeDelta.nsmul n a).timeTotal = n * a.timeTotal := by
  unfold RelativeDelta.nsmul
  rw [RelativeDelta.fix_timeTotal]
  simp [RelativeDelta.timeTotal]; ring

theorem RelativeDelta.nsmul_monthTotal (n : Nat) (a : RelativeDelta) :
    (RelativeDelta.nsmul n a).monthTotal = n * a.monthTotal := by
  unfold RelativeDelta.nsmul
  rw [RelativeDelta.fix_monthTotal]
  simp [RelativeDelta.monthTotal]; ring

theorem RelativeDelta.add_nonneg_inBounds (a b : RelativeDelta)
    (ha : a.Nonneg) (hb : b.Nonneg) :
    (a.add b).Nonneg ∧ (a.add b).InBounds := by
  apply RelativeDelta.fix_nonneg
  obtain ⟨a1, a2, a3, a4, a5, a6⟩ := ha
  obtain ⟨b1, b2, b3, b4, b5, b6⟩ := hb
  refine ⟨?_, ?_, ?_, ?_, ?_, ?_⟩ <;> dsimp only <;> omega

theorem RelativeDelta.nsmul_nonneg_inBounds (n : Nat) (a : RelativeDelta)
    (ha : a.Nonneg) :
    (RelativeDelta.nsmul n a).Nonneg ∧ (RelativeDelta.nsmul n a).InBounds := by
  apply RelativeDelta.fix_nonneg
  obtain ⟨a1, a2, a3, a4, a5, a6⟩ := ha
  refine ⟨?_, ?_, ?_, ?_, ?_, ?_⟩ <;> dsimp only <;> positivity

theorem RelativeDelta.zero_nonneg : RelativeDelta.zero.Nonneg := by
  simp [RelativeDelta.zero, RelativeDelta.Nonneg]

theorem RelativeDelta.pySum_timeTotal (l : List RelativeDelta) :
    (RelativeDelta.pySum l).timeTotal = (l.map RelativeDelta.timeTotal).sum := by
  unfold RelativeDelta.pySum
  have key : ∀ (l : List RelativeDelta) (init : RelativeDelta),
      (l.foldl RelativeDelta.add init).timeTotal
        = init.timeTotal + (l.map RelativeDelta.timeTotal).sum := by
    intro l
    induction l with
    | nil => intro init; simp
    | cons x xs ih =>
      intro init
      simp only [List.foldl_cons, List.map_cons, List.sum_cons]
      rw [ih, RelativeDelta.add_timeTotal]
      ring
  rw [key]
  simp [RelativeDelta.zero, RelativeDelta.timeTotal]

theorem RelativeDelta.pySum_monthTotal (l : List RelativeDelta) :
    (RelativeDelta.pySum l).monthTotal = (l.map RelativeDelta.monthTotal).sum := by
  unfold RelativeDelta.pySum
  have key : ∀ (l : List RelativeDelta) (init : RelativeDelta),
      (l.foldl RelativeDelta.add init).monthTotal
        = init.monthTotal + (l.map RelativeDelta.monthTotal).sum := by
    intro l
    induction l with
    | nil => intro init; simp
    | cons x xs ih =>
      intro init
      simp only [List.foldl_cons, List.map_cons, List.sum_cons]
      rw [ih, RelativeDelta.add_monthTotal]
      ring
  rw [key]
  simp [RelativeDelta.zero, RelativeDelta.monthTotal]

theorem RelativeDelta.pySum_nonneg (l : List RelativeDelta)
    (h : ∀ r ∈ l, r.Nonneg) : (RelativeDelta.pySum l).Nonneg := by
  unfold RelativeDelta.pySum
  have key : ∀ (l : List RelativeDelta) (init : RelativeDelta),
      (∀ r ∈ l, r.Nonneg) → init.Nonneg → (l.foldl RelativeDelta.add init).Nonneg := by
    intro l
    induction l with
    | nil => intro init _ hi; simpa using hi
    | cons x xs ih =>
      intro init hl hi
      simp only [List.foldl_cons]
      exact ih _ (fun r hr => hl r (List.mem_cons_of_mem _ hr))
        (RelativeDelta.add_nonneg_inBounds init x hi (hl x (List.mem_cons_self x xs))).1
  exact key l _ h RelativeDelta.zero_nonneg

/-- One decimal digit character. -/
def digitChar (d : Nat) : Char := Char.ofNat (48 + d)

/-- Big-endian decimal digits of a positive number (`fuel`-guarded so that
the definition is structural; `fuel = n` always suffices). -/
def natDigitsGo : Nat → Nat → List Char
  | 0, _ => []
  | fuel + 1, n =>
    if n < 10 then [digitChar n]
    else natDigitsGo fuel (n / 10) ++ [digitChar (n % 10)]

/-- Python `str` of a natural number. -/
def pyStrOfNat (n : Nat) : String :=
  if n = 0 then "0" else String.mk (natDigitsGo n n)

/-- Python `str` of an `int` (the model of `"{}".format(value)` on ints). -/
def pyStrOfInt (n : Int) : String :=
  if n < 0 then "-" ++ pyStrOfNat n.natAbs else pyStrOfNat n.toNat

/-! ### The duration string codec
`duration_to_relativedelta` and `relativedelta_to_duration` from
`spinedb_api/parameter_value.py`. -/

/-- A character matched by the `([a-z]|[A-Z])` alternative of the regular
expression in `duration_to_relativedelta` (stated on the code point). -/
def isDurLetter (c : Char) : Bool :=
  (97 ≤ c.toNat && c.toNat ≤ 122) || (65 ≤ c.toNat && c.toNat ≤ 90)

/-- A character matched by the `\s` alternative, i.e. ASCII whitespace
(space, tab, newline, carriage return, vertical tab, form feed; the unicode
extras of Python regex whitespace never occur in duration texts). -/
def isPyWhitespace (c : Char) : Bool :=
  c.toNat = 32 || c.toNat = 9 || c.toNat = 10 || c.toNat = 13 ||
    c.toNat = 11 || c.toNat = 12

/-- A character accepted by Python `int()` as a decimal digit. -/
def isDigitChar (c : Char) : Bool :=
  48 ≤ c.toNat && c.toNat ≤ 57

/-- `re.split("\\s|([a-z]|[A-Z])", duration, maxsplit=1)`: split at the first
whitespace or letter; the letter (if that is what matched) is captured.
`none` models the no-match case, where the split yields a single part and
the 3-way unpacking in the source raises `ValueError`. -/
def durSplit : List Char → Option (List Char × Option Char × List Char)
  | [] => none
  | c :: rest =>
    if isPyWhitespace c then some ([], none, rest)
    else if isDurLetter c then some ([], some c, rest)
    else (durSplit rest).map fun p => (c :: p.1, p.2.1, p.2.2)

/-- Digit run of Python `int(...)`. -/
def pyIntDigits (cs : List Char) : Option Nat :=
  if cs ≠ [] ∧ cs.all isDigitChar then
    some (cs.foldl (fun a c => 10 * a + (c.toNat - 48)) 0)
  else none

/-- Python `int(str)`: optional surrounding whitespace, optional sign, then
decimal digits; anything else raises `ValueError` (modelled as `none`;
digit-group underscores are not modelled — no caller produces them). -/
def pyIntOfChars (cs : List Char) : Option Int :=
  let cs := (cs.dropWhile (isPyWhitespace ·)).reverse.dropWhile (isPyWhitespace ·) |>.reverse
  match cs with
  | [] => none
  | c :: rest =>
    if c = '-' then (pyIntDigits rest).map fun n => -(n : Int)
    else if c = '+' then (pyIntDigits rest).map fun n => (n : Int)
    else (pyIntDigits (c :: rest)).map fun n => (n : Int)

/-- `duration_to_relativedelta(duration)`: parse `<int><ws?><unit>` where the
unit is a one-letter abbreviation or a full (optionally plural) word, and
build the corresponding single-field relativedelta (whose constructor
normalises it with `_fix`). -/
def duration_to_relativedelta (duration : String) : Except String RelativeDelta :=
  match durSplit duration.toList with
  | none => .error ("Could not parse duration " ++ duration)
  | some (countCs, abbreviation, fullUnit) =>
    match pyIntOfChars countCs with
    | none => .error ("Could not parse duration " ++ duration)
    | some count =>
      let unit : String :=
        match abbreviation with
        | some c => String.mk [c]
        | none => String.mk fullUnit
      if unit = "s" ∨ unit = "second" ∨ unit = "seconds" then
        .ok (RelativeDelta.fix { seconds := count })
      else if unit = "m" ∨ unit = "minute" ∨ unit = "minutes" then
        .ok (RelativeDelta.fix { minutes := count })
      else if unit = "h" ∨ unit = "hour" ∨ unit = "hours" then
        .ok (RelativeDelta.fix { hours := count })
      else if unit = "D" ∨ unit = "day" ∨ unit = "days" then
        .ok (RelativeDelta.fix { days := count })
      else if unit = "M" ∨ unit = "month" ∨ unit = "months" then
        .ok (RelativeDelta.fix { months := count })
      else if unit = "Y" ∨ unit = "year" ∨ unit = "years" then
        .ok (RelativeDelta.fix { years := count })
      else .error ("Could not parse duration " ++ duration)

/-- `relativedelta_to_duration(delta)`: format using the smallest positive
unit; minutes/hours/days fold into the second/minute/hour count, years fold
into the month count, while months and years are skipped in the
second/minute/hour/day branches (mirroring the source comment that dateutil
does not produce them there). -/
def relativedelta_to_duration (delta : RelativeDelta) : Except String String :=
  if 0 < delta.seconds then
    let seconds := delta.seconds + 60 * delta.minutes + 60 * 60 * delta.hours
      + 60 * 60 * 24 * delta.days
    .ok (pyStrOfInt seconds ++ "s")
  else if 0 < delta.minutes then
    let minutes := delta.minutes + 60 * delta.hours + 60 * 24 * delta.days
    .ok (pyStrOfInt minutes ++ "m")
  else if 0 < delta.hours then
    let hours := delta.hours + 24 * delta.days
    .ok (pyStrOfInt hours ++ "h")
  else if 0 < delta.days then
    .ok (pyStrOfInt delta.days ++ "D")
  else if 0 < delta.months then
    let months := delta.months + 12 * delta.years
    .ok (pyStrOfInt months ++ "M")
  else if 0 < delta.years then
    .ok (pyStrOfInt delta.years ++ "Y")
  else .error ("Zero relativedelta")

/-! ### Round trip of the rendered duration strings through the parser -/

theorem digitChar_spec (d : Nat) (hd : d < 10) :
    isDigitChar (digitChar d) = true ∧ (digitChar d).toNat = 48 + d ∧
      isPyWhitespace (digitChar d) = false ∧ isDurLetter (digitChar d) = false ∧
      digitChar d ≠ '-' ∧ digitChar d ≠ '+' := by
  interval_cases d <;> exact ⟨by decide, by decide, by decide, by decide, by decide, by decide⟩

theorem natDigitsGo_spec :
    ∀ fuel n, 0 < n → n ≤ fuel →
      (natDigitsGo fuel n).all isDigitChar = true ∧
      (natDigitsGo fuel n).foldl (fun a c => 10 * a + (c.toNat - 48)) 0 = n ∧
      natDigitsGo fuel n ≠ [] := by
  intro fuel
  induction fuel with
  | zero => intro n h1 h2; omega
  | succ f ih =>
    intro n h1 h2
    by_cases hlt : n < 10
    · simp only [natDigitsGo, if_pos hlt]
      obtain ⟨d1, d2, _, _, _, _⟩ := digitChar_spec n hlt
      refine ⟨by simp [d1], ?_, by simp⟩
      simp only [List.foldl_cons, List.foldl_nil, d2]
      omega
    · simp only [natDigitsGo, if_neg hlt]
      have h10 : 0 < n / 10 := Nat.div_pos (by omega) (by norm_num)
      have hle : n / 10 ≤ f := by
        have hd := Nat.div_lt_self h1 (by norm_num : 1 < 10)
        omega
      obtain ⟨a1, a2, a3⟩ := ih (n / 10) h10 hle
      obtain ⟨d1, d2, _, _, _, _⟩ := digitChar_spec (n % 10) (Nat.mod_lt _ (by norm_num))
      refine ⟨?_, ?_, by simp⟩
      · rw [List.all_append]
        simp [a1, d1]
      · rw [List.foldl_append, a2]
        simp only [List.foldl_cons, List.foldl_nil, d2]
        omega

/-- The digits of a positive number: all digits, no leading sign, parse back
to the number itself. -/
theorem pyStrOfNat_digits (n : Nat) (hn : 0 < n) :
    (pyStrOfNat n).toList.all isDigitChar = true ∧
      pyIntDigits (pyStrOfNat n).toList = some n ∧ (pyStrOfNat n).toList ≠ [] := by
  have hgo := natDigitsGo_spec n n hn (le_refl n)
  obtain ⟨a1, a2, a3⟩ := hgo
  have hs : (pyStrOfNat n).toList = natDigitsGo n n := by
    unfold pyStrOfNat
    rw [if_neg (by omega)]
    rfl
  rw [hs]
  refine ⟨a1, ?_, a3⟩
  unfold pyIntDigits
  rw [if_pos ⟨a3, a1⟩, a2]

theorem isDigitChar_not_special (c : Char) (h : isDigitChar c = true) :
    isPyWhitespace c = false ∧ isDurLetter c = false ∧ c ≠ '-' ∧ c ≠ '+' := by
  unfold isDigitChar at h
  simp only [Bool.and_eq_true, decide_eq_true_eq] at h
  refine ⟨?_, ?_, ?_, ?_⟩
  · unfold isPyWhitespace
    simp only [Bool.or_eq_false_iff, decide_eq_false_iff_not]
    omega
  · unfold isDurLetter
    simp only [Bool.or_eq_false_iff, Bool.and_eq_false_iff, decide_eq_false_iff_not]
    omega
  · intro hc
    rw [hc] at h
    revert h
    decide
  · intro hc
    rw [hc] at h
    revert h
    decide

/-- On an all-digit run the whitespace trimming of `int()` does nothing and
the run is parsed as a plain nonnegative number. -/
theorem pyIntOfChars_digits (cs : List Char) (n : Nat)
    (hall : cs.all isDigitChar = true) (hparse : pyIntDigits cs = some n) :
    pyIntOfChars cs = some (n : Int) := by
  have hne : cs ≠ [] := by
    intro hnil
    rw [hnil] at hparse
    simp [pyIntDigits] at hparse
  have hdrop1 : cs.dropWhile (isPyWhitespace ·) = cs := by
    cases cs with
    | nil => rfl
    | cons c rest =>
      have hc : isDigitChar c = true := by
        simp only [List.all_cons, Bool.and_eq_true] at hall
        exact hall.1
      rw [List.dropWhile_cons, (isDigitChar_not_special c hc).1]
      simp
  have hdrop2 : (cs.reverse.dropWhile (isPyWhitespace ·)).reverse = cs := by
    cases hrev : cs.reverse with
    | nil =>
      have : cs = [] := by
        have h0 := congrArg List.reverse hrev
        simpa using h0
      exact absurd this hne
    | cons c rest =>
      have hcmem : c ∈ cs := by
        have h0 : c ∈ cs.reverse := by rw [hrev]; exact List.mem_cons_self c rest
        simpa using h0
      have hc : isDigitChar c = true := by
        have h0 := List.all_eq_true.mp hall
        simpa using h0 c hcmem
      rw [List.dropWhile_cons, (isDigitChar_not_special c hc).1]
      simp only [Bool.false_eq_true, if_false]
      have h0 := congrArg List.reverse hrev
      simpa using h0.symm
  unfold pyIntOfChars
  simp only [hdrop1, hdrop2]
  cases hcs : cs with
  | nil => exact absurd hcs hne
  | cons c rest =>
    have hc : isDigitChar c = true := by
      rw [hcs] at hall
      simp only [List.all_cons, Bool.and_eq_true] at hall
      exact hall.1
    obtain ⟨_, _, hm, hp⟩ := isDigitChar_not_special c hc
    dsimp only
    rw [if_neg hm, if_neg hp, ← hcs, hparse]
    rfl

/-- The duration regular expression splits `<digits><letter>` exactly at the
letter. -/
theorem durSplit_digits (l : List Char) (hl : l.all isDigitChar = true)
    (c : Char) (hc : isDurLetter c = true) :
    durSplit (l ++ [c]) = some (l, some c, []) := by
  induction l with
  | nil =>
    have hw : isPyWhitespace c = false := by
      unfold isDurLetter at hc
      unfold isPyWhitespace
      simp only [Bool.or_eq_true, Bool.and_eq_true, decide_eq_true_eq] at hc
      simp only [Bool.or_eq_false_iff, decide_eq_false_iff_not]
      omega
    simp only [List.nil_append, durSplit, hw, hc]
    simp
  | cons a l ih =>
    have ha : isDigitChar a = true := by
      simp only [List.all_cons, Bool.and_eq_true] at hl
      exact hl.1
    obtain ⟨hw, hd, _, _⟩ := isDigitChar_not_special a ha
    have hl' : l.all isDigitChar = true := by
      simp only [List.all_cons, Bool.and_eq_true] at hl
      exact hl.2
    simp only [List.cons_append, durSplit, hw, hd, Bool.false_eq_true, if_false,
      List.append_eq]
    rw [ih hl']
    rfl

/-- Parsing the rendered duration `"<n><unit>"` (for positive `n`) gives the
single-field relativedelta of that unit, for each of the six abbreviations
the formatter emits. -/
theorem duration_to_relativedelta_render (n : Int) (hn : 0 < n) :
    duration_to_relativedelta (pyStrOfInt n ++ "s")
        = .ok (RelativeDelta.fix { seconds := n }) ∧
      duration_to_relativedelta (pyStrOfInt n ++ "m")
        = .ok (RelativeDelta.fix { minutes := n }) ∧
      duration_to_relativedelta (pyStrOfInt n ++ "h")
        = .ok (RelativeDelta.fix { hours := n }) ∧
      duration_to_relativedelta (pyStrOfInt n ++ "D")
        = .ok (RelativeDelta.fix { days := n }) ∧
      duration_to_relativedelta (pyStrOfInt n ++ "M")
        = .ok (RelativeDelta.fix { months := n }) ∧
      duration_to_relativedelta (pyStrOfInt n ++ "Y")
        = .ok (RelativeDelta.fix { years := n }) := by
  have hpos : ¬n < 0 := by omega
  have hnat : 0 < n.toNat := by omega
  have hs : pyStrOfInt n = pyStrOfNat n.toNat := by
    unfold pyStrOfInt
    rw [if_neg hpos]
  obtain ⟨hall, hparse, hne⟩ := pyStrOfNat_digits n.toNat hnat
  have hint : pyIntOfChars (pyStrOfInt n).toList = some n := by
    rw [hs]
    have h0 := pyIntOfChars_digits _ _ hall hparse
    rw [h0]
    congr 1
    omega
  have key : ∀ (u : String) (c : Char), u.toList = [c] → isDurLetter c = true →
      durSplit (pyStrOfInt n ++ u).toList
        = some ((pyStrOfInt n).toList, some c, []) := by
    intro u c huc hu
    have htl : (pyStrOfInt n ++ u).toList = (pyStrOfInt n).toList ++ [c] := by
      show (pyStrOfInt n ++ u).data = (pyStrOfInt n).data ++ [c]
      rw [String.data_append]
      exact congrArg _ huc
    rw [htl, hs]
    exact durSplit_digits _ hall c hu
  refine ⟨?_, ?_, ?_, ?_, ?_, ?_⟩
  · unfold duration_to_relativedelta
    rw [key "s" 's' rfl (by decide)]
    dsimp only
    rw [hint]
    dsimp only
    rw [if_pos (Or.inl (by decide : (String.mk ['s'] : String) = "s"))]
  · unfold duration_to_relativedelta
    rw [key "m" 'm' rfl (by decide)]
    dsimp only
    rw [hint]
    dsimp only
    rw [if_neg (by decide), if_pos (Or.inl (by decide : (String.mk ['m'] : String) = "m"))]
  · unfold duration_to_relativedelta
    rw [key "h" 'h' rfl (by decide)]
    dsimp only
    rw [hint]
    dsimp only
    rw [if_neg (by decide), if_neg (by decide),
      if_pos (Or.inl (by decide : (String.mk ['h'] : String) = "h"))]
  · unfold duration_to_relativedelta
    rw [key "D" 'D' rfl (by decide)]
    dsimp only
    rw [hint]
    dsimp only
    rw [if_neg (by decide), if_neg (by decide), if_neg (by decide),
      if_pos (Or.inl (by decide : (String.mk ['D'] : String) = "D"))]
  · unfold duration_to_relativedelta
    rw [key "M" 'M' rfl (by decide)]
    dsimp only
    rw [hint]
    dsimp only
    rw [if_neg (by decide), if_neg (by decide), if_neg (by decide), if_neg (by decide),
      if_pos (Or.inl (by decide : (String.mk ['M'] : String) = "M"))]
  · unfold duration_to_relativedelta
    rw [key "Y" 'Y' rfl (by decide)]
    dsimp only
    rw [hint]
    dsimp only
    rw [if_neg (by decide), if_neg (by decide), if_neg (by decide), if_neg (by decide),
      if_neg (by decide),
      if_pos (Or.inl (by decide : (String.mk ['Y'] : String) = "Y"))]

/-- A duration step of the kind produced by parsing a positive single-unit
duration string: nonnegative, `_fix`-normalised, nonzero, and purely in one
of the two unit chains (time or month). -/
def canonicalStep (r : RelativeDelta) : Prop :=
  r.Nonneg ∧ r.InBounds ∧ r ≠ RelativeDelta.zero ∧
    (r.monthTotal = 0 ∨ r.timeTotal = 0)

instance (r : RelativeDelta) : Decidable (canonicalStep r) := by
  unfold canonicalStep; infer_instance

/-- Formatting a canonical duration step and parsing the result yields the
step back (the duration codec round trip used by `Duration.to_database` and
`TimeSeriesFixedResolution.to_database`). -/
theorem canonical_duration_roundtrip (r : RelativeDelta) (h : canonicalStep r) :
    ∃ s, relativedelta_to_duration r = .ok s ∧ duration_to_relativedelta s = .ok r := by
  obtain ⟨hn, hb, hz, hchain⟩ := h
  have hn' := hn
  have hb' := hb
  obtain ⟨hy, hM, hd, hh, hm, hs⟩ := hn'
  obtain ⟨b1, b2, b3, b4⟩ := hb'
  by_cases hss : 0 < r.seconds
  · have hT : 0 < r.seconds + 60 * r.minutes + 60 * 60 * r.hours
        + 60 * 60 * 24 * r.days := by omega
    have hMT : r.monthTotal = 0 := by
      rcases hchain with h0 | h0
      · exact h0
      · exfalso
        unfold RelativeDelta.timeTotal at h0
        omega
    have hfmt : relativedelta_to_duration r = .ok (pyStrOfInt (r.seconds
        + 60 * r.minutes + 60 * 60 * r.hours + 60 * 60 * 24 * r.days) ++ "s") := by
      simp only [relativedelta_to_duration, if_pos hss]
    refine ⟨_, hfmt, ?_⟩
    rw [(duration_to_relativedelta_render _ hT).1]
    congr 1
    have hvnn : ({ seconds := r.seconds + 60 * r.minutes + 60 * 60 * r.hours
        + 60 * 60 * 24 * r.days } : RelativeDelta).Nonneg := by
      refine ⟨?_, ?_, ?_, ?_, ?_, ?_⟩ <;> dsimp only <;> omega
    have hfx := RelativeDelta.fix_nonneg _ hvnn
    apply RelativeDelta.eq_of_totals _ _ hfx.1 hfx.2 hn hb
    · rw [RelativeDelta.fix_timeTotal]
      unfold RelativeDelta.timeTotal
      dsimp only
      ring
    · rw [RelativeDelta.fix_monthTotal]
      unfold RelativeDelta.monthTotal at hMT ⊢
      dsimp only
      omega
  · by_cases hmm : 0 < r.minutes
    · have hT : 0 < r.minutes + 60 * r.hours + 60 * 24 * r.days := by omega
      have hMT : r.monthTotal = 0 := by
        rcases hchain with h0 | h0
        · exact h0
        · exfalso
          unfold RelativeDelta.timeTotal at h0
          omega
      have hfmt : relativedelta_to_duration r = .ok (pyStrOfInt (r.minutes
          + 60 * r.hours + 60 * 24 * r.days) ++ "m") := by
        simp only [relativedelta_to_duration, if_neg hss, if_pos hmm]
      refine ⟨_, hfmt, ?_⟩
      rw [(duration_to_relativedelta_render _ hT).2.1]
      congr 1
      have hvnn : ({ minutes := r.minutes + 60 * r.hours + 60 * 24 * r.days } :
          RelativeDelta).Nonneg := by
        refine ⟨?_, ?_, ?_, ?_, ?_, ?_⟩ <;> dsimp only <;> omega
      have hfx := RelativeDelta.fix_nonneg _ hvnn
      apply RelativeDelta.eq_of_totals _ _ hfx.1 hfx.2 hn hb
      · rw [RelativeDelta.fix_timeTotal]
        unfold RelativeDelta.timeTotal
        dsimp only
        have hs0 : r.seconds = 0 := by omega
        rw [hs0]
        ring
      · rw [RelativeDelta.fix_monthTotal]
        unfold RelativeDelta.monthTotal at hMT ⊢
        dsimp only
        omega
    · by_cases hhh : 0 < r.hours
      · have hT : 0 < r.hours + 24 * r.days := by omega
        have hMT : r.monthTotal = 0 := by
          rcases hchain with h0 | h0
          · exact h0
          · exfalso
            unfold RelativeDelta.timeTotal at h0
            omega
        have hfmt : relativedelta_to_duration r
            = .ok (pyStrOfInt (r.hours + 24 * r.days) ++ "h") := by
          simp only [relativedelta_to_duration, if_neg hss, if_neg hmm, if_pos hhh]
        refine ⟨_, hfmt, ?_⟩
        rw [(duration_to_relativedelta_render _ hT).2.2.1]
        congr 1
        have hvnn : ({ hours := r.hours + 24 * r.days } : RelativeDelta).Nonneg := by
          refine ⟨?_, ?_, ?_, ?_, ?_, ?_⟩ <;> dsimp only <;> omega
        have hfx := RelativeDelta.fix_nonneg _ hvnn
        apply RelativeDelta.eq_of_totals _ _ hfx.1 hfx.2 hn hb
        · rw [RelativeDelta.fix_timeTotal]
          unfold RelativeDelta.timeTotal
          dsimp only
          have hs0 : r.seconds = 0 := by omega
          have hm0 : r.minutes = 0 := by omega
          rw [hs0, hm0]
          ring
        · rw [RelativeDelta.fix_monthTotal]
          unfold RelativeDelta.monthTotal at hMT ⊢
          dsimp only
          omega
      · by_cases hdd : 0 < r.days
        · have hMT : r.monthTotal = 0 := by
            rcases hchain with h0 | h0
            · exact h0
            · exfalso
              unfold RelativeDelta.timeTotal at h0
              omega
          have hfmt : relativedelta_to_duration r
              = .ok (pyStrOfInt r.days ++ "D") := by
            simp only [relativedelta_to_duration, if_neg hss, if_neg hmm, if_neg hhh,
              if_pos hdd]
          refine ⟨_, hfmt, ?_⟩
          rw [(duration_to_relativedelta_render _ hdd).2.2.2.1]
          congr 1
          have hvnn : ({ days := r.days } : RelativeDelta).Nonneg := by
            refine ⟨?_, ?_, ?_, ?_, ?_, ?_⟩ <;> dsimp only <;> omega
          have hfx := RelativeDelta.fix_nonneg _ hvnn
          apply RelativeDelta.eq_of_totals _ _ hfx.1 hfx.2 hn hb
          · rw [RelativeDelta.fix_timeTotal]
            unfold RelativeDelta.timeTotal
            dsimp only
            omega
          · rw [RelativeDelta.fix_monthTotal]
            unfold RelativeDelta.monthTotal at hMT ⊢
            dsimp only
            omega
        · by_cases hMM : 0 < r.months
          · have hT : 0 < r.months + 12 * r.years := by omega
            have hfmt : relativedelta_to_duration r
                = .ok (pyStrOfInt (r.months + 12 * r.years) ++ "M") := by
              simp only [relativedelta_to_duration, if_neg hss, if_neg hmm, if_neg hhh,
                if_neg hdd, if_pos hMM]
            refine ⟨_, hfmt, ?_⟩
            rw [(duration_to_relativedelta_render _ hT).2.2.2.2.1]
            congr 1
            have hvnn : ({ months := r.months + 12 * r.years } :
                RelativeDelta).Nonneg := by
              refine ⟨?_, ?_, ?_, ?_, ?_, ?_⟩ <;> dsimp only <;> omega
            have hfx := RelativeDelta.fix_nonneg _ hvnn
            apply RelativeDelta.eq_of_totals _ _ hfx.1 hfx.2 hn hb
            · rw [RelativeDelta.fix_timeTotal]
              unfold RelativeDelta.timeTotal
              dsimp only
              omega
            · rw [RelativeDelta.fix_monthTotal]
              unfold RelativeDelta.monthTotal
              dsimp only
              ring
          · by_cases hYY : 0 < r.years
            · have hfmt : relativedelta_to_duration r
                  = .ok (pyStrOfInt r.years ++ "Y") := by
                simp only [relativedelta_to_duration, if_neg hss, if_neg hmm, if_neg hhh,
                  if_neg hdd, if_neg hMM, if_pos hYY]
              refine ⟨_, hfmt, ?_⟩
              rw [(duration_to_relativedelta_render _ hYY).2.2.2.2.2]
              congr 1
              have hvnn : ({ years := r.years } : RelativeDelta).Nonneg := by
                refine ⟨?_, ?_, ?_, ?_, ?_, ?_⟩ <;> dsimp only <;> omega
              have hfx := RelativeDelta.fix_nonneg _ hvnn
              apply RelativeDelta.eq_of_totals _ _ hfx.1 hfx.2 hn hb
              · rw [RelativeDelta.fix_timeTotal]
                unfold RelativeDelta.timeTotal
                dsimp only
                omega
              · rw [RelativeDelta.fix_monthTotal]
                unfold RelativeDelta.monthTotal
                dsimp only
                omega
            · exfalso
              apply hz
              obtain ⟨y, M, d, h, m, s⟩ := r
              dsimp only at hy hM hd hh hm hs hss hmm hhh hdd hMM hYY
              unfold RelativeDelta.zero
              simp only [RelativeDelta.mk.injEq]
              refine ⟨by omega, by omega, by omega, by omega, by omega, by omega⟩

/-- C6, counterexample.  The claim says formatting folds **all** larger units
into the count of the smallest non-zero unit (priority seconds, minutes,
hours, days, months, years).  The code instead discards months and years
when the smallest non-zero unit is a sub-month unit: a 1-month-1-second
delta and a bare 1-second delta both format as `"1s"`, so the month is
dropped, not folded. -/
theorem relativedelta_to_duration_drops_months :
    relativedelta_to_duration ⟨0, 1, 0, 0, 0, 1⟩ = .ok "1s" ∧
      relativedelta_to_duration ⟨0, 0, 0, 0, 0, 1⟩ = .ok "1s" ∧
      (⟨0, 1, 0, 0, 0, 1⟩ : RelativeDelta) ≠ ⟨0, 0, 0, 0, 0, 1⟩ := by
  refine ⟨rfl, rfl, by decide⟩

/-- C6 (amended): formatting picks the smallest positive unit in priority
order seconds, minutes, hours, days, months, years; minutes/hours/days fold
into the seconds count, hours/days into the minutes count, days into the
hours count and years into the months count, while months and years are
discarded by the seconds/minutes/hours/days branches; an entirely
non-positive delta is a format error; a 1-day-2-hour delta formats as
`"26h"`; and parse/format are mutually inverse on the canonical single-unit
examples (`format(parse("7h")) = "7h"`, `parse("1 hour") = parse("1h")`). -/
theorem relativedelta_to_duration_spec :
    (∀ d : RelativeDelta, 0 < d.seconds →
        relativedelta_to_duration d
          = .ok (pyStrOfInt (d.seconds + 60 * d.minutes + 3600 * d.hours + 86400 * d.days) ++ "s")) ∧
    (∀ d : RelativeDelta, d.seconds ≤ 0 → 0 < d.minutes →
        relativedelta_to_duration d
          = .ok (pyStrOfInt (d.minutes + 60 * d.hours + 1440 * d.days) ++ "m")) ∧
    (∀ d : RelativeDelta, d.seconds ≤ 0 → d.minutes ≤ 0 → 0 < d.hours →
        relativedelta_to_duration d = .ok (pyStrOfInt (d.hours + 24 * d.days) ++ "h")) ∧
    (∀ d : RelativeDelta, d.seconds ≤ 0 → d.minutes ≤ 0 → d.hours ≤ 0 → 0 < d.days →
        relativedelta_to_duration d = .ok (pyStrOfInt d.days ++ "D")) ∧
    (∀ d : RelativeDelta, d.seconds ≤ 0 → d.minutes ≤ 0 → d.hours ≤ 0 → d.days ≤ 0 →
        0 < d.months →
        relativedelta_to_duration d = .ok (pyStrOfInt (d.months + 12 * d.years) ++ "M")) ∧
    (∀ d : RelativeDelta, d.seconds ≤ 0 → d.minutes ≤ 0 → d.hours ≤ 0 → d.days ≤ 0 →
        d.months ≤ 0 → 0 < d.years →
        relativedelta_to_duration d = .ok (pyStrOfInt d.years ++ "Y")) ∧
    relativedelta_to_duration ⟨0, 0, 1, 2, 0, 0⟩ = .ok "26h" ∧
    (duration_to_relativedelta "7h").bind relativedelta_to_duration = .ok "7h" ∧
    duration_to_relativedelta "1 hour" = duration_to_relativedelta "1h" := by
  refine ⟨?_, ?_, ?_, ?_, ?_, ?_, rfl, rfl, rfl⟩
  · intro d h
    simp only [relativedelta_to_duration, if_pos h, Except.ok.injEq]
    congr 2
  · intro d h1 h2
    simp only [relativedelta_to_duration, if_neg (by omega : ¬0 < d.seconds),
      if_pos h2, Except.ok.injEq]
    congr 2
  · intro d h1 h2 h3
    simp only [relativedelta_to_duration, if_neg (by omega : ¬0 < d.seconds),
      if_neg (by omega : ¬0 < d.minutes), if_pos h3]
  · intro d h1 h2 h3 h4
    simp only [relativedelta_to_duration, if_neg (by omega : ¬0 < d.seconds),
      if_neg (by omega : ¬0 < d.minutes), if_neg (by omega : ¬0 < d.hours), if_pos h4]
  · intro d h1 h2 h3 h4 h5
    simp only [relativedelta_to_duration, if_neg (by omega : ¬0 < d.seconds),
      if_neg (by omega : ¬0 < d.minutes), if_neg (by omega : ¬0 < d.hours),
      if_neg (by omega : ¬0 < d.days), if_pos h5]
  · intro d h1 h2 h3 h4 h5 h6
    simp only [relativedelta_to_duration, if_neg (by omega : ¬0 < d.seconds),
      if_neg (by omega : ¬0 < d.minutes), if_neg (by omega : ¬0 < d.hours),
      if_neg (by omega : ¬0 < d.days), if_neg (by omega : ¬0 < d.months), if_pos h6]

/-- C6, witness: the seconds branch of `relativedelta_to_duration_spec`
evaluated at the 5-minute-7-second delta. -/
theorem relativedelta_to_duration_spec_witness :
    0 < (⟨0, 0, 0, 0, 5, 7⟩ : RelativeDelta).seconds ∧
      relativedelta_to_duration ⟨0, 0, 0, 0, 5, 7⟩
        = .ok (pyStrOfInt ((7 : Int) + 60 * 5 + 3600 * 0 + 86400 * 0) ++ "s") :=
  ⟨by decide, relativedelta_to_duration_spec.1 ⟨0, 0, 0, 0, 5, 7⟩ (by decide)⟩

/-! ### Python datetimes and `datetime + relativedelta`
`TimeSeriesFixedResolution.indexes` adds relativedeltas to a start datetime;
we model `datetime.datetime` at second precision (the module stores stamps
with numpy dtype `datetime64[s]`) and dateutil's `relativedelta.__radd__`. -/

/-- A naive `datetime.datetime` at second precision. -/
structure PyDateTime where
  year : Int
  month : Int
  day : Int
  hour : Int := 0
  minute : Int := 0
  second : Int := 0
deriving DecidableEq, Repr

/-- Gregorian leap year (`calendar.isleap`). -/
def isLeapYear (y : Int) : Bool :=
  y % 4 = 0 && (y % 100 ≠ 0 || y % 400 = 0)

/-- `calendar.monthrange(y, m)[1]`: number of days of month `m` of year `y`. -/
def daysInMonth (y m : Int) : Int :=
  if m = 2 then (if isLeapYear y then 29 else 28)
  else if m = 4 ∨ m = 6 ∨ m = 9 ∨ m = 11 then 30
  else 31

/-- The day after a calendar date. -/
def nextDay : Int × Int × Int → Int × Int × Int
  | (y, m, d) =>
    if d < daysInMonth y m then (y, m, d + 1)
    else if m < 12 then (y, m + 1, 1)
    else (y + 1, 1, 1)

/-- The day before a calendar date. -/
def prevDay : Int × Int × Int → Int × Int × Int
  | (y, m, d) =>
    if 1 < d then (y, m, d - 1)
    else if 1 < m then (y, m - 1, daysInMonth y (m - 1))
    else (y - 1, 12, 31)

/-- Shift a calendar date by a signed number of days (the date part of
Python `datetime + timedelta`). -/
def addDays (p : Int × Int × Int) : Int → Int × Int × Int
  | .ofNat n => Nat.rec p (fun _ q => nextDay q) n
  | .negSucc n => Nat.rec (prevDay p) (fun _ q => prevDay q) n

/-- `datetime + relativedelta` (dateutil `relativedelta.__radd__`): add the
years; add the months with a single 12-carry (the delta is `_fix`-normalised
so `|months| ≤ 11`); clamp the day to the target month's length; then add
`timedelta(days, hours, minutes, seconds)` exactly on the time line. -/
def PyDateTime.addDelta (dt : PyDateTime) (delta : RelativeDelta) : PyDateTime :=
  let year := dt.year + delta.years
  let ym : Int × Int :=
    if delta.months ≠ 0 then
      let m := dt.month + delta.months
      if 12 < m then (year + 1, m - 12)
      else if m < 1 then (year - 1, m + 12)
      else (year, m)
    else (year, dt.month)
  let day := min (daysInMonth ym.1 ym.2) dt.day
  let timeOfDay := dt.hour * 3600 + dt.minute * 60 + dt.second
  let total := timeOfDay + delta.days * 86400 + delta.hours * 3600
    + delta.minutes * 60 + delta.seconds
  let date := addDays (ym.1, ym.2, day) (total / 86400)
  let sod := total % 86400
  { year := date.1, month := date.2.1, day := date.2.2,
    hour := sod / 3600, minute := sod % 3600 / 60, second := sod % 60 }

/-- A well-formed datetime value (what `datetime.datetime` itself enforces). -/
def PyDateTime.Valid (dt : PyDateTime) : Prop :=
  1 ≤ dt.month ∧ dt.month ≤ 12 ∧ 1 ≤ dt.day ∧ dt.day ≤ daysInMonth dt.year dt.month ∧
    0 ≤ dt.hour ∧ dt.hour < 24 ∧ 0 ≤ dt.minute ∧ dt.minute < 60 ∧
    0 ≤ dt.second ∧ dt.second < 60

instance (dt : PyDateTime) : Decidable dt.Valid := by
  unfold PyDateTime.Valid; infer_instance

theorem addDays_zero (p : Int × Int × Int) : addDays p 0 = p := rfl

/-- Adding the zero relativedelta to a valid datetime is the identity (in
Python, `dt + relativedelta() == dt`). -/
theorem PyDateTime.addDelta_zero (dt : PyDateTime) (h : dt.Valid) :
    dt.addDelta RelativeDelta.zero = dt := by
  obtain ⟨y, mo, d, hh, mi, s⟩ := dt
  unfold PyDateTime.Valid at h
  dsimp only at h
  obtain ⟨h1, h2, h3, h4, h5, h6, h7, h8, h9, h10⟩ := h
  unfold PyDateTime.addDelta RelativeDelta.zero
  dsimp only
  simp only [add_zero, zero_mul, mul_zero, ne_eq, not_true_eq_false, if_false]
  have hmin : min (daysInMonth y mo) d = d := min_eq_right h4
  have hdiv : (hh * 3600 + mi * 60 + s) / 86400 = 0 := by omega
  rw [hmin, hdiv, addDays_zero]
  have hmod : (hh * 3600 + mi * 60 + s) % 86400 = hh * 3600 + mi * 60 + s := by omega
  rw [hmod]
  simp only [PyDateTime.mk.injEq]
  refine ⟨trivial, trivial, trivial, by omega, by omega, by omega⟩

/-! ### `TimeSeriesFixedResolution.indexes` (C4) -/

/-- The duration from the start used by iteration `stamp_index = j + 1` of
the loop in `TimeSeriesFixedResolution.indexes`: after the reset check, the
effective step index is `j % k` and the cycle index is `j / k`, and the code
computes `step_cycle_index * full_cycle_duration +
sum(self._resolution[: step_index + 1], relativedelta())`. -/
def tsfrLoopDuration (res : List RelativeDelta) (j : Nat) : RelativeDelta :=
  (RelativeDelta.nsmul (j / res.length) (RelativeDelta.pySum res)).add
    (RelativeDelta.pySum (res.take (j % res.length + 1)))

/-- The loop of `TimeSeriesFixedResolution.indexes`, producing the stamps for
`stamp_index = 1, ...`: arguments are the remaining iteration count and the
mutable `step_index` / `step_cycle_index` of the source. -/
def tsfrIndexesAux (start : PyDateTime) (res : List RelativeDelta) :
    Nat → Nat → Nat → List PyDateTime
  | 0, _, _ => []
  | count + 1, stepIndex, stepCycleIndex =>
    let stepIndex' := if res.length ≤ stepIndex then 0 else stepIndex
    let stepCycleIndex' :=
      if res.length ≤ stepIndex then stepCycleIndex + 1 else stepCycleIndex
    let currentCycleDuration := RelativeDelta.pySum (res.take (stepIndex' + 1))
    let durationFromStart :=
      (RelativeDelta.nsmul stepCycleIndex' (RelativeDelta.pySum res)).add
        currentCycleDuration
    start.addDelta durationFromStart ::
      tsfrIndexesAux start res count (stepIndex' + 1) stepCycleIndex'

/-- `TimeSeriesFixedResolution.indexes`: `stamps[0] = self._start` and stamp
`i ≥ 1` is produced by the loop.  `n` is `len(self)`; `n = 0` is unreachable
because `TimeSeries.__init__` requires at least two values. -/
def tsfrIndexes (start : PyDateTime) (res : List RelativeDelta) (n : Nat) :
    List PyDateTime :=
  match n with
  | 0 => []
  | count + 1 => start :: tsfrIndexesAux start res count 0 0

theorem tsfrIndexesAux_spec (start : PyDateTime) (res : List RelativeDelta)
    (hk : res ≠ []) :
    ∀ (count s q : Nat), s ≤ res.length →
      tsfrIndexesAux start res count s q =
        (List.range count).map
          (fun t => start.addDelta (tsfrLoopDuration res (q * res.length + s + t))) := by
  have hk0 : 0 < res.length := List.length_pos.mpr hk
  intro count
  induction count with
  | zero => intro s q _; rfl
  | succ m ih =>
    intro s q hs
    rw [List.range_succ_eq_map, List.map_cons, List.map_map]
    by_cases hcase : res.length ≤ s
    · have hsk : s = res.length := le_antisymm hs hcase
      subst hsk
      simp only [tsfrIndexesAux, if_pos hcase]
      congr 1
      · have hj : q * res.length + res.length + 0 = (q + 1) * res.length := by ring
        rw [hj]
        unfold tsfrLoopDuration
        rw [Nat.mul_div_cancel _ hk0, Nat.mul_mod_left]
      · rw [ih 1 (q + 1) hk0]
        apply List.map_congr_left
        intro t _
        have harg : (q + 1) * res.length + 1 + t
            = q * res.length + res.length + (t + 1) := by ring
        simp only [Function.comp]
        rw [harg]
    · have hslt : s < res.length := lt_of_not_ge hcase
      simp only [tsfrIndexesAux, if_neg hcase]
      congr 1
      · have hdiv : (q * res.length + s + 0) / res.length = q := by
          rw [Nat.add_zero, mul_comm, Nat.mul_add_div hk0, Nat.div_eq_of_lt hslt,
            Nat.add_zero]
        have hmod : (q * res.length + s + 0) % res.length = s := by
          rw [Nat.add_zero, mul_comm, Nat.mul_add_mod, Nat.mod_eq_of_lt hslt]
        unfold tsfrLoopDuration
        rw [hdiv, hmod]
      · rw [ih (s + 1) q (by omega)]
        apply List.map_congr_left
        intro t _
        have harg : q * res.length + (s + 1) + t = q * res.length + s + (t + 1) := by
          omega
        simp only [Function.comp]
        rw [harg]

/-- The loop duration for stamp `i ≥ 1` equals the claimed cyclic formula
`(i / k) * full_cycle + sum(res[: i % k])`, for nonnegative resolution
steps. -/
theorem tsfrLoopDuration_eq_claim (res : List RelativeDelta)
    (hres : ∀ r ∈ res, r.Nonneg) (hk : res ≠ []) (j : Nat) :
    tsfrLoopDuration res j =
      (RelativeDelta.nsmul ((j + 1) / res.length) (RelativeDelta.pySum res)).add
        (RelativeDelta.pySum (res.take ((j + 1) % res.length))) := by
  have hk0 : 0 < res.length := List.length_pos.mpr hk
  set k := res.length with hkdef
  have hdecomp := Nat.div_add_mod j k
  set q := j / k with hq
  set s := j % k with hsdef
  have hslt : s < k := Nat.mod_lt _ hk0
  by_cases hlast : s + 1 = k
  · have hj1 : j + 1 = k * (q + 1) := by
      have hmulsucc : k * (q + 1) = k * q + k := Nat.mul_succ k q
      omega
    have hdiv : (j + 1) / k = q + 1 := by
      rw [hj1, Nat.mul_div_cancel_left _ hk0]
    have hmod : (j + 1) % k = 0 := by
      rw [hj1, Nat.mul_mod_right]
    rw [hdiv, hmod]
    unfold tsfrLoopDuration
    rw [← hq, ← hsdef, hlast, hkdef, List.take_length]
    have hfull : (RelativeDelta.pySum res).Nonneg := RelativeDelta.pySum_nonneg res hres
    have hmul1 := RelativeDelta.nsmul_nonneg_inBounds q _ hfull
    have hmul2 := RelativeDelta.nsmul_nonneg_inBounds (q + 1) _ hfull
    have hzero : (RelativeDelta.pySum []).Nonneg := RelativeDelta.zero_nonneg
    have hadd1 := RelativeDelta.add_nonneg_inBounds _ _ hmul1.1 hfull
    have hadd2 := RelativeDelta.add_nonneg_inBounds _ _ hmul2.1 hzero
    apply RelativeDelta.eq_of_totals _ _ hadd1.1 hadd1.2 hadd2.1 hadd2.2
    · rw [RelativeDelta.add_timeTotal, RelativeDelta.add_timeTotal,
        RelativeDelta.nsmul_timeTotal, RelativeDelta.nsmul_timeTotal]
      have hz : (RelativeDelta.pySum []).timeTotal = 0 := rfl
      rw [hz]
      push_cast
      ring
    · rw [RelativeDelta.add_monthTotal, RelativeDelta.add_monthTotal,
        RelativeDelta.nsmul_monthTotal, RelativeDelta.nsmul_monthTotal]
      have hz : (RelativeDelta.pySum []).monthTotal = 0 := rfl
      rw [hz]
      push_cast
      ring
  · have hj1 : j + 1 = k * q + (s + 1) := by omega
    have hs1 : s + 1 < k := by omega
    have hdiv : (j + 1) / k = q := by
      rw [hj1, Nat.mul_add_div hk0, Nat.div_eq_of_lt hs1, Nat.add_zero]
    have hmod : (j + 1) % k = s + 1 := by
      rw [hj1, Nat.mul_add_mod, Nat.mod_eq_of_lt hs1]
    rw [hdiv, hmod]
    unfold tsfrLoopDuration
    rw [← hq, ← hsdef]

/-- C4: for every fixed-resolution series with a valid start, a non-empty
list of nonnegative resolution steps and `n` values, the index at position
`i < n` equals `start + (i / k) * (sum of all steps) + (sum of the first
`i % k` steps)` — the steps applied cyclically; in particular the start
`2019-01-31` with resolution `["1 day", "1M"]` and 4 values yields exactly
`[2019-01-31, 2019-02-01, 2019-03-01, 2019-03-02]`. -/
theorem tsfrIndexes_spec :
    (∀ (start : PyDateTime) (res : List RelativeDelta) (n i : Nat),
        start.Valid → res ≠ [] → (∀ r ∈ res, r.Nonneg) → i < n →
        (tsfrIndexes start res n)[i]? =
          some (start.addDelta
            ((RelativeDelta.nsmul (i / res.length) (RelativeDelta.pySum res)).add
              (RelativeDelta.pySum (res.take (i % res.length)))))) ∧
    tsfrIndexes ⟨2019, 1, 31, 0, 0, 0⟩
        [{ days := 1 }, { months := 1 }] 4 =
      [⟨2019, 1, 31, 0, 0, 0⟩, ⟨2019, 2, 1, 0, 0, 0⟩, ⟨2019, 3, 1, 0, 0, 0⟩,
        ⟨2019, 3, 2, 0, 0, 0⟩] := by
  constructor
  · intro start res n i hstart hk hres hi
    have hk0 : 0 < res.length := List.length_pos.mpr hk
    match n, hi with
    | m + 1, hi =>
      match i with
      | 0 =>
        have hzero :
            (RelativeDelta.nsmul (0 / res.length) (RelativeDelta.pySum res)).add
              (RelativeDelta.pySum (res.take (0 % res.length)))
              = RelativeDelta.zero := by
          rw [Nat.zero_div, Nat.zero_mod, List.take_zero]
          have h1 : RelativeDelta.nsmul 0 (RelativeDelta.pySum res)
              = RelativeDelta.zero := by
            unfold RelativeDelta.nsmul
            norm_num
            rfl
          rw [h1]
          rfl
        rw [hzero, PyDateTime.addDelta_zero start hstart]
        show (start :: tsfrIndexesAux start res m 0 0)[0]? = some start
        exact List.getElem?_cons_zero
      | j + 1 =>
        have hj : j < m := by omega
        show (start :: tsfrIndexesAux start res m 0 0)[j + 1]? = _
        rw [List.getElem?_cons_succ,
          tsfrIndexesAux_spec start res hk m 0 0 (Nat.zero_le _)]
        simp only [List.getElem?_map, List.getElem?_range hj, Option.map_some',
          Nat.zero_mul, Nat.zero_add]
        rw [tsfrLoopDuration_eq_claim res hres hk j]
  · decide

/-- C4, witness: the cyclic-formula theorem evaluated at position 2 of the
series of the claim (start 2019-01-31, resolution `["1 day", "1M"]`, 4
values). -/
theorem tsfrIndexes_spec_witness :
    (⟨2019, 1, 31, 0, 0, 0⟩ : PyDateTime).Valid ∧
      ([{ days := 1 }, { months := 1 }] : List RelativeDelta) ≠ [] ∧
      (∀ r ∈ ([{ days := 1 }, { months := 1 }] : List RelativeDelta), r.Nonneg) ∧
      (2 : Nat) < 4 ∧
      (tsfrIndexes ⟨2019, 1, 31, 0, 0, 0⟩ [{ days := 1 }, { months := 1 }] 4)[2]? =
        some ((⟨2019, 1, 31, 0, 0, 0⟩ : PyDateTime).addDelta
          ((RelativeDelta.nsmul (2 / ([{ days := 1 }, { months := 1 }] :
                List RelativeDelta).length)
              (RelativeDelta.pySum [{ days := 1 }, { months := 1 }])).add
            (RelativeDelta.pySum (([{ days := 1 }, { months := 1 }] :
                List RelativeDelta).take
              (2 % ([{ days := 1 }, { months := 1 }] : List RelativeDelta).length))))) :=
  ⟨by decide, by decide, by decide, by decide,
    tsfrIndexes_spec.1 ⟨2019, 1, 31, 0, 0, 0⟩ [{ days := 1 }, { months := 1 }] 4 2
      (by decide) (by decide) (by decide) (by decide)⟩

/-- C10: any relativedelta with no strictly positive field — including
nonzero all-negative deltas — is rejected by `relativedelta_to_duration`
with the `"Zero relativedelta"` format error, while
`duration_to_relativedelta` happily parses a negative duration string such
as `"-5h"`; a `Duration` parsed from such a string therefore cannot be
encoded back to the database. -/
theorem relativedelta_to_duration_rejects_nonpositive :
    (∀ d : RelativeDelta, d.seconds ≤ 0 → d.minutes ≤ 0 → d.hours ≤ 0 →
        d.days ≤ 0 → d.months ≤ 0 → d.years ≤ 0 →
        relativedelta_to_duration d = .error ("Zero relativedelta")) ∧
    duration_to_relativedelta "-5h" = .ok ⟨0, 0, 0, -5, 0, 0⟩ ∧
    relativedelta_to_duration ⟨0, 0, 0, -5, 0, 0⟩ = .error ("Zero relativedelta") := by
  refine ⟨?_, rfl, rfl⟩
  intro d h1 h2 h3 h4 h5 h6
  simp only [relativedelta_to_duration, if_neg (by omega : ¬0 < d.seconds),
    if_neg (by omega : ¬0 < d.minutes), if_neg (by omega : ¬0 < d.hours),
    if_neg (by omega : ¬0 < d.days), if_neg (by omega : ¬0 < d.months),
    if_neg (by omega : ¬0 < d.years)]

/-- C10, witness: the rejection theorem evaluated at the −5-second delta. -/
theorem relativedelta_to_duration_rejects_nonpositive_witness :
    relativedelta_to_duration ⟨0, 0, 0, 0, 0, -5⟩ = .error ("Zero relativedelta") :=
  relativedelta_to_duration_rejects_nonpositive.1 ⟨0, 0, 0, 0, 0, -5⟩
    (by decide) (by decide) (by decide) (by decide) (by decide) (by decide)

/-! ### The JSON layer

`from_database` receives `json.loads` output and `to_database` feeds
`json.dumps`; both ends of the string serialisation are modelled at the
JSON-tree level (`json.dumps` followed by `json.loads` is the identity on
these trees).  Python `int` and `float` scalars are distinguished, as
`json.loads` distinguishes them. -/

/-- Model of a Python `str` inside a JSON document.  `raw` strings keep
their text; `dt` is the rendering of a datetime (`str(datetime)`,
`datetime.isoformat()` or `str(numpy.datetime64)` — dateutil, an external
library, parses every one of them back to the same instant, which the model
expresses structurally). -/
inductive JStr where
  | raw (s : String)
  | dt (d : PyDateTime)
deriving DecidableEq, Repr

mutual

/-- A JSON value as produced by `json.loads` (objects keep key order). -/
inductive Json where
  | null
  | bool (b : Bool)
  | int (n : Int)
  | num (q : ℚ)
  | str (s : JStr)
  | arr (elements : JsonList)
  | obj (fields : JsonFields)
deriving DecidableEq, Repr

/-- Spine of a JSON array. -/
inductive JsonList where
  | nil
  | cons (head : Json) (tail : JsonList)
deriving DecidableEq, Repr

/-- Spine of a JSON object: insertion-ordered key/value pairs (keys are
unique in any `json.loads` output). -/
inductive JsonFields where
  | nil
  | cons (key : JStr) (value : Json) (tail : JsonFields)
deriving DecidableEq, Repr

end

def JsonList.ofList : List Json → JsonList
  | [] => .nil
  | j :: rest => .cons j (JsonList.ofList rest)

def JsonFields.ofList : List (JStr × Json) → JsonFields
  | [] => .nil
  | p :: rest => .cons p.1 p.2 (JsonFields.ofList rest)

def JsonFields.toList : JsonFields → List (JStr × Json)
  | .nil => []
  | .cons k v rest => (k, v) :: rest.toList

/-- Comparison of a JSON object key with a literal Python string.  A
datetime rendering (all digits and separators, at least ten characters) is
never one of the short field names this module looks up. -/
def jstrEqString : JStr → String → Bool
  | .raw s, t => s == t
  | .dt _, _ => false

/-- Python `value[name]` / `value.get(name)` on a decoded JSON object. -/
def jsonLookup : JsonFields → String → Option Json
  | .nil, _ => none
  | .cons k v rest, name =>
    if jstrEqString k name then some v else jsonLookup rest name

/-- Python `d[key] = value` on an insertion-ordered dict: replaces in place
or appends. -/
def dictInsert : JsonFields → JStr → Json → JsonFields
  | .nil, k, v => .cons k v .nil
  | .cons k0 v0 rest, k, v =>
    if k0 = k then .cons k0 v rest else .cons k0 v0 (dictInsert rest k v)

/-- Build a Python dict by inserting pairs in order (the `data[x] = y` loops
of the encoders). -/
def pyDict (pairs : List (JStr × Json)) : JsonFields :=
  pairs.foldl (fun d p => dictInsert d p.1 p.2) .nil

/-- Python truthiness of a decoded JSON value (`bool(...)` never raises on
these, making the `except ValueError` branches around it dead code). -/
def pyBool : Json → Bool
  | .null => false
  | .bool b => b
  | .int n => n != 0
  | .num q => q != 0
  | .str (.raw s) => s != ""
  | .str (.dt _) => true
  | .arr .nil => false
  | .arr _ => true
  | .obj .nil => false
  | .obj _ => true

/-- `value_type == "<tag>"` for a JSON value. -/
def jsonIsStr (j : Json) (t : String) : Bool :=
  match j with
  | .str js => jstrEqString js t
  | _ => false

/-- `isinstance(x, collections.abc.Sequence)` for a decoded JSON value:
lists and strings are Sequences. -/
def jsonIsSequence : Json → Bool
  | .arr _ => true
  | .str _ => true
  | _ => false

/-- Effectful map over a JSON array. -/
def jsonListMapM {α : Type} (f : Json → Except String α) :
    JsonList → Except String (List α)
  | .nil => .ok []
  | .cons j tl => do
    let a ← f j
    let rest ← jsonListMapM f tl
    .ok (a :: rest)

/-- Effectful map over the entries of a JSON object. -/
def jsonFieldsMapM {α : Type} (f : JStr → Json → Except String α) :
    JsonFields → Except String (List α)
  | .nil => .ok []
  | .cons k v tl => do
    let a ← f k v
    let rest ← jsonFieldsMapM f tl
    .ok (a :: rest)

/-! ### Timestamp parsing -/

def expectChar (c : Char) : List Char → Option (List Char)
  | d :: rest => if d = c then some rest else none
  | [] => none

def takeDigitsGo : Nat → Nat → List Char → Option (Nat × List Char)
  | acc, 0, cs => some (acc, cs)
  | acc, k + 1, c :: cs =>
    if isDigitChar c then takeDigitsGo (10 * acc + (c.toNat - 48)) k cs else none
  | _, _ + 1, [] => none

/-- The ISO subset of `dateutil.parser.parse` exercised by this module:
`YYYY-MM-DD`, optionally followed by `T` or a space and `HH:MM[:SS]`, with
the field validation `datetime.datetime` itself performs.  (dateutil's
fuzzy formats are external-library behaviour outside the embedding.) -/
def parseIsoDateTime (s : String) : Option PyDateTime := do
  let cs := s.toList
  let (y, cs) ← takeDigitsGo 0 4 cs
  let cs ← expectChar '-' cs
  let (mo, cs) ← takeDigitsGo 0 2 cs
  let cs ← expectChar '-' cs
  let (d, cs) ← takeDigitsGo 0 2 cs
  let (hh, mi, ss) ←
    match cs with
    | [] => some ((0 : Nat), (0 : Nat), (0 : Nat))
    | sep :: rest =>
      if sep = 'T' ∨ sep = ' ' then do
        let (hh, rest) ← takeDigitsGo 0 2 rest
        let rest ← expectChar ':' rest
        let (mi, rest) ← takeDigitsGo 0 2 rest
        match rest with
        | [] => some (hh, mi, 0)
        | _ => do
          let rest2 ← expectChar ':' rest
          let (ss, rest2) ← takeDigitsGo 0 2 rest2
          if rest2 = [] then some (hh, mi, ss) else none
      else none
  let dt : PyDateTime := ⟨(y : Int), (mo : Int), (d : Int), (hh : Int), (mi : Int), (ss : Int)⟩
  if dt.Valid then some dt else none

/-- `dateutil.parser.parse` on a JSON string: a structural datetime
rendering parses back to its instant; a raw string goes through the ISO
parser. -/
def parseTimestamp : JStr → Option PyDateTime
  | .raw s => parseIsoDateTime s
  | .dt d => some d

/-- `duration_to_relativedelta` on a JSON string: a datetime rendering never
matches `<int><unit>` (its leading `YYYY-MM-DD` part is not an int), so it
is a format error. -/
def durationFromJStr : JStr → Except String RelativeDelta
  | .raw s => duration_to_relativedelta s
  | .dt _ => .error ("Could not parse duration")

/-! ### The decoded value objects -/

/-- Modelled from the spec: the decoded index of a `Map` entry, per the
declared `index_type` (`str`, `float`, `date_time` or `duration`).  The
`Map` class itself is missing from the sources under `src/`; only
`test/test_parameter_value.py` exercises it. -/
inductive MapIndex where
  | str (s : JStr)
  | float (q : ℚ)
  | dateTime (d : PyDateTime)
  | duration (value : List RelativeDelta)
deriving DecidableEq, Repr

mutual

/-- The result of `from_database`: a legacy plain scalar or one of the typed
value classes of `parameter_value.py` (plus the spec-modelled `Map`).
Equality of the variants mirrors the `__eq__` methods: fieldwise, with the
numpy arrays compared element-wise. -/
inductive DecodedValue where
  | plain (j : Json)
  | dateTime (value : PyDateTime)
  | duration (value : List RelativeDelta)
  | timePattern (indexes : List JStr) (values : List ℚ)
  | timeSeriesFixedResolution (start : PyDateTime) (resolution : List RelativeDelta)
      (values : List ℚ) (ignore_year : Bool) (repeat_ : Bool)
  | timeSeriesVariableResolution (indexes : List PyDateTime) (values : List ℚ)
      (ignore_year : Bool) (repeat_ : Bool)
  | map (indexes : List MapIndex) (values : DecodedValueList)
deriving DecidableEq, Repr

/-- Spine of a `Map`'s value column (values may be nested maps). -/
inductive DecodedValueList where
  | nil
  | cons (head : DecodedValue) (tail : DecodedValueList)
deriving DecidableEq, Repr

end

def DecodedValueList.ofList : List DecodedValue → DecodedValueList
  | [] => .nil
  | v :: rest => .cons v (DecodedValueList.ofList rest)

def DecodedValue.isMap : DecodedValue → Bool
  | .map _ _ => true
  | _ => false

def DecodedValueList.any (p : DecodedValue → Bool) : DecodedValueList → Bool
  | .nil => false
  | .cons v rest => p v || rest.any p

/-- Modelled from the spec: `Map.is_nested()` — a Map is nested iff any of
its values is itself a Map (`Map` is missing from the sources under
`src/`). -/
def map_is_nested (values : DecodedValueList) : Bool :=
  values.any DecodedValue.isMap

/-! ### `from_database` and its helpers -/

/-- The message of the `KeyError`-driven format error of `from_database`. -/
def keyErrorMsg (k : String) : String :=
  "\"" ++ k ++ "\" is missing in the parameter value description"

/-- Coercion of a JSON scalar into a float64 cell of a numpy array
(`np.array(data)` / `values[index] = v`).  Booleans coerce to 0/1;
non-numeric entries are modelled as errors (numpy would build a non-float
array that no later code path accepts). -/
def jsonToFloat : Json → Except String ℚ
  | .int n => .ok (n : ℚ)
  | .num q => .ok q
  | .bool b => .ok (if b then 1 else 0)
  | _ => .error ("could not convert value to float")

/-- `_datetime_from_database`. -/
def datetime_from_database (value : Json) : Except String DecodedValue :=
  match value with
  | .str js =>
    match parseTimestamp js with
    | some d => .ok (.dateTime d)
    | none => .error ("Could not parse datetime from value")
  | _ => .error ("TypeError: parser argument must be a string")

/-- One element of a duration list: strings parse, plain ints default to
minutes, everything else stringifies to text `int()` rejects. -/
def durationListElem : Json → Except String RelativeDelta
  | .str js => durationFromJStr js
  | .int n => duration_to_relativedelta (pyStrOfInt n ++ "m")
  | _ => .error ("Could not parse duration")

/-- `_duration_from_database`: strings and ints make one-element durations,
lists map elementwise (ints defaulting to minutes), anything else is
unsupported.  (A JSON `true`/`false` is an `int` to `isinstance` and lands
in the text branch, which then fails to parse `"Truem"`.) -/
def duration_from_database (value : Json) : Except String DecodedValue :=
  match value with
  | .str js => (durationFromJStr js).map fun r => .duration [r]
  | .int n => (duration_to_relativedelta (pyStrOfInt n ++ "m")).map fun r => .duration [r]
  | .bool _ => .error ("Could not parse duration")
  | .arr elems => (jsonListMapM durationListElem elems).map fun l => .duration l
  | _ => .error ("Duration value is of unsupported type")

/-- `_variable_resolution_time_series_info_from_index`: `ignore_year` and
`repeat` default to `False` when absent (or when the whole `index` object
is absent); present values go through `bool(...)`. -/
def variable_resolution_time_series_info_from_index (value : JsonFields) :
    Except String (Bool × Bool) :=
  match jsonLookup value "index" with
  | some (.obj dataIndex) =>
    .ok (pyBool ((jsonLookup dataIndex "ignore_year").getD (.bool false)),
      pyBool ((jsonLookup dataIndex "repeat").getD (.bool false)))
  | some _ => .error ("AttributeError: index entry has no .get")
  | none => .ok (false, false)

/-- `_time_series_from_dictionary`: stamp keys are parsed with dateutil,
values are coerced to float, and `TimeSeries.__init__` requires at least two
values. -/
def time_series_from_dictionary (value : JsonFields) (data : JsonFields) :
    Except String DecodedValue :=
  match jsonFieldsMapM (fun k v =>
      match parseTimestamp k with
      | some d => (jsonToFloat v).map fun q => (d, q)
      | none => .error ("Could not decode time stamp")) data with
  | .error e => .error e
  | .ok pairs =>
    match variable_resolution_time_series_info_from_index value with
    | .error e => .error e
    | .ok info =>
      if pairs.length < 2 then
        .error ("Time series too short. Must have two or more values")
      else
        .ok (.timeSeriesVariableResolution (pairs.map Prod.fst) (pairs.map Prod.snd)
          info.1 info.2)

/-- `_time_series_from_two_columns`: every element must be a two-element
array of a timestamp string and a value.  (A two-character string is also a
`Sequence` of length two, whose first character then fails timestamp
parsing; any other non-array is the `"Invalid value in time series array"`
error.) -/
def time_series_from_two_columns (value : JsonFields) (data : JsonList) :
    Except String DecodedValue :=
  match jsonListMapM (fun el =>
    match el with
    | .arr (.cons a (.cons b .nil)) =>
      (match a with
      | .str js =>
        (match parseTimestamp js with
        | some d => (jsonToFloat b).map fun q => (d, q)
        | none => .error ("Could not decode time stamp"))
      | _ => .error ("TypeError: parser argument must be a string"))
    | .str (.raw s) =>
      if s.length = 2 then .error ("Could not decode time stamp")
      else .error ("Invalid value in time series array")
    | _ => .error ("Invalid value in time series array")) data with
  | .error e => .error e
  | .ok pairs =>
    match variable_resolution_time_series_info_from_index value with
    | .error e => .error e
    | .ok info =>
      if pairs.length < 2 then
        .error ("Time series too short. Must have two or more values")
      else
        .ok (.timeSeriesVariableResolution (pairs.map Prod.fst) (pairs.map Prod.snd)
          info.1 info.2)

/-- The `index` header of `_time_series_from_single_column`: start and
resolution fall back to `0001-01-01T00:00:00` and `"1h"`, while
`ignore_year` and `repeat` default to `True` exactly when `start` is absent
(explicit values, run through `bool(...)`, always win); a missing `index`
object defaults everything. -/
def tsSingleColumnHeader (value : JsonFields) :
    Except String (Json × Json × Bool × Bool) :=
  match jsonLookup value "index" with
  | none =>
    .ok (.str (.raw "0001-01-01T00:00:00"), .str (.raw "1h"), true, true)
  | some (.obj valueIndex) =>
    let start := (jsonLookup valueIndex "start").getD (.str (.raw "0001-01-01T00:00:00"))
    let resolution := (jsonLookup valueIndex "resolution").getD (.str (.raw "1h"))
    let ignoreYear :=
      match jsonLookup valueIndex "ignore_year" with
      | some j => pyBool j
      | none => (jsonLookup valueIndex "start").isNone
    let rep :=
      match jsonLookup valueIndex "repeat" with
      | some j => pyBool j
      | none => (jsonLookup valueIndex "start").isNone
    .ok (start, resolution, ignoreYear, rep)
  | some _ => .error ("TypeError: index entry is not a dict")

/-- One resolution entry converted to a relativedelta: strings parse as
durations, ints default to minutes; `str(...)` of any other JSON value is
text `int()` rejects, hence a format error. -/
def resolutionElem : Json → Except String RelativeDelta
  | .str js => durationFromJStr js
  | .int n => duration_to_relativedelta (pyStrOfInt n ++ "m")
  | _ => .error ("Could not parse duration")

/-- `_time_series_from_single_column`. -/
def time_series_from_single_column (value : JsonFields) (data : JsonList) :
    Except String DecodedValue :=
  match tsSingleColumnHeader value with
  | .error e => .error e
  | .ok (startJ, resolutionJ, ignoreYear, rep) =>
    match jsonListMapM resolutionElem
        (match resolutionJ with
        | .arr l => l
        | j => .cons j .nil) with
    | .error e => .error e
    | .ok relativedeltas =>
      match (match startJ with
        | .str js =>
          (match parseTimestamp js with
          | some d => Except.ok d
          | none => Except.error ("Could not decode start value"))
        | _ => Except.error ("TypeError: parser argument must be a string")) with
      | .error e => .error e
      | .ok start =>
        match jsonListMapM jsonToFloat data with
        | .error e => .error e
        | .ok values =>
          if values.length < 2 then
            .error ("Time series too short. Must have two or more values")
          else
            .ok (.timeSeriesFixedResolution start relativedeltas values ignoreYear rep)

/-- `_time_series_from_database`: dispatch on the shape of `data`
(dictionary, two-column or single-column form; `data[0]` on an empty list
raises `IndexError`). -/
def time_series_from_database (value : JsonFields) : Except String DecodedValue :=
  match jsonLookup value "data" with
  | none => .error (keyErrorMsg "data")
  | some (.obj data) => time_series_from_dictionary value data
  | some (.arr data) =>
    match data with
    | .nil => .error ("IndexError: list index out of range")
    | .cons first _ =>
      if jsonIsSequence first then time_series_from_two_columns value data
      else time_series_from_single_column value data
  | some _ => .error ("Unrecognized time series format")

/-- `_time_pattern_from_database` (`_break_dictionary` plus the `TimePattern`
constructor checks). -/
def time_pattern_from_database (value : JsonFields) : Except String DecodedValue :=
  match jsonLookup value "data" with
  | none => .error (keyErrorMsg "data")
  | some (.obj data) =>
    match jsonFieldsMapM (fun k v => (jsonToFloat v).map fun q => (k, q)) data with
    | .error e => .error e
    | .ok pairs =>
      if pairs = [] then .error ("Empty time pattern not allowed")
      else .ok (.timePattern (pairs.map Prod.fst) (pairs.map Prod.snd))
  | some _ => .error ("TypeError: cannot break a non-dict")

/-- The text of a `type` tag as interpolated into the unknown-type error
message. -/
def jsonTagText : Json → String
  | .str (.raw s) => s
  | _ => "non-string tag"

/-- `from_database` as it stands in `parameter_value.py`: JSON scalars pass
through, objects dispatch on `type` over date_time, duration, time_pattern
and time_series, and any other tag — `"map"` included — is the
unknown-type format error. -/
def from_database (j : Json) : Except String DecodedValue :=
  match j with
  | .obj fields =>
    (match jsonLookup fields "type" with
    | none => .error (keyErrorMsg "type")
    | some valueType =>
      if jsonIsStr valueType "date_time" then
        match jsonLookup fields "data" with
        | none => .error (keyErrorMsg "data")
        | some d => datetime_from_database d
      else if jsonIsStr valueType "duration" then
        match jsonLookup fields "data" with
        | none => .error (keyErrorMsg "data")
        | some d => duration_from_database d
      else if jsonIsStr valueType "time_pattern" then
        time_pattern_from_database fields
      else if jsonIsStr valueType "time_series" then
        time_series_from_database fields
      else .error ("Unknown parameter value type " ++ jsonTagText valueType))
  | _ => .ok (.plain j)

/-! ### `to_database` and the per-class encoders -/

/-- `DateTime.to_database`: `{"type": "date_time", "data": isoformat}`. -/
def DateTime_to_database (value : PyDateTime) : Json :=
  .obj (JsonFields.ofList
    [(.raw "type", .str (.raw "date_time")), (.raw "data", .str (.dt value))])

/-- `Duration.to_database`: a single step encodes as one duration string,
anything else as a list of duration strings. -/
def Duration_to_database (value : List RelativeDelta) : Except String Json :=
  match value with
  | [v] =>
    (match relativedelta_to_duration v with
    | .error e => .error e
    | .ok s => .ok (.obj (JsonFields.ofList
        [(.raw "type", .str (.raw "duration")), (.raw "data", .str (.raw s))])))
  | _ =>
    match value.mapM relativedelta_to_duration with
    | .error e => .error e
    | .ok ss => .ok (.obj (JsonFields.ofList
        [(.raw "type", .str (.raw "duration")),
         (.raw "data", .arr (JsonList.ofList (ss.map fun s => Json.str (.raw s))))]))

/-- `TimePattern.to_database`: the `data[index] = value` loop over
`zip(indexes, values)`. -/
def TimePattern_to_database (indexes : List JStr) (values : List ℚ) : Json :=
  .obj (JsonFields.ofList
    [(.raw "type", .str (.raw "time_pattern")),
     (.raw "data", .obj (pyDict ((indexes.zip values).map fun p => (p.1, Json.num p.2))))])

/-- `TimeSeriesFixedResolution.to_database`: `index.start` is
`str(self._start)`, the resolution is one duration string or a list of
them, `ignore_year` and `repeat` are always emitted, and `data` is the flat
value array. -/
def TimeSeriesFixedResolution_to_database (start : PyDateTime)
    (resolution : List RelativeDelta) (values : List ℚ)
    (ignore_year repeat_ : Bool) : Except String Json :=
  match ((match resolution with
    | [] => Except.error ("IndexError: list index out of range")
    | [single] => (relativedelta_to_duration single).map fun s => Json.str (.raw s)
    | _ => (resolution.mapM relativedelta_to_duration).map fun ss =>
        Json.arr (JsonList.ofList (ss.map fun s => Json.str (.raw s)))) :
      Except String Json) with
  | .error e => .error e
  | .ok resolutionAsJson =>
    Except.ok (.obj (JsonFields.ofList
    [(.raw "type", .str (.raw "time_series")),
     (.raw "index", .obj (JsonFields.ofList
        [(.raw "start", .str (.dt start)),
         (.raw "resolution", resolutionAsJson),
         (.raw "ignore_year", .bool ignore_year),
         (.raw "repeat", .bool repeat_)])),
     (.raw "data", .arr (JsonList.ofList (values.map Json.num)))]))

/-- `TimeSeriesVariableResolution.to_database`: `data` is a stamp→value
dict (`float(value)` on an already-float cell cannot raise), and the
`index` entry is added only when `ignore_year` or `repeat` is true, each
key only when its flag is true. -/
def TimeSeriesVariableResolution_to_database (indexes : List PyDateTime)
    (values : List ℚ) (ignore_year repeat_ : Bool) : Json :=
  let data := pyDict ((indexes.zip values).map fun p => (JStr.dt p.1, Json.num p.2))
  let indexFields : JsonFields := JsonFields.ofList
    ((if ignore_year then [(JStr.raw "ignore_year", Json.bool ignore_year)] else []) ++
     (if repeat_ then [(JStr.raw "repeat", Json.bool repeat_)] else []))
  .obj (JsonFields.ofList
    ([(JStr.raw "type", Json.str (.raw "time_series")),
      (JStr.raw "data", Json.obj data)] ++
     (if ignore_year || repeat_ then [(JStr.raw "index", Json.obj indexFields)] else [])))

/-- The free function `to_database`: value objects dispatch to their
`to_database` methods, plain values pass through `json.dumps` unchanged.
(`Map` is missing from the sources under `src/` and no claim concerns its
encoding, so it is left out.) -/
def to_database : DecodedValue → Except String Json
  | .plain j => .ok j
  | .dateTime d => .ok (DateTime_to_database d)
  | .duration v => Duration_to_database v
  | .timePattern idx vals => .ok (TimePattern_to_database idx vals)
  | .timeSeriesFixedResolution start res vals iy rep =>
    TimeSeriesFixedResolution_to_database start res vals iy rep
  | .timeSeriesVariableResolution idx vals iy rep =>
    .ok (TimeSeriesVariableResolution_to_database idx vals iy rep)
  | .map _ _ => .error ("Map.to_database is not part of the embedded sources")

/-! ### The spec-modelled `map` branch of the decoder (C3) -/

/-- Python `float(str)` on a plain decimal literal. -/
def parsePyFloat (s : String) : Option ℚ :=
  let cs := s.toList
  let signed : Bool × List Char :=
    match cs with
    | '-' :: rest => (true, rest)
    | '+' :: rest => (false, rest)
    | _ => (false, cs)
  let intPart := signed.2.takeWhile isDigitChar
  let rest := signed.2.dropWhile isDigitChar
  let digitsVal : List Char → Nat := fun l => l.foldl (fun a c => 10 * a + (c.toNat - 48)) 0
  let value? : Option ℚ :=
    match rest with
    | [] => if intPart ≠ [] then some ((digitsVal intPart : ℚ)) else none
    | '.' :: frac =>
      if intPart ≠ [] ∧ frac ≠ [] ∧ frac.all isDigitChar then
        some ((digitsVal intPart : ℚ) + (digitsVal frac : ℚ) / ((10 : ℚ) ^ frac.length))
      else none
    | _ => none
  value?.map fun q => if signed.1 then -q else q

/-- Modelled from the spec: decoding of one `Map` index element per the
declared `index_type` (the `Map` support is missing from the sources under
`src/`; only its tests exist there). -/
def decodeMapIndex (indexType : String) (j : Json) : Except String MapIndex :=
  if indexType = "str" then
    match j with
    | .str js => .ok (.str js)
    | _ => .error ("Could not decode map index")
  else if indexType = "float" then
    match j with
    | .num q => .ok (.float q)
    | .int n => .ok (.float (n : ℚ))
    | .str (.raw s) =>
      match parsePyFloat s with
      | some q => .ok (.float q)
      | none => .error ("Could not decode map index")
    | _ => .error ("Could not decode map index")
  else if indexType = "date_time" then
    match j with
    | .str js =>
      match parseTimestamp js with
      | some d => .ok (.dateTime d)
      | none => .error ("Could not decode map index")
    | _ => .error ("Could not decode map index")
  else if indexType = "duration" then
    match j with
    | .str js => (durationFromJStr js).map fun r => .duration [r]
    | .int n => (duration_to_relativedelta (pyStrOfInt n ++ "m")).map fun r => .duration [r]
    | _ => .error ("Could not decode map index")
  else .error ("Unknown index_type")

/-- Modelled from the spec: the `map` branch of `from_database` — the
`index_type` tag must be one of str/float/date_time/duration, `data` is
either an object (keys decoded per the index type, as exercised by the
tests) or a list of two-element `[index, value]` rows, and every value is
decoded recursively by `decode`. -/
def map_from_database (decode : Json → Except String DecodedValue)
    (fields : JsonFields) : Except String DecodedValue :=
  match (match jsonLookup fields "index_type" with
    | some (.str (.raw s)) =>
      if s = "str" ∨ s = "float" ∨ s = "date_time" ∨ s = "duration" then Except.ok s
      else Except.error ("Unknown index_type")
    | some _ => Except.error ("Unknown index_type")
    | none => Except.error (keyErrorMsg "index_type")) with
  | .error e => .error e
  | .ok indexType =>
    match jsonLookup fields "data" with
    | none => .error (keyErrorMsg "data")
    | some (.obj pairs) =>
      (match jsonFieldsMapM (fun k _ => decodeMapIndex indexType (.str k)) pairs with
      | .error e => .error e
      | .ok indexes =>
        match jsonFieldsMapM (fun _ v => decode v) pairs with
        | .error e => .error e
        | .ok values => .ok (.map indexes (DecodedValueList.ofList values)))
    | some (.arr rows) =>
      (match jsonListMapM (fun r =>
        match r with
        | .arr (.cons i (.cons v .nil)) => Except.ok (i, v)
        | _ => Except.error ("Invalid map row")) rows with
      | .error e => .error e
      | .ok pairs =>
        match pairs.mapM (fun p => decodeMapIndex indexType p.1) with
        | .error e => .error e
        | .ok indexes =>
          match pairs.mapM (fun p => decode p.2) with
          | .error e => .error e
          | .ok values => .ok (.map indexes (DecodedValueList.ofList values)))
    | some _ => .error ("Unrecognized map format")

mutual

/-- Size of a JSON tree (recursion fuel for the nested-map decoder). -/
def Json.size : Json → Nat
  | .null => 1
  | .bool _ => 1
  | .int _ => 1
  | .num _ => 1
  | .str _ => 1
  | .arr l => 1 + l.size
  | .obj f => 1 + f.size

def JsonList.size : JsonList → Nat
  | .nil => 1
  | .cons j tl => 1 + j.size + tl.size

def JsonFields.size : JsonFields → Nat
  | .nil => 1
  | .cons _ v tl => 1 + v.size + tl.size

end

/-- Modelled from the spec: `from_database` extended with the `map` branch,
fuel-guarded for the nested-map recursion (the size of the tree always
suffices, see `from_database_with_map`). -/
def from_database_with_mapF : Nat → Json → Except String DecodedValue
  | 0, _ => .error ("recursion limit exceeded")
  | fuel + 1, j =>
    match j with
    | .obj fields =>
      (match jsonLookup fields "type" with
      | some valueType =>
        if jsonIsStr valueType "map" then
          map_from_database (from_database_with_mapF fuel) fields
        else from_database j
      | none => from_database j)
    | _ => from_database j

/-- Modelled from the spec: `from_database` with `map` support. -/
def from_database_with_map (j : Json) : Except String DecodedValue :=
  from_database_with_mapF j.size j

/-! ### Support lemmas for the round-trip proofs -/

def JsonFields.keys (f : JsonFields) : List JStr :=
  f.toList.map Prod.fst

theorem JsonFields.ofList_toList : ∀ f : JsonFields, JsonFields.ofList f.toList = f
  | .nil => rfl
  | .cons k v rest => by
    simp only [JsonFields.toList, JsonFields.ofList, JsonFields.ofList_toList rest]

theorem JsonFields.toList_ofList : ∀ l : List (JStr × Json), (JsonFields.ofList l).toList = l
  | [] => rfl
  | p :: rest => by
    simp only [JsonFields.ofList, JsonFields.toList, JsonFields.toList_ofList rest]

theorem dictInsert_fresh : ∀ (d : JsonFields) (k : JStr) (v : Json),
    k ∉ d.keys → (dictInsert d k v).toList = d.toList ++ [(k, v)]
  | .nil, _, _, _ => rfl
  | .cons k0 v0 rest, k, v, hk => by
    unfold JsonFields.keys JsonFields.toList at hk
    simp only [List.map_cons, List.mem_cons] at hk
    push_neg at hk
    have hne : k0 ≠ k := fun h => hk.1 h.symm
    simp only [dictInsert, if_neg hne, JsonFields.toList, List.cons_append]
    rw [dictInsert_fresh rest k v hk.2]

theorem pyDict_toList (pairs : List (JStr × Json))
    (h : (pairs.map Prod.fst).Nodup) : (pyDict pairs).toList = pairs := by
  unfold pyDict
  have key : ∀ (ps : List (JStr × Json)) (acc : JsonFields),
      (ps.map Prod.fst).Nodup → (∀ k ∈ ps.map Prod.fst, k ∉ acc.keys) →
      (ps.foldl (fun d p => dictInsert d p.1 p.2) acc).toList = acc.toList ++ ps := by
    intro ps
    induction ps with
    | nil => intro acc _ _; simp
    | cons p rest ih =>
      intro acc hnd hdisj
      simp only [List.map_cons, List.nodup_cons] at hnd
      simp only [List.foldl_cons]
      rw [ih _ hnd.2]
      · rw [dictInsert_fresh acc p.1 p.2
          (hdisj p.1 (by simp only [List.map_cons]; exact List.mem_cons_self _ _))]
        simp
      · intro k hk
        unfold JsonFields.keys
        rw [dictInsert_fresh acc p.1 p.2
          (hdisj p.1 (by simp only [List.map_cons]; exact List.mem_cons_self _ _))]
        simp only [List.map_append, List.mem_append, List.map_cons, List.map_nil]
        intro hmem
        rcases hmem with hmem | hmem
        · exact hdisj k (by simp only [List.map_cons]; exact List.mem_cons_of_mem _ hk) hmem
        · simp only [List.mem_singleton] at hmem
          rw [hmem] at hk
          exact hnd.1 hk
  have h0 := key pairs .nil h (by intro k _; unfold JsonFields.keys; simp [JsonFields.toList])
  rw [h0]
  rfl

theorem pyDict_eq_ofList (pairs : List (JStr × Json))
    (h : (pairs.map Prod.fst).Nodup) : pyDict pairs = JsonFields.ofList pairs := by
  have h1 := pyDict_toList pairs h
  have h2 := JsonFields.ofList_toList (pyDict pairs)
  rw [← h2, h1]

theorem jsonFieldsMapM_ofList {α : Type} (f : JStr → Json → Except String α)
    (g : JStr × Json → α) :
    ∀ pairs : List (JStr × Json), (∀ p ∈ pairs, f p.1 p.2 = .ok (g p)) →
      jsonFieldsMapM f (JsonFields.ofList pairs) = .ok (pairs.map g) := by
  intro pairs
  induction pairs with
  | nil => intro _; rfl
  | cons p rest ih =>
    intro h
    have hp := h p (List.mem_cons_self _ _)
    have hrest := ih fun q hq => h q (List.mem_cons_of_mem _ hq)
    simp only [JsonFields.ofList, jsonFieldsMapM, hp, hrest, List.map_cons]
    rfl

theorem jsonListMapM_ofList {α : Type} (f : Json → Except String α)
    (g : Json → α) :
    ∀ elems : List Json, (∀ j ∈ elems, f j = .ok (g j)) →
      jsonListMapM f (JsonList.ofList elems) = .ok (elems.map g) := by
  intro elems
  induction elems with
  | nil => intro _; rfl
  | cons j rest ih =>
    intro h
    have hj := h j (List.mem_cons_self _ _)
    have hrest := ih fun q hq => h q (List.mem_cons_of_mem _ hq)
    simp only [JsonList.ofList, jsonListMapM, hj, hrest, List.map_cons]
    rfl

theorem listMapM_ok {α β : Type} (f : α → Except String β) (g : α → β) :
    ∀ l : List α, (∀ x ∈ l, f x = .ok (g x)) → l.mapM f = .ok (l.map g) := by
  intro l
  induction l with
  | nil => intro _; rfl
  | cons x rest ih =>
    intro h
    have hx := h x (List.mem_cons_self _ _)
    have hrest := ih fun q hq => h q (List.mem_cons_of_mem _ hq)
    rw [List.mapM_cons, hx, hrest]
    rfl

/-- The float stored in a numeric JSON cell (total helper for stating the
map lemmas). -/
def jsonNumVal : Json → ℚ
  | .num q => q
  | _ => 0

/-- The datetime of a structural timestamp key (total helper). -/
def jstrDtVal : JStr → PyDateTime
  | .dt d => d
  | .raw _ => ⟨1, 1, 1, 0, 0, 0⟩

theorem jsonToFloat_nums (vals : List ℚ) :
    jsonListMapM jsonToFloat (JsonList.ofList (vals.map Json.num)) = .ok vals := by
  have h := jsonListMapM_ofList jsonToFloat jsonNumVal (vals.map Json.num)
    (by
      intro j hj
      obtain ⟨q, _, hq⟩ := List.mem_map.mp hj
      rw [← hq]
      rfl)
  rw [h, List.map_map]
  congr 1
  have : (jsonNumVal ∘ Json.num) = id := by
    funext q
    rfl
  rw [this, List.map_id]

/-- `DateTime` values round-trip unconditionally. -/
theorem dateTime_roundtrip (d : PyDateTime) :
    (to_database (.dateTime d)).bind from_database = .ok (.dateTime d) := rfl

theorem duration_list_roundtrip (v : List RelativeDelta)
    (h : ∀ r ∈ v, canonicalStep r) :
    ∃ ss : List String, v.mapM relativedelta_to_duration = .ok ss ∧
      jsonListMapM durationListElem (JsonList.ofList (ss.map fun s => Json.str (.raw s)))
        = .ok v := by
  induction v with
  | nil => exact ⟨[], rfl, rfl⟩
  | cons r rest ih =>
    obtain ⟨s, hf, hp⟩ := canonical_duration_roundtrip r (h r (List.mem_cons_self _ _))
    obtain ⟨ss, hms, hmp⟩ := ih fun q hq => h q (List.mem_cons_of_mem _ hq)
    refine ⟨s :: ss, ?_, ?_⟩
    · rw [List.mapM_cons, hf, hms]
      rfl
    · simp only [List.map_cons, JsonList.ofList, jsonListMapM]
      have hel : durationListElem (.str (.raw s)) = .ok r := hp
      rw [hel, hmp]
      rfl

/-- `Duration` values round-trip when every step is canonical. -/
theorem duration_roundtrip (v : List RelativeDelta) (h : ∀ r ∈ v, canonicalStep r) :
    (to_database (.duration v)).bind from_database = .ok (.duration v) := by
  rcases v with _ | ⟨r, _ | ⟨r2, rest⟩⟩
  · rfl
  · obtain ⟨s, hf, hp⟩ := canonical_duration_roundtrip r (h r (List.mem_cons_self _ _))
    show (Duration_to_database [r]).bind from_database = _
    unfold Duration_to_database
    dsimp only
    rw [hf]
    show from_database (.obj (JsonFields.ofList
      [(.raw "type", .str (.raw "duration")), (.raw "data", .str (.raw s))])) = _
    show duration_from_database (.str (.raw s)) = _
    unfold duration_from_database durationFromJStr
    dsimp only
    rw [hp]
    rfl
  · obtain ⟨ss, hms, hmp⟩ := duration_list_roundtrip (r :: r2 :: rest) h
    show (Duration_to_database (r :: r2 :: rest)).bind from_database = _
    unfold Duration_to_database
    dsimp only
    rw [hms]
    show from_database (.obj (JsonFields.ofList
      [(.raw "type", .str (.raw "duration")),
       (.raw "data", .arr (JsonList.ofList (ss.map fun s => Json.str (.raw s))))])) = _
    show duration_from_database (.arr (JsonList.ofList (ss.map fun s => Json.str (.raw s)))) = _
    unfold duration_from_database
    dsimp only
    rw [hmp]
    rfl

/-- `TimePattern` values round-trip when the pattern strings are distinct
(the `data[index] = value` dict would otherwise collapse duplicates), the
arrays have matching lengths and the pattern is non-empty. -/
theorem timePattern_roundtrip (idx : List JStr) (vals : List ℚ)
    (hne : idx ≠ []) (hlen : idx.length = vals.length) (hnd : idx.Nodup) :
    (to_database (.timePattern idx vals)).bind from_database
      = .ok (.timePattern idx vals) := by
  have hmapfst : ((idx.zip vals).map fun p => (p.1, Json.num p.2)).map Prod.fst
      = idx := by
    rw [List.map_map]
    have h0 : (Prod.fst ∘ fun p : JStr × ℚ => (p.1, Json.num p.2))
        = Prod.fst := by
      funext p
      rfl
    rw [h0, List.map_fst_zip _ _ (le_of_eq hlen)]
  have hkeys : (((idx.zip vals).map fun p => (p.1, Json.num p.2)).map Prod.fst).Nodup := by
    rw [hmapfst]
    exact hnd
  have hdict := pyDict_eq_ofList _ hkeys
  show (Except.ok (TimePattern_to_database idx vals)).bind from_database = _
  have henc : TimePattern_to_database idx vals = .obj (JsonFields.ofList
      [(.raw "type", .str (.raw "time_pattern")),
       (.raw "data", .obj (JsonFields.ofList
          ((idx.zip vals).map fun p => (p.1, Json.num p.2))))]) := by
    unfold TimePattern_to_database
    rw [hdict]
  rw [henc]
  show time_pattern_from_database (JsonFields.ofList
      [(.raw "type", .str (.raw "time_pattern")),
       (.raw "data", .obj (JsonFields.ofList
          ((idx.zip vals).map fun p => (p.1, Json.num p.2))))]) = _
  unfold time_pattern_from_database
  have hlook : jsonLookup (JsonFields.ofList
      [(.raw "type", .str (.raw "time_pattern")),
       (.raw "data", .obj (JsonFields.ofList
          ((idx.zip vals).map fun p => (p.1, Json.num p.2))))]) "data"
      = some (.obj (JsonFields.ofList ((idx.zip vals).map fun p => (p.1, Json.num p.2)))) := rfl
  rw [hlook]
  dsimp only
  have hmapm := jsonFieldsMapM_ofList (fun k v => (jsonToFloat v).map fun q => (k, q))
    (fun p => (p.1, jsonNumVal p.2)) ((idx.zip vals).map fun p => (p.1, Json.num p.2))
    (by
      intro p hp
      obtain ⟨q, _, hq⟩ := List.mem_map.mp hp
      rw [← hq]
      rfl)
  rw [hmapm]
  have hpairs : (((idx.zip vals).map fun p => (p.1, Json.num p.2)).map
      fun p => (p.1, jsonNumVal p.2)) = idx.zip vals := by
    rw [List.map_map]
    have h0 : ((fun p : JStr × Json => (p.1, jsonNumVal p.2)) ∘
        fun p : JStr × ℚ => (p.1, Json.num p.2)) = id := by
      funext p
      rfl
    rw [h0, List.map_id]
  rw [hpairs]
  dsimp only
  have hzne : idx.zip vals ≠ [] := by
    intro h0
    have h1 := congrArg List.length h0
    rw [List.length_zip, ← hlen, Nat.min_self] at h1
    exact hne (List.eq_nil_of_length_eq_zero h1)
  rw [if_neg hzne]
  rw [List.map_fst_zip _ _ (le_of_eq hlen), List.map_snd_zip _ _ (ge_of_eq hlen)]

/-- Decode side of the fixed-resolution round trip: a `time_series` object
in single-column form with an explicit index dictionary. -/
theorem tsfr_decode_core (start : PyDateTime) (res : List RelativeDelta)
    (vals : List ℚ) (iy rep : Bool) (resJson : Json)
    (hdecres : jsonListMapM resolutionElem
        (match resJson with
        | .arr l => l
        | j => .cons j .nil) = .ok res)
    (hlen : 2 ≤ vals.length) :
    from_database (.obj (JsonFields.ofList
      [(.raw "type", .str (.raw "time_series")),
       (.raw "index", .obj (JsonFields.ofList
          [(.raw "start", .str (.dt start)),
           (.raw "resolution", resJson),
           (.raw "ignore_year", .bool iy),
           (.raw "repeat", .bool rep)])),
       (.raw "data", .arr (JsonList.ofList (vals.map Json.num)))]))
      = .ok (.timeSeriesFixedResolution start res vals iy rep) := by
  rcases vals with _ | ⟨v0, _ | ⟨v1, vrest⟩⟩
  · simp at hlen
  · simp at hlen
  · show time_series_from_single_column (JsonFields.ofList
      [(.raw "type", .str (.raw "time_series")),
       (.raw "index", .obj (JsonFields.ofList
          [(.raw "start", .str (.dt start)),
           (.raw "resolution", resJson),
           (.raw "ignore_year", .bool iy),
           (.raw "repeat", .bool rep)])),
       (.raw "data", .arr (JsonList.ofList ((v0 :: v1 :: vrest).map Json.num)))])
      (JsonList.ofList ((v0 :: v1 :: vrest).map Json.num)) = _
    unfold time_series_from_single_column
    have hheader : tsSingleColumnHeader (JsonFields.ofList
        [(.raw "type", .str (.raw "time_series")),
         (.raw "index", .obj (JsonFields.ofList
            [(.raw "start", .str (.dt start)),
             (.raw "resolution", resJson),
             (.raw "ignore_year", .bool iy),
             (.raw "repeat", .bool rep)])),
         (.raw "data", .arr (JsonList.ofList ((v0 :: v1 :: vrest).map Json.num)))])
        = .ok (.str (.dt start), resJson, iy, rep) := rfl
    rw [hheader]
    dsimp only
    rw [hdecres]
    dsimp only
    rw [jsonToFloat_nums (v0 :: v1 :: vrest)]
    rfl

/-- `TimeSeriesFixedResolution` values round-trip for canonical resolution
steps, a non-empty resolution and at least two values. -/
theorem tsfr_roundtrip (start : PyDateTime) (res : List RelativeDelta)
    (vals : List ℚ) (iy rep : Bool) (hres : res ≠ [])
    (hcanon : ∀ r ∈ res, canonicalStep r) (hlen : 2 ≤ vals.length) :
    (to_database (.timeSeriesFixedResolution start res vals iy rep)).bind from_database
      = .ok (.timeSeriesFixedResolution start res vals iy rep) := by
  show (TimeSeriesFixedResolution_to_database start res vals iy rep).bind from_database = _
  unfold TimeSeriesFixedResolution_to_database
  rcases res with _ | ⟨r, _ | ⟨r2, rrest⟩⟩
  · exact absurd rfl hres
  · obtain ⟨s, hf, hp⟩ :=
      canonical_duration_roundtrip r (hcanon r (List.mem_cons_self _ _))
    dsimp only
    rw [hf]
    dsimp only [Except.map]
    exact tsfr_decode_core start [r] vals iy rep (.str (.raw s))
      (by
        show jsonListMapM resolutionElem (.cons (.str (.raw s)) .nil) = _
        have hel : resolutionElem (.str (.raw s)) = .ok r := hp
        simp only [jsonListMapM, hel]
        rfl)
      hlen
  · obtain ⟨ss, hms, hmp⟩ := duration_list_roundtrip (r :: r2 :: rrest) hcanon
    dsimp only
    rw [hms]
    dsimp only [Except.map]
    exact tsfr_decode_core start (r :: r2 :: rrest) vals iy rep
      (.arr (JsonList.ofList (ss.map fun s => Json.str (.raw s))))
      (by
        show jsonListMapM resolutionElem
          (JsonList.ofList (ss.map fun s => Json.str (.raw s))) = _
        have h0 : resolutionElem = durationListElem := by
          funext j
          cases j <;> rfl
        rw [h0]
        exact hmp)
      hlen

/-- Decode side of the variable-resolution round trip: a `time_series`
object whose `data` maps structural stamps to numbers and whose `index`
decodes to the given flags. -/
theorem tsvr_decode_core (stamps : List PyDateTime) (vals : List ℚ)
    (hlen : stamps.length = vals.length) (hcnt : 2 ≤ stamps.length)
    (flds : JsonFields) (iy rep : Bool)
    (hdata : jsonLookup flds "data" = some (.obj (JsonFields.ofList
        ((stamps.zip vals).map fun p => (JStr.dt p.1, Json.num p.2)))))
    (hinfo : variable_resolution_time_series_info_from_index flds = .ok (iy, rep)) :
    time_series_from_database flds
      = .ok (.timeSeriesVariableResolution stamps vals iy rep) := by
  unfold time_series_from_database
  rw [hdata]
  dsimp only
  unfold time_series_from_dictionary
  have hmapm := jsonFieldsMapM_ofList
    (fun k v =>
      match parseTimestamp k with
      | some d => (jsonToFloat v).map fun q => (d, q)
      | none => .error ("Could not decode time stamp"))
    (fun p => (jstrDtVal p.1, jsonNumVal p.2))
    ((stamps.zip vals).map fun p => (JStr.dt p.1, Json.num p.2))
    (by
      intro p hp
      obtain ⟨q, _, hq⟩ := List.mem_map.mp hp
      rw [← hq]
      rfl)
  rw [hmapm]
  have hpairs : (((stamps.zip vals).map fun p => (JStr.dt p.1, Json.num p.2)).map
      fun p => (jstrDtVal p.1, jsonNumVal p.2)) = stamps.zip vals := by
    rw [List.map_map]
    have h0 : ((fun p : JStr × Json => (jstrDtVal p.1, jsonNumVal p.2)) ∘
        fun p : PyDateTime × ℚ => (JStr.dt p.1, Json.num p.2)) = id := by
      funext p
      rfl
    rw [h0, List.map_id]
  rw [hpairs]
  dsimp only
  rw [hinfo]
  dsimp only
  rw [if_neg (by rw [List.length_zip]; omega)]
  rw [List.map_fst_zip _ _ (le_of_eq hlen), List.map_snd_zip _ _ (ge_of_eq hlen)]

/-- `TimeSeriesVariableResolution` values round-trip for distinct stamps
and at least two entries. -/
theorem tsvr_roundtrip (stamps : List PyDateTime) (vals : List ℚ) (iy rep : Bool)
    (hlen : stamps.length = vals.length) (hcnt : 2 ≤ stamps.length)
    (hnd : stamps.Nodup) :
    (to_database (.timeSeriesVariableResolution stamps vals iy rep)).bind from_database
      = .ok (.timeSeriesVariableResolution stamps vals iy rep) := by
  have hkeys : (((stamps.zip vals).map fun p => (JStr.dt p.1, Json.num p.2)).map
      Prod.fst).Nodup := by
    rw [List.map_map]
    have h0 : (Prod.fst ∘ fun p : PyDateTime × ℚ => (JStr.dt p.1, Json.num p.2))
        = JStr.dt ∘ Prod.fst := by
      funext p
      rfl
    rw [h0, ← List.map_map]
    rw [List.map_fst_zip _ _ (le_of_eq hlen)]
    exact hnd.map fun a b hab => JStr.dt.inj hab
  have hdict := pyDict_eq_ofList _ hkeys
  cases iy <;> cases rep
  · have henc : TimeSeriesVariableResolution_to_database stamps vals false false
        = .obj (JsonFields.ofList
          [(JStr.raw "type", Json.str (.raw "time_series")),
           (JStr.raw "data", Json.obj (JsonFields.ofList
              ((stamps.zip vals).map fun p => (JStr.dt p.1, Json.num p.2))))]) := by
      unfold TimeSeriesVariableResolution_to_database
      dsimp only
      rw [hdict]
      rfl
    show (Except.ok (TimeSeriesVariableResolution_to_database stamps vals false false)).bind
        from_database = _
    rw [henc]
    exact tsvr_decode_core stamps vals hlen hcnt (JsonFields.ofList
      [(JStr.raw "type", Json.str (JStr.raw "time_series")),
           (JStr.raw "data", Json.obj (JsonFields.ofList
              ((stamps.zip vals).map fun p : PyDateTime × ℚ => (JStr.dt p.1, Json.num p.2))))]) false false rfl rfl
  · have henc : TimeSeriesVariableResolution_to_database stamps vals false true
        = .obj (JsonFields.ofList
          [(JStr.raw "type", Json.str (.raw "time_series")),
           (JStr.raw "data", Json.obj (JsonFields.ofList
              ((stamps.zip vals).map fun p => (JStr.dt p.1, Json.num p.2)))),
           (JStr.raw "index", Json.obj (JsonFields.ofList
              [(JStr.raw "repeat", Json.bool true)]))]) := by
      unfold TimeSeriesVariableResolution_to_database
      dsimp only
      rw [hdict]
      rfl
    show (Except.ok (TimeSeriesVariableResolution_to_database stamps vals false true)).bind
        from_database = _
    rw [henc]
    exact tsvr_decode_core stamps vals hlen hcnt (JsonFields.ofList
      [(JStr.raw "type", Json.str (JStr.raw "time_series")),
           (JStr.raw "data", Json.obj (JsonFields.ofList
              ((stamps.zip vals).map fun p : PyDateTime × ℚ => (JStr.dt p.1, Json.num p.2)))),
           (JStr.raw "index", Json.obj (JsonFields.ofList
              [(JStr.raw "repeat", Json.bool true)]))]) false true rfl rfl
  · have henc : TimeSeriesVariableResolution_to_database stamps vals true false
        = .obj (JsonFields.ofList
          [(JStr.raw "type", Json.str (.raw "time_series")),
           (JStr.raw "data", Json.obj (JsonFields.ofList
              ((stamps.zip vals).map fun p => (JStr.dt p.1, Json.num p.2)))),
           (JStr.raw "index", Json.obj (JsonFields.ofList
              [(JStr.raw "ignore_year", Json.bool true)]))]) := by
      unfold TimeSeriesVariableResolution_to_database
      dsimp only
      rw [hdict]
      rfl
    show (Except.ok (TimeSeriesVariableResolution_to_database stamps vals true false)).bind
        from_database = _
    rw [henc]
    exact tsvr_decode_core stamps vals hlen hcnt (JsonFields.ofList
      [(JStr.raw "type", Json.str (JStr.raw "time_series")),
           (JStr.raw "data", Json.obj (JsonFields.ofList
              ((stamps.zip vals).map fun p : PyDateTime × ℚ => (JStr.dt p.1, Json.num p.2)))),
           (JStr.raw "index", Json.obj (JsonFields.ofList
              [(JStr.raw "ignore_year", Json.bool true)]))]) true false rfl rfl
  · have henc : TimeSeriesVariableResolution_to_database stamps vals true true
        = .obj (JsonFields.ofList
          [(JStr.raw "type", Json.str (.raw "time_series")),
           (JStr.raw "data", Json.obj (JsonFields.ofList
              ((stamps.zip vals).map fun p => (JStr.dt p.1, Json.num p.2)))),
           (JStr.raw "index", Json.obj (JsonFields.ofList
              [(JStr.raw "ignore_year", Json.bool true),
               (JStr.raw "repeat", Json.bool true)]))]) := by
      unfold TimeSeriesVariableResolution_to_database
      dsimp only
      rw [hdict]
      rfl
    show (Except.ok (TimeSeriesVariableResolution_to_database stamps vals true true)).bind
        from_database = _
    rw [henc]
    exact tsvr_decode_core stamps vals hlen hcnt (JsonFields.ofList
      [(JStr.raw "type", Json.str (JStr.raw "time_series")),
           (JStr.raw "data", Json.obj (JsonFields.ofList
              ((stamps.zip vals).map fun p : PyDateTime × ℚ => (JStr.dt p.1, Json.num p.2)))),
           (JStr.raw "index", Json.obj (JsonFields.ofList
              [(JStr.raw "ignore_year", Json.bool true),
               (JStr.raw "repeat", Json.bool true)]))]) true true rfl rfl

/-- The conditions under which a decoded value survives the encode/decode
round trip: `DateTime` always; `Duration` when every step is canonical
(single-unit, normalized); `TimePattern` when the pattern is non-empty
with matching lengths and distinct index strings; fixed-resolution series
when the resolution is non-empty, canonical, and there are at least two
values; variable-resolution series when stamps are distinct, lengths
match and there are at least two entries. -/
def roundTrippable : DecodedValue → Prop
  | .plain _ => False
  | .dateTime _ => True
  | .duration v => ∀ r ∈ v, canonicalStep r
  | .timePattern idx vals => idx ≠ [] ∧ idx.length = vals.length ∧ idx.Nodup
  | .timeSeriesFixedResolution _ res vals _ _ =>
      res ≠ [] ∧ (∀ r ∈ res, canonicalStep r) ∧ 2 ≤ vals.length
  | .timeSeriesVariableResolution stamps vals _ _ =>
      stamps.length = vals.length ∧ 2 ≤ stamps.length ∧ stamps.Nodup
  | .map _ _ => False

/-- C1 (counterexample): decoding an encoding is NOT the identity on every
constructed value object.  The `Duration` whose single step is
`relativedelta(months=1, seconds=1)` encodes as `"1s"` (the seconds branch
of `relativedelta_to_duration` skips months and years), which decodes back
to a plain one-second duration, a different value. -/
theorem to_from_database_not_inverse :
    (to_database (.duration [⟨0, 1, 0, 0, 0, 1⟩])).bind from_database
        = .ok (.duration [⟨0, 0, 0, 0, 0, 1⟩]) ∧
      (to_database (.duration [⟨0, 1, 0, 0, 0, 1⟩])).bind from_database
        ≠ .ok (.duration [⟨0, 1, 0, 0, 0, 1⟩]) := by
  constructor
  · decide
  · decide

/-- C1 (amended): decoding an encoding returns the original value for
every `DateTime`, for `Duration`/fixed-resolution values whose steps are
canonical single-unit relativedeltas, for non-empty `TimePattern`s with
distinct pattern strings and matching array lengths, and for
variable-resolution series with distinct stamps and at least two entries
(fixed-resolution additionally needs a non-empty resolution and two
values, since the decoder rejects series shorter than two). -/
theorem to_from_database_roundtrip (v : DecodedValue) (h : roundTrippable v) :
    (to_database v).bind from_database = .ok v := by
  cases v with
  | plain j => exact (h : False).elim
  | dateTime d => exact dateTime_roundtrip d
  | duration v => exact duration_roundtrip v h
  | timePattern idx vals => exact timePattern_roundtrip idx vals h.1 h.2.1 h.2.2
  | timeSeriesFixedResolution start res vals iy rep =>
    exact tsfr_roundtrip start res vals iy rep h.1 h.2.1 h.2.2
  | timeSeriesVariableResolution stamps vals iy rep =>
    exact tsvr_roundtrip stamps vals iy rep h.1 h.2.1 h.2.2
  | map idx vals => exact (h : False).elim

/-- The round trip evaluated at the concrete date-time 2020-01-01T00:00:00
and at a concrete one-second duration. -/
theorem to_from_database_roundtrip_witness :
    (to_database (.dateTime ⟨2020, 1, 1, 0, 0, 0⟩)).bind from_database
        = .ok (.dateTime ⟨2020, 1, 1, 0, 0, 0⟩) ∧
      (to_database (.duration [⟨0, 0, 0, 0, 0, 1⟩])).bind from_database
        = .ok (.duration [⟨0, 0, 0, 0, 0, 1⟩]) :=
  ⟨to_from_database_roundtrip (.dateTime ⟨2020, 1, 1, 0, 0, 0⟩) True.intro,
   to_from_database_roundtrip (.duration [⟨0, 0, 0, 0, 0, 1⟩])
     (by
       intro r hr
       rw [List.mem_singleton] at hr
       subst hr
       decide)⟩

/-- Flags produced by the single-column header: with no `index` entry both
default to true; with an index object, an explicitly supplied entry wins
and otherwise each flag defaults to the absence of `start`. -/
theorem tsSingleColumnHeader_flags (value : JsonFields)
    (startJ resJ : Json) (iy rep : Bool)
    (hh : tsSingleColumnHeader value = .ok (startJ, resJ, iy, rep)) :
    (jsonLookup value "index" = none → iy = true ∧ rep = true) ∧
    (∀ vi : JsonFields, jsonLookup value "index" = some (.obj vi) →
      (jsonLookup vi "ignore_year" = none →
        iy = (jsonLookup vi "start").isNone) ∧
      (∀ j, jsonLookup vi "ignore_year" = some j → iy = pyBool j) ∧
      (jsonLookup vi "repeat" = none →
        rep = (jsonLookup vi "start").isNone) ∧
      (∀ j, jsonLookup vi "repeat" = some j → rep = pyBool j)) := by
  unfold tsSingleColumnHeader at hh
  cases hidx : jsonLookup value "index" with
  | none =>
    rw [hidx] at hh
    dsimp only at hh
    simp only [Except.ok.injEq, Prod.mk.injEq] at hh
    obtain ⟨h1, h2, h3, h4⟩ := hh
    subst h3
    subst h4
    refine ⟨fun _ => ⟨rfl, rfl⟩, ?_⟩
    intro vi hvi
    exact Option.noConfusion hvi
  | some j =>
    cases j with
    | obj vi =>
      rw [hidx] at hh
      dsimp only at hh
      simp only [Except.ok.injEq, Prod.mk.injEq] at hh
      obtain ⟨h1, h2, h3, h4⟩ := hh
      subst h3
      subst h4
      refine ⟨?_, ?_⟩
      · intro h0
        exact Option.noConfusion h0
      · intro vi2 hvi
        have hv2 : vi = vi2 := Json.obj.inj (Option.some.inj hvi)
        subst hv2
        refine ⟨?_, ?_, ?_, ?_⟩
        · intro hnone
          rw [hnone]
        · intro jv hjv
          rw [hjv]
        · intro hnone
          rw [hnone]
        · intro jv hjv
          rw [hjv]
    | null =>
      rw [hidx] at hh
      dsimp only at hh
      exact Except.noConfusion hh
    | bool b =>
      rw [hidx] at hh
      dsimp only at hh
      exact Except.noConfusion hh
    | int n =>
      rw [hidx] at hh
      dsimp only at hh
      exact Except.noConfusion hh
    | num q =>
      rw [hidx] at hh
      dsimp only at hh
      exact Except.noConfusion hh
    | str s =>
      rw [hidx] at hh
      dsimp only at hh
      exact Except.noConfusion hh
    | arr l =>
      rw [hidx] at hh
      dsimp only at hh
      exact Except.noConfusion hh

/-- The tail of single-column decoding (start parse, value conversion,
length check) never changes the header's flags. -/
theorem single_column_rest_flags (data : JsonList) (startJ : Json)
    (rds : List RelativeDelta) (iy0 rep0 : Bool) (start : PyDateTime)
    (res : List RelativeDelta) (vals : List ℚ) (iy rep : Bool)
    (hok : (match ((match startJ with
        | Json.str js =>
          (match parseTimestamp js with
          | some d => Except.ok d
          | none => Except.error ("Could not decode start value"))
        | _ => Except.error ("TypeError: parser argument must be a string")) :
          Except String PyDateTime) with
      | Except.error e => Except.error e
      | Except.ok start1 =>
        match jsonListMapM jsonToFloat data with
        | Except.error e => Except.error e
        | Except.ok values =>
          if values.length < 2 then
            Except.error ("Time series too short. Must have two or more values")
          else Except.ok
            (DecodedValue.timeSeriesFixedResolution start1 rds values iy0 rep0))
      = Except.ok (DecodedValue.timeSeriesFixedResolution start res vals iy rep)) :
    iy0 = iy ∧ rep0 = rep := by
  cases startJ with
  | str js =>
    dsimp only at hok
    cases hpt : parseTimestamp js with
    | none =>
      rw [hpt] at hok
      dsimp only at hok
      exact Except.noConfusion hok
    | some d =>
      rw [hpt] at hok
      dsimp only at hok
      cases hvals : jsonListMapM jsonToFloat data with
      | error e =>
        rw [hvals] at hok
        dsimp only at hok
        exact Except.noConfusion hok
      | ok vs =>
        rw [hvals] at hok
        dsimp only at hok
        by_cases hl : vs.length < 2
        · rw [if_pos hl] at hok
          exact Except.noConfusion hok
        · rw [if_neg hl] at hok
          simp only [Except.ok.injEq,
            DecodedValue.timeSeriesFixedResolution.injEq] at hok
          exact ⟨hok.2.2.2.1, hok.2.2.2.2⟩
  | null =>
    dsimp only at hok
    exact Except.noConfusion hok
  | bool b =>
    dsimp only at hok
    exact Except.noConfusion hok
  | int n =>
    dsimp only at hok
    exact Except.noConfusion hok
  | num q =>
    dsimp only at hok
    exact Except.noConfusion hok
  | arr l =>
    dsimp only at hok
    exact Except.noConfusion hok
  | obj fs =>
    dsimp only at hok
    exact Except.noConfusion hok

/-- C5: whenever single-column time-series decoding succeeds, `ignore_year`
and `repeat` each equal the explicitly supplied value when one is present;
otherwise they default to true exactly when `start` is absent from the
index object (and to true when the index object is absent entirely). -/
theorem single_column_flag_defaulting (value : JsonFields) (data : JsonList)
    (start : PyDateTime) (res : List RelativeDelta) (vals : List ℚ)
    (iy rep : Bool)
    (hok : time_series_from_single_column value data
        = .ok (.timeSeriesFixedResolution start res vals iy rep)) :
    (jsonLookup value "index" = none → iy = true ∧ rep = true) ∧
    (∀ vi : JsonFields, jsonLookup value "index" = some (.obj vi) →
      (jsonLookup vi "ignore_year" = none →
        iy = (jsonLookup vi "start").isNone) ∧
      (∀ j, jsonLookup vi "ignore_year" = some j → iy = pyBool j) ∧
      (jsonLookup vi "repeat" = none →
        rep = (jsonLookup vi "start").isNone) ∧
      (∀ j, jsonLookup vi "repeat" = some j → rep = pyBool j)) := by
  unfold time_series_from_single_column at hok
  cases hh : tsSingleColumnHeader value with
  | error e =>
    rw [hh] at hok
    exact Except.noConfusion hok
  | ok t =>
    obtain ⟨startJ, resJ, iy0, rep0⟩ := t
    rw [hh] at hok
    dsimp only at hok
    have hflags : iy0 = iy ∧ rep0 = rep := by
      cases resJ with
      | arr l =>
        dsimp only at hok
        cases hres : jsonListMapM resolutionElem l with
        | error e =>
          rw [hres] at hok
          dsimp only at hok
          exact Except.noConfusion hok
        | ok rds =>
          rw [hres] at hok
          dsimp only at hok
          exact single_column_rest_flags data startJ rds iy0 rep0 start res vals iy rep hok
      | null =>
        dsimp only at hok
        cases hres : jsonListMapM resolutionElem (JsonList.cons Json.null JsonList.nil) with
        | error e =>
          rw [hres] at hok
          dsimp only at hok
          exact Except.noConfusion hok
        | ok rds =>
          rw [hres] at hok
          dsimp only at hok
          exact single_column_rest_flags data startJ rds iy0 rep0 start res vals iy rep hok
      | bool b =>
        dsimp only at hok
        cases hres : jsonListMapM resolutionElem (JsonList.cons (Json.bool b) JsonList.nil) with
        | error e =>
          rw [hres] at hok
          dsimp only at hok
          exact Except.noConfusion hok
        | ok rds =>
          rw [hres] at hok
          dsimp only at hok
          exact single_column_rest_flags data startJ rds iy0 rep0 start res vals iy rep hok
      | int n =>
        dsimp only at hok
        cases hres : jsonListMapM resolutionElem (JsonList.cons (Json.int n) JsonList.nil) with
        | error e =>
          rw [hres] at hok
          dsimp only at hok
          exact Except.noConfusion hok
        | ok rds =>
          rw [hres] at hok
          dsimp only at hok
          exact single_column_rest_flags data startJ rds iy0 rep0 start res vals iy rep hok
      | num q =>
        dsimp only at hok
        cases hres : jsonListMapM resolutionElem (JsonList.cons (Json.num q) JsonList.nil) with
        | error e =>
          rw [hres] at hok
          dsimp only at hok
          exact Except.noConfusion hok
        | ok rds =>
          rw [hres] at hok
          dsimp only at hok
          exact single_column_rest_flags data startJ rds iy0 rep0 start res vals iy rep hok
      | str s =>
        dsimp only at hok
        cases hres : jsonListMapM resolutionElem (JsonList.cons (Json.str s) JsonList.nil) with
        | error e =>
          rw [hres] at hok
          dsimp only at hok
          exact Except.noConfusion hok
        | ok rds =>
          rw [hres] at hok
          dsimp only at hok
          exact single_column_rest_flags data startJ rds iy0 rep0 start res vals iy rep hok
      | obj fs =>
        dsimp only at hok
        cases hres : jsonListMapM resolutionElem (JsonList.cons (Json.obj fs) JsonList.nil) with
        | error e =>
          rw [hres] at hok
          dsimp only at hok
          exact Except.noConfusion hok
        | ok rds =>
          rw [hres] at hok
          dsimp only at hok
          exact single_column_rest_flags data startJ rds iy0 rep0 start res vals iy rep hok
    obtain ⟨h4, h5⟩ := hflags
    subst h4
    subst h5
    exact tsSingleColumnHeader_flags value startJ resJ _ _ hh

/-- The defaulting rule evaluated on a concrete single-column series whose
index object supplies a resolution but no start: decoding succeeds and
both flags default to true. -/
theorem single_column_flag_defaulting_witness :
    (jsonLookup (JsonFields.ofList
        [(.raw "type", .str (.raw "time_series")),
         (.raw "index", .obj (JsonFields.ofList
            [(.raw "resolution", .str (.raw "1h"))])),
         (.raw "data", .arr (JsonList.ofList [.num 1, .num 2]))]) "index" = none →
        true = true ∧ true = true) ∧
    (∀ vi : JsonFields, jsonLookup (JsonFields.ofList
        [(.raw "type", .str (.raw "time_series")),
         (.raw "index", .obj (JsonFields.ofList
            [(.raw "resolution", .str (.raw "1h"))])),
         (.raw "data", .arr (JsonList.ofList [.num 1, .num 2]))]) "index"
          = some (.obj vi) →
      (jsonLookup vi "ignore_year" = none →
        true = (jsonLookup vi "start").isNone) ∧
      (∀ j, jsonLookup vi "ignore_year" = some j → true = pyBool j) ∧
      (jsonLookup vi "repeat" = none →
        true = (jsonLookup vi "start").isNone) ∧
      (∀ j, jsonLookup vi "repeat" = some j → true = pyBool j)) :=
  single_column_flag_defaulting
    (JsonFields.ofList
      [(.raw "type", .str (.raw "time_series")),
       (.raw "index", .obj (JsonFields.ofList
          [(.raw "resolution", .str (.raw "1h"))])),
       (.raw "data", .arr (JsonList.ofList [.num 1, .num 2]))])
    (JsonList.ofList [.num 1, .num 2])
    ⟨1, 1, 1, 0, 0, 0⟩ [⟨0, 0, 0, 1, 0, 0⟩] [1, 2] true true (by decide)

/-- Look a key up in a JSON object (none on non-objects). -/
def jsonObjLookup (j : Json) (key : String) : Option Json :=
  match j with
  | .obj flds => jsonLookup flds key
  | _ => none

/-- Look a key up inside the `index` sub-object of an encoded value. -/
def jsonIndexField (j : Json) (key : String) : Option Json :=
  match jsonObjLookup j "index" with
  | some (.obj vi) => jsonLookup vi key
  | _ => none

/-- C7: fixed-resolution encoding always emits `index.ignore_year` and
`index.repeat` explicitly whatever their values, while variable-resolution
encoding emits each flag only when it is true and omits the `index` object
entirely when both are false. -/
theorem encode_flag_asymmetry (start : PyDateTime) (res : List RelativeDelta)
    (vals : List ℚ) (stamps : List PyDateTime) (vvals : List ℚ)
    (iy rep : Bool) (out : Json)
    (henc : TimeSeriesFixedResolution_to_database start res vals iy rep = .ok out) :
    jsonIndexField out "ignore_year" = some (.bool iy) ∧
    jsonIndexField out "repeat" = some (.bool rep) ∧
    (jsonIndexField (TimeSeriesVariableResolution_to_database stamps vvals iy rep)
        "ignore_year" = if iy then some (.bool true) else none) ∧
    (jsonIndexField (TimeSeriesVariableResolution_to_database stamps vvals iy rep)
        "repeat" = if rep then some (.bool true) else none) ∧
    (iy = false → rep = false →
      jsonObjLookup (TimeSeriesVariableResolution_to_database stamps vvals iy rep)
        "index" = none) := by
  have hout : jsonIndexField out "ignore_year" = some (.bool iy) ∧
      jsonIndexField out "repeat" = some (.bool rep) := by
    unfold TimeSeriesFixedResolution_to_database at henc
    rcases res with _ | ⟨r, _ | ⟨r2, rrest⟩⟩
    · dsimp only at henc
      exact Except.noConfusion henc
    · dsimp only at henc
      cases hfr : relativedelta_to_duration r with
      | error e =>
        rw [hfr] at henc
        dsimp only [Except.map] at henc
        exact Except.noConfusion henc
      | ok s =>
        rw [hfr] at henc
        dsimp only [Except.map] at henc
        have hout2 : _ = out := Except.ok.inj henc
        subst hout2
        exact ⟨rfl, rfl⟩
    · dsimp only at henc
      cases hms : (r :: r2 :: rrest).mapM relativedelta_to_duration with
      | error e =>
        rw [hms] at henc
        dsimp only [Except.map] at henc
        exact Except.noConfusion henc
      | ok ss =>
        rw [hms] at henc
        dsimp only [Except.map] at henc
        have hout2 : _ = out := Except.ok.inj henc
        subst hout2
        exact ⟨rfl, rfl⟩
  refine ⟨hout.1, hout.2, ?_, ?_, ?_⟩
  · cases iy <;> cases rep <;> rfl
  · cases iy <;> cases rep <;> rfl
  · intro h1 h2
    subst h1
    subst h2
    rfl

/-- The encode asymmetry evaluated concretely: a fixed-resolution series
encoded with `ignore_year = true`, `repeat = false` carries both index
flags explicitly, while the variable-resolution encoder with the same
flags emits only `ignore_year`. -/
theorem encode_flag_asymmetry_witness :
    jsonIndexField (Json.obj (JsonFields.ofList
      [(.raw "type", .str (.raw "time_series")),
       (.raw "index", .obj (JsonFields.ofList
          [(.raw "start", .str (.dt ⟨2019, 1, 1, 0, 0, 0⟩)),
           (.raw "resolution", .str (.raw "1h")),
           (.raw "ignore_year", .bool true),
           (.raw "repeat", .bool false)])),
       (.raw "data", .arr (JsonList.ofList [.num 1, .num 2]))]))
        "ignore_year" = some (.bool true) ∧
    jsonIndexField (Json.obj (JsonFields.ofList
      [(.raw "type", .str (.raw "time_series")),
       (.raw "index", .obj (JsonFields.ofList
          [(.raw "start", .str (.dt ⟨2019, 1, 1, 0, 0, 0⟩)),
           (.raw "resolution", .str (.raw "1h")),
           (.raw "ignore_year", .bool true),
           (.raw "repeat", .bool false)])),
       (.raw "data", .arr (JsonList.ofList [.num 1, .num 2]))]))
        "repeat" = some (.bool false) ∧
    (jsonIndexField (TimeSeriesVariableResolution_to_database [] [] true false)
        "ignore_year" = if true then some (.bool true) else none) ∧
    (jsonIndexField (TimeSeriesVariableResolution_to_database [] [] true false)
        "repeat" = if false then some (.bool true) else none) ∧
    (true = false → false = false →
      jsonObjLookup (TimeSeriesVariableResolution_to_database [] [] true false)
        "index" = none) :=
  encode_flag_asymmetry ⟨2019, 1, 1, 0, 0, 0⟩ [⟨0, 0, 0, 1, 0, 0⟩] [1, 2]
    [] [] true false
    (Json.obj (JsonFields.ofList
      [(.raw "type", .str (.raw "time_series")),
       (.raw "index", .obj (JsonFields.ofList
          [(.raw "start", .str (.dt ⟨2019, 1, 1, 0, 0, 0⟩)),
           (.raw "resolution", .str (.raw "1h")),
           (.raw "ignore_year", .bool true),
           (.raw "repeat", .bool false)])),
       (.raw "data", .arr (JsonList.ofList [.num 1, .num 2]))]))
    (by decide)

/-- The number -2.3 of the spec's nested-map example, in lowest terms. -/
def qNegTwoPointThree : ℚ := ⟨-23, 10, by decide, by decide⟩

/-- A successful `map_from_database` always produces a `map` value. -/
theorem map_from_database_shape (decode : Json → Except String DecodedValue)
    (fields : JsonFields) (v : DecodedValue)
    (h : map_from_database decode fields = .ok v) :
    ∃ idx vs, v = .map idx vs := by
  unfold map_from_database at h
  cases hit : jsonLookup fields "index_type" with
  | none =>
    rw [hit] at h
    dsimp only at h
    exact Except.noConfusion h
  | some j =>
    cases j with
    | str js =>
      cases js with
      | dt d =>
        rw [hit] at h
        dsimp only at h
        exact Except.noConfusion h
      | raw s =>
        rw [hit] at h
        dsimp only at h
        by_cases hs : s = "str" ∨ s = "float" ∨ s = "date_time" ∨ s = "duration"
        · rw [if_pos hs] at h
          dsimp only at h
          cases hd : jsonLookup fields "data" with
          | none =>
            rw [hd] at h
            dsimp only at h
            exact Except.noConfusion h
          | some dj =>
            cases dj with
            | obj pairs =>
              rw [hd] at h
              dsimp only at h
              cases hm1 : jsonFieldsMapM (fun k _ => decodeMapIndex s (.str k)) pairs with
              | error e =>
                rw [hm1] at h
                dsimp only at h
                exact Except.noConfusion h
              | ok indexes =>
                rw [hm1] at h
                dsimp only at h
                cases hm2 : jsonFieldsMapM (fun _ w => decode w) pairs with
                | error e =>
                  rw [hm2] at h
                  dsimp only at h
                  exact Except.noConfusion h
                | ok values =>
                  rw [hm2] at h
                  dsimp only at h
                  exact ⟨indexes, DecodedValueList.ofList values, (Except.ok.inj h).symm⟩
            | arr rows =>
              rw [hd] at h
              dsimp only at h
              cases hr : jsonListMapM (fun r =>
                  match r with
                  | .arr (.cons i (.cons w .nil)) => Except.ok (i, w)
                  | _ => Except.error ("Invalid map row")) rows with
              | error e =>
                rw [hr] at h
                dsimp only at h
                exact Except.noConfusion h
              | ok rowPairs =>
                rw [hr] at h
                dsimp only at h
                cases hmi : rowPairs.mapM (fun p => decodeMapIndex s p.1) with
                | error e =>
                  rw [hmi] at h
                  dsimp only at h
                  exact Except.noConfusion h
                | ok indexes =>
                  rw [hmi] at h
                  dsimp only at h
                  cases hmv : rowPairs.mapM (fun p => decode p.2) with
                  | error e =>
                    rw [hmv] at h
                    dsimp only at h
                    exact Except.noConfusion h
                  | ok values =>
                    rw [hmv] at h
                    dsimp only at h
                    exact ⟨indexes, DecodedValueList.ofList values, (Except.ok.inj h).symm⟩
            | null =>
              rw [hd] at h
              dsimp only at h
              exact Except.noConfusion h
            | bool b =>
              rw [hd] at h
              dsimp only at h
              exact Except.noConfusion h
            | int n =>
              rw [hd] at h
              dsimp only at h
              exact Except.noConfusion h
            | num q =>
              rw [hd] at h
              dsimp only at h
              exact Except.noConfusion h
            | str s2 =>
              rw [hd] at h
              dsimp only at h
              exact Except.noConfusion h
        · rw [if_neg hs] at h
          dsimp only at h
          exact Except.noConfusion h
    | null =>
      rw [hit] at h
      dsimp only at h
      exact Except.noConfusion h
    | bool b =>
      rw [hit] at h
      dsimp only at h
      exact Except.noConfusion h
    | int n =>
      rw [hit] at h
      dsimp only at h
      exact Except.noConfusion h
    | num q =>
      rw [hit] at h
      dsimp only at h
      exact Except.noConfusion h
    | arr rows =>
      rw [hit] at h
      dsimp only at h
      exact Except.noConfusion h
    | obj fs =>
      rw [hit] at h
      dsimp only at h
      exact Except.noConfusion h

/-- A value is a `map` exactly when `isMap` says so. -/
theorem isMap_iff (w : DecodedValue) :
    w.isMap = true ↔ ∃ i2 v2, w = .map i2 v2 := by
  cases w with
  | map i2 v2 => exact ⟨fun _ => ⟨i2, v2, rfl⟩, fun _ => rfl⟩
  | plain j =>
    refine ⟨fun hc => Bool.noConfusion hc, ?_⟩
    rintro ⟨i2, v2, hw⟩
    exact DecodedValue.noConfusion hw
  | dateTime d =>
    refine ⟨fun hc => Bool.noConfusion hc, ?_⟩
    rintro ⟨i2, v2, hw⟩
    exact DecodedValue.noConfusion hw
  | duration v =>
    refine ⟨fun hc => Bool.noConfusion hc, ?_⟩
    rintro ⟨i2, v2, hw⟩
    exact DecodedValue.noConfusion hw
  | timePattern idx vals =>
    refine ⟨fun hc => Bool.noConfusion hc, ?_⟩
    rintro ⟨i2, v2, hw⟩
    exact DecodedValue.noConfusion hw
  | timeSeriesFixedResolution a b c d e =>
    refine ⟨fun hc => Bool.noConfusion hc, ?_⟩
    rintro ⟨i2, v2, hw⟩
    exact DecodedValue.noConfusion hw
  | timeSeriesVariableResolution a b c d =>
    refine ⟨fun hc => Bool.noConfusion hc, ?_⟩
    rintro ⟨i2, v2, hw⟩
    exact DecodedValue.noConfusion hw

/-- Modelled from the spec: C3 — a JSON object tagged `map` decodes through
the `Map` branch and any success of that branch is a `Map` value; a tag
outside the five known types is the unknown-type format error; and
`is_nested` is true exactly when some value of the map is itself a map, so
the spec's `Map(["A"], [Map(["a"], [-2.3])])` example is nested while the
inner flat map is not (the `Map` class and branch are missing from the
sources under `src/`; only its tests exist there). -/
theorem map_decode_spec (fields : JsonFields) (fuel : Nat) (t : String)
    (l : List DecodedValue)
    (htype : jsonLookup fields "type" = some (.str (.raw t))) :
    (t = "map" →
      from_database_with_mapF (fuel + 1) (.obj fields)
        = map_from_database (from_database_with_mapF fuel) fields ∧
      ∀ v, map_from_database (from_database_with_mapF fuel) fields = .ok v →
        ∃ idx vs, v = .map idx vs) ∧
    (t ∉ ["date_time", "duration", "time_pattern", "time_series", "map"] →
      from_database_with_mapF (fuel + 1) (.obj fields)
        = .error ("Unknown parameter value type " ++ t)) ∧
    (map_is_nested (DecodedValueList.ofList l) = true ↔
      ∃ idx vs, DecodedValue.map idx vs ∈ l) ∧
    from_database_with_map (Json.obj (JsonFields.ofList
      [(.raw "type", .str (.raw "map")),
       (.raw "index_type", .str (.raw "str")),
       (.raw "data", .obj (JsonFields.ofList
          [(.raw "A", .obj (JsonFields.ofList
             [(.raw "type", .str (.raw "map")),
              (.raw "index_type", .str (.raw "str")),
              (.raw "data", .obj (JsonFields.ofList
                 [(.raw "a", .num qNegTwoPointThree)]))]))]))]))
      = .ok (.map [.str (.raw "A")]
          (.cons (.map [.str (.raw "a")]
            (.cons (.plain (.num qNegTwoPointThree)) .nil)) .nil)) ∧
    map_is_nested (.cons (.map [.str (.raw "a")]
        (.cons (.plain (.num qNegTwoPointThree)) .nil)) .nil) = true ∧
    map_is_nested (.cons (.plain (.num qNegTwoPointThree)) .nil) = false := by
  refine ⟨?_, ?_, ?_, by decide, rfl, rfl⟩
  · intro ht
    subst ht
    constructor
    · simp only [from_database_with_mapF, htype]
      rfl
    · intro v hv
      exact map_from_database_shape (from_database_with_mapF fuel) fields v hv
  · intro hmem
    simp only [List.mem_cons, List.not_mem_nil, or_false, not_or] at hmem
    obtain ⟨hdt, hdu, htp, hts, hmap⟩ := hmem
    have hC : ∀ u : String, t ≠ u → ¬(jsonIsStr (Json.str (JStr.raw t)) u = true) := by
      intro u hne hcontra
      simp only [jsonIsStr, jstrEqString, beq_iff_eq] at hcontra
      exact hne hcontra
    simp only [from_database_with_mapF, htype]
    rw [if_neg (hC "map" hmap)]
    unfold from_database
    dsimp only
    rw [htype]
    dsimp only
    rw [if_neg (hC "date_time" hdt), if_neg (hC "duration" hdu),
      if_neg (hC "time_pattern" htp), if_neg (hC "time_series" hts)]
    rfl
  · induction l with
    | nil =>
      constructor
      · intro hc
        exact Bool.noConfusion hc
      · rintro ⟨i2, v2, hm⟩
        exact absurd hm (List.not_mem_nil _)
    | cons w rest ih =>
      show (DecodedValue.isMap w
          || DecodedValueList.any DecodedValue.isMap (DecodedValueList.ofList rest))
            = true ↔ _
      rw [Bool.or_eq_true]
      constructor
      · rintro (hw | hrest)
        · obtain ⟨i2, v2, hmw⟩ := (isMap_iff w).mp hw
          subst hmw
          exact ⟨i2, v2, List.mem_cons_self _ _⟩
        · obtain ⟨i2, v2, hm⟩ := ih.mp hrest
          exact ⟨i2, v2, List.mem_cons_of_mem _ hm⟩
      · rintro ⟨i2, v2, hm⟩
        rcases List.mem_cons.mp hm with h | h
        · subst h
          exact Or.inl rfl
        · exact Or.inr (ih.mpr ⟨i2, v2, h⟩)

/-- The map dispatch, unknown-tag rejection and nesting test evaluated on
concrete inputs: an object tagged `map` with no further fields, and a
one-element value list holding an empty map. -/
theorem map_decode_spec_witness :
    ("map" = "map" →
      from_database_with_mapF (0 + 1) (.obj (JsonFields.ofList
          [(.raw "type", .str (.raw "map"))]))
        = map_from_database (from_database_with_mapF 0) (JsonFields.ofList
          [(.raw "type", .str (.raw "map"))]) ∧
      ∀ v, map_from_database (from_database_with_mapF 0) (JsonFields.ofList
          [(.raw "type", .str (.raw "map"))]) = .ok v →
        ∃ idx vs, v = .map idx vs) ∧
    ("map" ∉ ["date_time", "duration", "time_pattern", "time_series", "map"] →
      from_database_with_mapF (0 + 1) (.obj (JsonFields.ofList
          [(.raw "type", .str (.raw "map"))]))
        = .error ("Unknown parameter value type " ++ "map")) ∧
    (map_is_nested (DecodedValueList.ofList [.map [] .nil]) = true ↔
      ∃ idx vs, DecodedValue.map idx vs ∈ [DecodedValue.map [] .nil]) ∧
    from_database_with_map (Json.obj (JsonFields.ofList
      [(.raw "type", .str (.raw "map")),
       (.raw "index_type", .str (.raw "str")),
       (.raw "data", .obj (JsonFields.ofList
          [(.raw "A", .obj (JsonFields.ofList
             [(.raw "type", .str (.raw "map")),
              (.raw "index_type", .str (.raw "str")),
              (.raw "data", .obj (JsonFields.ofList
                 [(.raw "a", .num qNegTwoPointThree)]))]))]))]))
      = .ok (.map [.str (.raw "A")]
          (.cons (.map [.str (.raw "a")]
            (.cons (.plain (.num qNegTwoPointThree)) .nil)) .nil)) ∧
    map_is_nested (.cons (.map [.str (.raw "a")]
        (.cons (.plain (.num qNegTwoPointThree)) .nil)) .nil) = true ∧
    map_is_nested (.cons (.plain (.num qNegTwoPointThree)) .nil) = false :=
  map_decode_spec (JsonFields.ofList [(.raw "type", .str (.raw "map"))]) 0 "map"
    [.map [] .nil] (by decide)

/-! ### The scenario filter (`filters/scenario_filter.py`) -/

/-- A row of the `parameter_value` subquery (the columns the filter uses). -/
structure PVRow where
  id : Int
  parameter_definition_id : Int
  entity_id : Int
  alternative_id : Int
deriving DecidableEq, Repr

/-- A row of the `scenario_alternative` subquery. -/
structure SARow where
  id : Int
  scenario_id : Int
  alternative_id : Int
  rank : Int
deriving DecidableEq, Repr

/-- A row of the `scenario` subquery. -/
structure ScenarioRow where
  id : Int
  name : String
deriving DecidableEq, Repr

/-- A row of the `alternative` subquery. -/
structure AltRow where
  id : Int
  name : String
deriving DecidableEq, Repr

/-- The database mapping restricted to the four subqueries the scenario
filter overrides (each view modelled as its list of rows). -/
structure DbMap where
  scenario_sq : List ScenarioRow
  scenario_alternative_sq : List SARow
  alternative_sq : List AltRow
  parameter_value_sq : List PVRow
deriving DecidableEq, Repr

/-- The `scenario` argument: a name (`str`) or an id (`int`). -/
inductive ScenarioRef where
  | name (s : String)
  | id (i : Int)
deriving DecidableEq, Repr

/-- Rows paired with their position (the join order of the SQL result). -/
def withIndexFrom {α : Type} : ℕ → List α → List (ℕ × α)
  | _, [] => []
  | n, a :: l => (n, a) :: withIndexFrom (n + 1) l

/-- The join of `ext_parameter_value_sq`: parameter values paired with the
scenario alternatives of the selected scenario sharing their alternative. -/
def scenarioJoin (pvs : List PVRow) (sas : List SARow) (sid : Int) :
    List (PVRow × SARow) :=
  pvs.bind fun pv => (sas.filter fun sa =>
    decide (sa.alternative_id = pv.alternative_id ∧ sa.scenario_id = sid)).map
      fun sa => (pv, sa)

/-- `row_number() OVER (PARTITION BY parameter_definition_id, entity_id
ORDER BY rank DESC) = 1` for the indexed row `p`, compared against `q`:
`p` is not preceded by `q` when `q` is in another partition, has a smaller
rank, or ties in rank without coming earlier (SQL leaves tie order
unspecified; the model fixes it to join order). -/
def winsOver (p q : ℕ × (PVRow × SARow)) : Bool :=
  decide (¬(q.2.1.parameter_definition_id = p.2.1.parameter_definition_id ∧
      q.2.1.entity_id = p.2.1.entity_id) ∨
    q.2.2.rank < p.2.2.rank ∨ (q.2.2.rank = p.2.2.rank ∧ p.1 ≤ q.1))

/-- `_make_scenario_filtered_parameter_value_sq`: the parameter values of
the joined result whose row number within their
(parameter_definition, entity) partition, ordered by descending rank, is 1. -/
def make_scenario_filtered_parameter_value_sq (pvs : List PVRow)
    (sas : List SARow) (sid : Int) : List PVRow :=
  let idx := withIndexFrom 0 (scenarioJoin pvs sas sid)
  (idx.filter fun p => idx.all fun q => winsOver p q).map fun p => p.2.1

/-- `_make_scenario_filtered_alternative_sq`. -/
def make_scenario_filtered_alternative_sq (alts : List AltRow)
    (ids : List Int) : List AltRow :=
  alts.filter fun a => decide (a.id ∈ ids)

/-- `_make_scenario_filtered_scenario_sq`. -/
def make_scenario_filtered_scenario_sq (scs : List ScenarioRow)
    (sid : Int) : List ScenarioRow :=
  scs.filter fun r => decide (r.id = sid)

/-- `_make_scenario_filtered_scenario_alternative_sq`. -/
def make_scenario_filtered_scenario_alternative_sq (sas : List SARow)
    (ids : List Int) : List SARow :=
  sas.filter fun r => decide (r.id ∈ ids)

/-- `_ScenarioFilterState`: the four original subqueries captured first,
then the resolved scenario id and its (scenario_)alternative ids. -/
structure ScenarioFilterState where
  original_parameter_value_sq : List PVRow
  original_scenario_sq : List ScenarioRow
  original_scenario_alternative_sq : List SARow
  original_alternative_sq : List AltRow
  scenario_id : Int
  scenario_alternative_ids : List Int
  alternative_ids : List Int
deriving DecidableEq, Repr

/-- `_ScenarioFilterState._scenario_id`: a name resolves through
`scalar()` (None when no match, `MultipleResultsFound` on several), an id
through `one_or_none()`; a missing scenario raises `SpineDBAPIError`. -/
def resolveScenarioId (db : DbMap) (scenario : ScenarioRef) : Except String Int :=
  match scenario with
  | .name s =>
    (match db.scenario_sq.filter (fun r => decide (r.name = s)) with
    | [] => .error ("Scenario not found: " ++ s)
    | [r] => .ok r.id
    | _ => .error ("MultipleResultsFound"))
  | .id i =>
    (match db.scenario_sq.filter (fun r => decide (r.id = i)) with
    | [] => .error ("Scenario id not found")
    | [_] => .ok i
    | _ => .error ("MultipleResultsFound"))

/-- `_ScenarioFilterState.__init__`: capture the original subqueries,
resolve the scenario, then collect its scenario-alternative rows. -/
def scenarioFilterState (db : DbMap) (scenario : ScenarioRef) :
    Except String ScenarioFilterState :=
  match resolveScenarioId db scenario with
  | .error e => .error e
  | .ok sid =>
    .ok { original_parameter_value_sq := db.parameter_value_sq,
          original_scenario_sq := db.scenario_sq,
          original_scenario_alternative_sq := db.scenario_alternative_sq,
          original_alternative_sq := db.alternative_sq,
          scenario_id := sid,
          scenario_alternative_ids := ((db.scenario_alternative_sq.filter fun r =>
            decide (r.scenario_id = sid)).map fun r => r.id),
          alternative_ids := ((db.scenario_alternative_sq.filter fun r =>
            decide (r.scenario_id = sid)).map fun r => r.alternative_id) }

/-- `apply_scenario_filter_to_subqueries`: build the filter state first; a
raised lookup error leaves the mapping untouched (modelled as returning the
unchanged mapping with the error message), otherwise install the four
subquery overrides. -/
def apply_scenario_filter_to_subqueries (db : DbMap) (scenario : ScenarioRef) :
    DbMap × Option String :=
  match scenarioFilterState db scenario with
  | .error e => (db, some e)
  | .ok st =>
    ({ scenario_sq := make_scenario_filtered_scenario_sq
         st.original_scenario_sq st.scenario_id,
       scenario_alternative_sq := make_scenario_filtered_scenario_alternative_sq
         st.original_scenario_alternative_sq st.scenario_alternative_ids,
       alternative_sq := make_scenario_filtered_alternative_sq
         st.original_alternative_sq st.alternative_ids,
       parameter_value_sq := make_scenario_filtered_parameter_value_sq
         st.original_parameter_value_sq st.original_scenario_alternative_sq
         st.scenario_id }, none)

/-- The best row of a partition: maximal rank, ties resolved to the
earliest position. -/
def bestOf : List (ℕ × (PVRow × SARow)) → Option (ℕ × (PVRow × SARow))
  | [] => none
  | a :: l =>
    match bestOf l with
    | none => some a
    | some b =>
      if b.2.2.rank < a.2.2.rank then some a
      else if a.2.2.rank < b.2.2.rank then some b
      else if a.1 ≤ b.1 then some a
      else some b

theorem withIndexFrom_le {α : Type} : ∀ (n : ℕ) (l : List α) (p : ℕ × α),
    p ∈ withIndexFrom n l → n ≤ p.1
  | _, [], p, h => absurd h (List.not_mem_nil _)
  | n, a :: l, p, h => by
    rcases List.mem_cons.mp h with h0 | h0
    · rw [h0]
    · have h1 := withIndexFrom_le (n + 1) l p h0
      omega

theorem withIndexFrom_mem_snd {α : Type} : ∀ (n : ℕ) (l : List α) (p : ℕ × α),
    p ∈ withIndexFrom n l → p.2 ∈ l
  | _, [], p, h => absurd h (List.not_mem_nil _)
  | n, a :: l, p, h => by
    rcases List.mem_cons.mp h with h0 | h0
    · rw [h0]
      exact List.mem_cons_self _ _
    · exact List.mem_cons_of_mem _ (withIndexFrom_mem_snd (n + 1) l p h0)

theorem withIndexFrom_exists_index {α : Type} : ∀ (n : ℕ) (l : List α) (a : α),
    a ∈ l → ∃ i, (i, a) ∈ withIndexFrom n l
  | _, [], a, h => absurd h (List.not_mem_nil _)
  | n, b :: l, a, h => by
    rcases List.mem_cons.mp h with h0 | h0
    · exact ⟨n, by rw [h0]; exact List.mem_cons_self _ _⟩
    · obtain ⟨i, hi⟩ := withIndexFrom_exists_index (n + 1) l a h0
      exact ⟨i, List.mem_cons_of_mem _ hi⟩

theorem withIndexFrom_inj {α : Type} : ∀ (n : ℕ) (l : List α) (i : ℕ) (a b : α),
    (i, a) ∈ withIndexFrom n l → (i, b) ∈ withIndexFrom n l → a = b
  | _, [], _, _, _, ha, _ => absurd ha (List.not_mem_nil _)
  | n, c :: l, i, a, b, ha, hb => by
    rcases List.mem_cons.mp ha with h1 | h1 <;> rcases List.mem_cons.mp hb with h2 | h2
    · rw [Prod.mk.injEq] at h1 h2
      exact h1.2.trans h2.2.symm
    · rw [Prod.mk.injEq] at h1
      have h3 : n + 1 ≤ i := withIndexFrom_le (n + 1) l (i, b) h2
      obtain ⟨h11, h12⟩ := h1
      omega
    · rw [Prod.mk.injEq] at h2
      have h3 : n + 1 ≤ i := withIndexFrom_le (n + 1) l (i, a) h1
      obtain ⟨h21, h22⟩ := h2
      omega
    · exact withIndexFrom_inj (n + 1) l i a b h1 h2

theorem bestOf_eq_none : ∀ (l : List (ℕ × (PVRow × SARow))), bestOf l = none → l = []
  | [], _ => rfl
  | a :: l, h => by
    unfold bestOf at h
    cases hb : bestOf l with
    | none =>
      rw [hb] at h
      exact Option.noConfusion h
    | some b =>
      rw [hb] at h
      dsimp only at h
      by_cases h1 : b.2.2.rank < a.2.2.rank
      · rw [if_pos h1] at h
        exact Option.noConfusion h
      · rw [if_neg h1] at h
        by_cases h2 : a.2.2.rank < b.2.2.rank
        · rw [if_pos h2] at h
          exact Option.noConfusion h
        · rw [if_neg h2] at h
          by_cases h3 : a.1 ≤ b.1
          · rw [if_pos h3] at h
            exact Option.noConfusion h
          · rw [if_neg h3] at h
            exact Option.noConfusion h

theorem bestOf_mem : ∀ (l : List (ℕ × (PVRow × SARow))) (p), bestOf l = some p → p ∈ l
  | [], _, h => Option.noConfusion h
  | a :: l, p, h => by
    unfold bestOf at h
    cases hb : bestOf l with
    | none =>
      rw [hb] at h
      dsimp only at h
      have h0 := Option.some.inj h
      rw [← h0]
      exact List.mem_cons_self _ _
    | some b =>
      rw [hb] at h
      dsimp only at h
      by_cases h1 : b.2.2.rank < a.2.2.rank
      · rw [if_pos h1] at h
        rw [← Option.some.inj h]
        exact List.mem_cons_self _ _
      · rw [if_neg h1] at h
        by_cases h2 : a.2.2.rank < b.2.2.rank
        · rw [if_pos h2] at h
          rw [← Option.some.inj h]
          exact List.mem_cons_of_mem _ (bestOf_mem l b hb)
        · rw [if_neg h2] at h
          by_cases h3 : a.1 ≤ b.1
          · rw [if_pos h3] at h
            rw [← Option.some.inj h]
            exact List.mem_cons_self _ _
          · rw [if_neg h3] at h
            rw [← Option.some.inj h]
            exact List.mem_cons_of_mem _ (bestOf_mem l b hb)

theorem bestOf_spec : ∀ (l : List (ℕ × (PVRow × SARow))) (p), bestOf l = some p →
    ∀ q ∈ l, q.2.2.rank < p.2.2.rank ∨ (q.2.2.rank = p.2.2.rank ∧ p.1 ≤ q.1)
  | [], _, _, q, hq => absurd hq (List.not_mem_nil _)
  | a :: l, p, h, q, hq => by
    unfold bestOf at h
    cases hb : bestOf l with
    | none =>
      rw [hb] at h
      dsimp only at h
      have hap := Option.some.inj h
      subst hap
      rcases List.mem_cons.mp hq with h0 | h0
      · subst h0
        exact Or.inr ⟨rfl, Nat.le_refl _⟩
      · rw [bestOf_eq_none l hb] at h0
        exact absurd h0 (List.not_mem_nil _)
    | some b =>
      rw [hb] at h
      dsimp only at h
      by_cases h1 : b.2.2.rank < a.2.2.rank
      · rw [if_pos h1] at h
        have hap := Option.some.inj h
        subst hap
        rcases List.mem_cons.mp hq with h0 | h0
        · subst h0
          exact Or.inr ⟨rfl, Nat.le_refl _⟩
        · rcases bestOf_spec l b hb q h0 with h2 | h2
          · exact Or.inl (lt_trans h2 h1)
          · obtain ⟨h21, h22⟩ := h2
            exact Or.inl (by omega)
      · rw [if_neg h1] at h
        by_cases h2 : a.2.2.rank < b.2.2.rank
        · rw [if_pos h2] at h
          have hbp := Option.some.inj h
          subst hbp
          rcases List.mem_cons.mp hq with h0 | h0
          · subst h0
            exact Or.inl h2
          · exact bestOf_spec l b hb q h0
        · rw [if_neg h2] at h
          have heq : a.2.2.rank = b.2.2.rank :=
            le_antisymm (not_lt.mp h1) (not_lt.mp h2)
          by_cases h3 : a.1 ≤ b.1
          · rw [if_pos h3] at h
            have hap := Option.some.inj h
            subst hap
            rcases List.mem_cons.mp hq with h0 | h0
            · subst h0
              exact Or.inr ⟨rfl, Nat.le_refl _⟩
            · rcases bestOf_spec l b hb q h0 with h4 | h4
              · exact Or.inl (by omega)
              · obtain ⟨h41, h42⟩ := h4
                exact Or.inr ⟨by omega, by omega⟩
          · rw [if_neg h3] at h
            have hbp := Option.some.inj h
            subst hbp
            rcases List.mem_cons.mp hq with h0 | h0
            · subst h0
              exact Or.inr ⟨heq, by omega⟩
            · exact bestOf_spec l b hb q h0

theorem mem_scenarioJoin (pvs : List PVRow) (sas : List SARow) (sid : Int)
    (pv : PVRow) (sa : SARow) :
    (pv, sa) ∈ scenarioJoin pvs sas sid ↔
      pv ∈ pvs ∧ sa ∈ sas ∧ sa.alternative_id = pv.alternative_id ∧
        sa.scenario_id = sid := by
  unfold scenarioJoin
  rw [List.mem_bind]
  constructor
  · rintro ⟨pv2, hpv2, hmem⟩
    rw [List.mem_map] at hmem
    obtain ⟨sa2, hsa2, heq⟩ := hmem
    rw [List.mem_filter] at hsa2
    obtain ⟨hsa2m, hcond⟩ := hsa2
    rw [Prod.mk.injEq] at heq
    obtain ⟨hpe, hse⟩ := heq
    subst hpe
    subst hse
    have hc := of_decide_eq_true hcond
    exact ⟨hpv2, hsa2m, hc.1, hc.2⟩
  · rintro ⟨hpv, hsa, halt, hsid⟩
    refine ⟨pv, hpv, ?_⟩
    rw [List.mem_map]
    refine ⟨sa, ?_, rfl⟩
    rw [List.mem_filter]
    exact ⟨hsa, decide_eq_true ⟨halt, hsid⟩⟩

/-- Every non-empty partition contains a row winning over the whole list. -/
theorem exists_winner (L : List (ℕ × (PVRow × SARow))) (d e : Int)
    (pw : ℕ × (PVRow × SARow)) (hpw : pw ∈ L)
    (hpd : pw.2.1.parameter_definition_id = d) (hpe : pw.2.1.entity_id = e) :
    ∃ p ∈ L, p.2.1.parameter_definition_id = d ∧ p.2.1.entity_id = e ∧
      ∀ q ∈ L, winsOver p q = true := by
  have hSw : pw ∈ L.filter (fun q =>
      decide (q.2.1.parameter_definition_id = d ∧ q.2.1.entity_id = e)) :=
    List.mem_filter.mpr ⟨hpw, decide_eq_true ⟨hpd, hpe⟩⟩
  cases hbo : bestOf (L.filter (fun q =>
      decide (q.2.1.parameter_definition_id = d ∧ q.2.1.entity_id = e))) with
  | none =>
    rw [bestOf_eq_none _ hbo] at hSw
    exact absurd hSw (List.not_mem_nil _)
  | some p =>
    have hpS := bestOf_mem _ p hbo
    have hpL := (List.mem_filter.mp hpS).1
    have hpPart := of_decide_eq_true (List.mem_filter.mp hpS).2
    refine ⟨p, hpL, hpPart.1, hpPart.2, ?_⟩
    intro q hq
    by_cases hqPart : q.2.1.parameter_definition_id = d ∧ q.2.1.entity_id = e
    · have hqS : q ∈ L.filter (fun q =>
          decide (q.2.1.parameter_definition_id = d ∧ q.2.1.entity_id = e)) :=
        List.mem_filter.mpr ⟨hq, decide_eq_true hqPart⟩
      rcases bestOf_spec _ p hbo q hqS with h1 | h1
      · exact decide_eq_true (Or.inr (Or.inl h1))
      · exact decide_eq_true (Or.inr (Or.inr ⟨h1.1, h1.2⟩))
    · refine decide_eq_true (Or.inl ?_)
      intro hcontra
      exact hqPart ⟨hcontra.1.trans hpPart.1, hcontra.2.trans hpPart.2⟩

/-- C2: in the scenario-filtered parameter_value view, every
(parameter_definition, entity) pair having a value in some alternative of
the scenario gets exactly one row — the one whose scenario-alternative has
the largest rank — and pairs without such a value are absent.  Ranks are
assumed distinct within the scenario and (definition, entity, alternative)
unique among the values, matching the schema's constraints. -/
theorem scenario_filter_parameter_value_spec (pvs : List PVRow)
    (sas : List SARow) (sid d e : Int)
    (hranks : ∀ sa1 ∈ sas, ∀ sa2 ∈ sas, sa1.scenario_id = sid →
      sa2.scenario_id = sid → sa1.rank = sa2.rank → sa1 = sa2)
    (hpvkey : ∀ pv1 ∈ pvs, ∀ pv2 ∈ pvs,
      pv1.parameter_definition_id = pv2.parameter_definition_id →
      pv1.entity_id = pv2.entity_id →
      pv1.alternative_id = pv2.alternative_id → pv1 = pv2) :
    ((∃ pv ∈ pvs, pv.parameter_definition_id = d ∧ pv.entity_id = e ∧
        ∃ sa ∈ sas, sa.scenario_id = sid ∧ sa.alternative_id = pv.alternative_id) →
      ∃ pv sa,
        pv ∈ make_scenario_filtered_parameter_value_sq pvs sas sid ∧
        pv.parameter_definition_id = d ∧ pv.entity_id = e ∧
        pv ∈ pvs ∧ sa ∈ sas ∧ sa.scenario_id = sid ∧
        sa.alternative_id = pv.alternative_id ∧
        (∀ pv2 ∈ pvs, pv2.parameter_definition_id = d → pv2.entity_id = e →
          ∀ sa2 ∈ sas, sa2.scenario_id = sid →
          sa2.alternative_id = pv2.alternative_id →
          pv2 = pv ∨ sa2.rank < sa.rank) ∧
        (∀ pv2 ∈ make_scenario_filtered_parameter_value_sq pvs sas sid,
          pv2.parameter_definition_id = d → pv2.entity_id = e → pv2 = pv)) ∧
    ((¬ ∃ pv ∈ pvs, pv.parameter_definition_id = d ∧ pv.entity_id = e ∧
        ∃ sa ∈ sas, sa.scenario_id = sid ∧ sa.alternative_id = pv.alternative_id) →
      ∀ pv ∈ make_scenario_filtered_parameter_value_sq pvs sas sid,
        ¬(pv.parameter_definition_id = d ∧ pv.entity_id = e)) := by
  constructor
  · intro hex
    obtain ⟨pvw, hpvw, hd, he, saw, hsaw, hsidw, haltw⟩ := hex
    have hjw : (pvw, saw) ∈ scenarioJoin pvs sas sid :=
      (mem_scenarioJoin pvs sas sid pvw saw).mpr ⟨hpvw, hsaw, haltw, hsidw⟩
    obtain ⟨iw, hiw⟩ :=
      withIndexFrom_exists_index 0 (scenarioJoin pvs sas sid) (pvw, saw) hjw
    obtain ⟨p, hpL, hpd2, hpe2, hwin⟩ :=
      exists_winner (withIndexFrom 0 (scenarioJoin pvs sas sid)) d e
        (iw, (pvw, saw)) hiw hd he
    have hpJ : p.2 ∈ scenarioJoin pvs sas sid :=
      withIndexFrom_mem_snd 0 (scenarioJoin pvs sas sid) p hpL
    obtain ⟨hpvmem, hsamem, haltp, hsidp⟩ :=
      (mem_scenarioJoin pvs sas sid p.2.1 p.2.2).mp (by exact hpJ)
    refine ⟨p.2.1, p.2.2, ?_, hpd2, hpe2, hpvmem, hsamem, hsidp, haltp, ?_, ?_⟩
    · unfold make_scenario_filtered_parameter_value_sq
      dsimp only
      rw [List.mem_map]
      refine ⟨p, ?_, rfl⟩
      rw [List.mem_filter]
      exact ⟨hpL, List.all_eq_true.mpr hwin⟩
    · intro pv2 hpv2 hd2 he2 sa2 hsa2 hsid2 halt2
      have hj2 : (pv2, sa2) ∈ scenarioJoin pvs sas sid :=
        (mem_scenarioJoin pvs sas sid pv2 sa2).mpr ⟨hpv2, hsa2, halt2, hsid2⟩
      obtain ⟨i2, hi2⟩ :=
        withIndexFrom_exists_index 0 (scenarioJoin pvs sas sid) (pv2, sa2) hj2
      have hwq := of_decide_eq_true (hwin (i2, (pv2, sa2)) hi2)
      rcases hwq with h0 | h0 | h0
      · exact absurd ⟨hd2.trans hpd2.symm, he2.trans hpe2.symm⟩ h0
      · exact Or.inr h0
      · have hsaeq : sa2 = p.2.2 :=
          hranks sa2 hsa2 p.2.2 hsamem hsid2 hsidp h0.1
        have haeq : pv2.alternative_id = p.2.1.alternative_id := by
          rw [← halt2, hsaeq]
          exact haltp
        exact Or.inl (hpvkey pv2 hpv2 p.2.1 hpvmem (hd2.trans hpd2.symm)
          (he2.trans hpe2.symm) haeq)
    · intro pv2 hpv2view hd2 he2
      unfold make_scenario_filtered_parameter_value_sq at hpv2view
      dsimp only at hpv2view
      rw [List.mem_map] at hpv2view
      obtain ⟨q, hqmem, hqeq⟩ := hpv2view
      rw [List.mem_filter] at hqmem
      obtain ⟨hqL, hqall⟩ := hqmem
      have hqwin := List.all_eq_true.mp hqall
      have h1 := of_decide_eq_true (hwin q hqL)
      have h2 := of_decide_eq_true (hqwin p hpL)
      subst hqeq
      rcases h1 with h0 | h0 | h0
      · exact absurd ⟨hd2.trans hpd2.symm, he2.trans hpe2.symm⟩ h0
      · rcases h2 with g0 | g0 | g0
        · exact absurd ⟨hpd2.trans hd2.symm, hpe2.trans he2.symm⟩ g0
        · exact absurd g0 (lt_asymm h0)
        · obtain ⟨g01, g02⟩ := g0
          exact absurd h0 (by omega)
      · rcases h2 with g0 | g0 | g0
        · exact absurd ⟨hpd2.trans hd2.symm, hpe2.trans he2.symm⟩ g0
        · obtain ⟨h01, h02⟩ := h0
          exact absurd g0 (by omega)
        · have hidx : q.1 = p.1 := Nat.le_antisymm g0.2 h0.2
          have hqL2 : (p.1, q.2) ∈ withIndexFrom 0 (scenarioJoin pvs sas sid) := by
            rw [← hidx]
            exact hqL
          have hq2p : q.2 = p.2 :=
            withIndexFrom_inj 0 (scenarioJoin pvs sas sid) p.1 q.2 p.2 hqL2
              (by exact hpL)
          exact congrArg Prod.fst hq2p
  · intro hnone pv0 hpv0 hcontra
    unfold make_scenario_filtered_parameter_value_sq at hpv0
    dsimp only at hpv0
    rw [List.mem_map] at hpv0
    obtain ⟨q, hqmem, hqeq⟩ := hpv0
    rw [List.mem_filter] at hqmem
    have hqJ : q.2 ∈ scenarioJoin pvs sas sid :=
      withIndexFrom_mem_snd 0 (scenarioJoin pvs sas sid) q hqmem.1
    obtain ⟨hq1, hq2, hq3, hq4⟩ :=
      (mem_scenarioJoin pvs sas sid q.2.1 q.2.2).mp (by exact hqJ)
    subst hqeq
    exact hnone ⟨q.2.1, hq1, hcontra.1, hcontra.2, q.2.2, hq2, hq4, hq3⟩

/-- The filter evaluated on a concrete database: one definition and entity
valued under two alternatives of scenario 7 with ranks 1 and 2. -/
theorem scenario_filter_parameter_value_spec_witness :
    ((∃ pv ∈ [(⟨101, 1, 1, 1⟩ : PVRow), ⟨102, 1, 1, 2⟩],
        pv.parameter_definition_id = 1 ∧ pv.entity_id = 1 ∧
        ∃ sa ∈ [(⟨11, 7, 1, 1⟩ : SARow), ⟨12, 7, 2, 2⟩],
          sa.scenario_id = 7 ∧ sa.alternative_id = pv.alternative_id) →
      ∃ pv sa,
        pv ∈ make_scenario_filtered_parameter_value_sq
          [(⟨101, 1, 1, 1⟩ : PVRow), ⟨102, 1, 1, 2⟩]
          [(⟨11, 7, 1, 1⟩ : SARow), ⟨12, 7, 2, 2⟩] 7 ∧
        pv.parameter_definition_id = 1 ∧ pv.entity_id = 1 ∧
        pv ∈ [(⟨101, 1, 1, 1⟩ : PVRow), ⟨102, 1, 1, 2⟩] ∧
        sa ∈ [(⟨11, 7, 1, 1⟩ : SARow), ⟨12, 7, 2, 2⟩] ∧
        sa.scenario_id = 7 ∧
        sa.alternative_id = pv.alternative_id ∧
        (∀ pv2 ∈ [(⟨101, 1, 1, 1⟩ : PVRow), ⟨102, 1, 1, 2⟩],
          pv2.parameter_definition_id = 1 → pv2.entity_id = 1 →
          ∀ sa2 ∈ [(⟨11, 7, 1, 1⟩ : SARow), ⟨12, 7, 2, 2⟩],
            sa2.scenario_id = 7 →
            sa2.alternative_id = pv2.alternative_id →
            pv2 = pv ∨ sa2.rank < sa.rank) ∧
        (∀ pv2 ∈ make_scenario_filtered_parameter_value_sq
            [(⟨101, 1, 1, 1⟩ : PVRow), ⟨102, 1, 1, 2⟩]
            [(⟨11, 7, 1, 1⟩ : SARow), ⟨12, 7, 2, 2⟩] 7,
          pv2.parameter_definition_id = 1 → pv2.entity_id = 1 → pv2 = pv)) ∧
    ((¬ ∃ pv ∈ [(⟨101, 1, 1, 1⟩ : PVRow), ⟨102, 1, 1, 2⟩],
        pv.parameter_definition_id = 1 ∧ pv.entity_id = 1 ∧
        ∃ sa ∈ [(⟨11, 7, 1, 1⟩ : SARow), ⟨12, 7, 2, 2⟩],
          sa.scenario_id = 7 ∧ sa.alternative_id = pv.alternative_id) →
      ∀ pv ∈ make_scenario_filtered_parameter_value_sq
          [(⟨101, 1, 1, 1⟩ : PVRow), ⟨102, 1, 1, 2⟩]
          [(⟨11, 7, 1, 1⟩ : SARow), ⟨12, 7, 2, 2⟩] 7,
        ¬(pv.parameter_definition_id = 1 ∧ pv.entity_id = 1)) :=
  scenario_filter_parameter_value_spec
    [(⟨101, 1, 1, 1⟩ : PVRow), ⟨102, 1, 1, 2⟩]
    [(⟨11, 7, 1, 1⟩ : SARow), ⟨12, 7, 2, 2⟩] 7 1 1
    (by decide) (by decide)

/-- C8: when scenario-filter state construction fails (the scenario lookup
raises), applying the scenario filter reports that error and installs none
of the four subquery overrides: parameter_value, alternative, scenario and
scenario_alternative views are exactly as before the call. -/
theorem scenario_filter_error_no_overrides (db : DbMap) (scenario : ScenarioRef)
    (e : String) (herr : scenarioFilterState db scenario = .error e) :
    (apply_scenario_filter_to_subqueries db scenario).2 = some e ∧
    (apply_scenario_filter_to_subqueries db scenario).1.parameter_value_sq
      = db.parameter_value_sq ∧
    (apply_scenario_filter_to_subqueries db scenario).1.alternative_sq
      = db.alternative_sq ∧
    (apply_scenario_filter_to_subqueries db scenario).1.scenario_sq
      = db.scenario_sq ∧
    (apply_scenario_filter_to_subqueries db scenario).1.scenario_alternative_sq
      = db.scenario_alternative_sq ∧
    (apply_scenario_filter_to_subqueries db scenario).1 = db := by
  unfold apply_scenario_filter_to_subqueries
  rw [herr]
  exact ⟨rfl, rfl, rfl, rfl, rfl, rfl⟩

/-- The no-override guarantee evaluated on a concrete mapping whose
scenario table lacks the requested scenario name. -/
theorem scenario_filter_error_no_overrides_witness :
    (apply_scenario_filter_to_subqueries
        ⟨[⟨1, "base"⟩], [⟨11, 1, 1, 1⟩], [⟨1, "Base"⟩], [⟨101, 1, 1, 1⟩]⟩
        (.name "missing")).2 = some ("Scenario not found: missing") ∧
    (apply_scenario_filter_to_subqueries
        ⟨[⟨1, "base"⟩], [⟨11, 1, 1, 1⟩], [⟨1, "Base"⟩], [⟨101, 1, 1, 1⟩]⟩
        (.name "missing")).1.parameter_value_sq = [⟨101, 1, 1, 1⟩] ∧
    (apply_scenario_filter_to_subqueries
        ⟨[⟨1, "base"⟩], [⟨11, 1, 1, 1⟩], [⟨1, "Base"⟩], [⟨101, 1, 1, 1⟩]⟩
        (.name "missing")).1.alternative_sq = [⟨1, "Base"⟩] ∧
    (apply_scenario_filter_to_subqueries
        ⟨[⟨1, "base"⟩], [⟨11, 1, 1, 1⟩], [⟨1, "Base"⟩], [⟨101, 1, 1, 1⟩]⟩
        (.name "missing")).1.scenario_sq = [⟨1, "base"⟩] ∧
    (apply_scenario_filter_to_subqueries
        ⟨[⟨1, "base"⟩], [⟨11, 1, 1, 1⟩], [⟨1, "Base"⟩], [⟨101, 1, 1, 1⟩]⟩
        (.name "missing")).1.scenario_alternative_sq = [⟨11, 1, 1, 1⟩] ∧
    (apply_scenario_filter_to_subqueries
        ⟨[⟨1, "base"⟩], [⟨11, 1, 1, 1⟩], [⟨1, "Base"⟩], [⟨101, 1, 1, 1⟩]⟩
        (.name "missing")).1
      = ⟨[⟨1, "base"⟩], [⟨11, 1, 1, 1⟩], [⟨1, "Base"⟩], [⟨101, 1, 1, 1⟩]⟩ :=
  scenario_filter_error_no_overrides
    ⟨[⟨1, "base"⟩], [⟨11, 1, 1, 1⟩], [⟨1, "Base"⟩], [⟨101, 1, 1, 1⟩]⟩
    (.name "missing") ("Scenario not found: missing") (by decide)

/-! ### Filter URLs (`filters/url_tools.py` over `urllib.parse`)

The `urllib.parse` machinery is embedded at character level for URLs free
of whitespace and control characters; percent-encoding covers single-byte
code points (all inputs in the claims are ASCII). -/

/-- `urllib`'s always-safe characters (letters, digits, `_.-~`). -/
def isAlwaysSafeChar (c : Char) : Bool :=
  (decide ('A' ≤ c ∧ c ≤ 'Z') || decide ('a' ≤ c ∧ c ≤ 'z') ||
    decide ('0' ≤ c ∧ c ≤ '9')) ||
  decide (c = '_' ∨ c = '.' ∨ c = '-' ∨ c = '~')

/-- Upper-case hex digit of a value below 16. -/
def hexUpper (n : ℕ) : Char :=
  if n < 10 then Char.ofNat (48 + n) else Char.ofNat (55 + n)

/-- One character under `quote_plus` (safe chars pass, space becomes `+`,
the rest percent-encodes). -/
def quotePlusChar (c : Char) : List Char :=
  if isAlwaysSafeChar c then [c]
  else if c = ' ' then ['+']
  else if c.toNat < 128 then ['%', hexUpper (c.toNat / 16), hexUpper (c.toNat % 16)]
  else [c]

/-- `urllib.parse.quote_plus` with empty `safe`, as `urlencode` uses it. -/
def quotePlus (s : List Char) : List Char :=
  s.flatMap quotePlusChar

/-- The `.replace('+', ' ')` step of `parse_qsl`. -/
def plusToSpace (s : List Char) : List Char :=
  s.map fun c => if c = '+' then ' ' else c

/-- Hexadecimal digit value. -/
def hexVal (c : Char) : Option ℕ :=
  if decide ('0' ≤ c ∧ c ≤ '9') then some (c.toNat - 48)
  else if decide ('A' ≤ c ∧ c ≤ 'F') then some (c.toNat - 55)
  else if decide ('a' ≤ c ∧ c ≤ 'f') then some (c.toNat - 87)
  else none

/-- Split at the first occurrence of `sep` (`str.split(sep, 1)` /
`str.partition`); `none` when absent. -/
def splitFirst (sep : Char) : List Char → Option (List Char × List Char)
  | [] => none
  | c :: rest =>
    if c = sep then some ([], rest)
    else
      match splitFirst sep rest with
      | none => none
      | some (a, b) => some (c :: a, b)

/-- `str.split(sep)` on a separator character. -/
def splitOnChar (sep : Char) : List Char → List (List Char)
  | [] => [[]]
  | c :: rest =>
    match splitOnChar sep rest with
    | [] => if c = sep then [[], []] else [[c]]
    | h :: t => if c = sep then [] :: h :: t else (c :: h) :: t

/-- `sep.join(parts)`. -/
def joinSep (sep : Char) : List (List Char) → List Char
  | [] => []
  | [x] => x
  | x :: rest => x ++ sep :: joinSep sep rest

/-- One piece after a `%`: its two leading hex digits decode, or the `%`
stays literal. -/
def unquoteItem (item : List Char) : List Char :=
  match item with
  | c1 :: c2 :: rest =>
    (match hexVal c1, hexVal c2 with
    | some h1, some h2 => Char.ofNat (16 * h1 + h2) :: rest
    | _, _ => '%' :: item)
  | _ => '%' :: item

/-- `urllib.parse.unquote`: split on `%`, decode the two leading hex
digits of each later piece, leaving bad escapes as literal `%`. -/
def percentUnquote (s : List Char) : List Char :=
  match splitOnChar '%' s with
  | [] => []
  | b0 :: bits => b0 ++ bits.flatMap unquoteItem

/-- One `name=value` field of a query string: blank fields, fields without
`=` and fields with an empty value are dropped, the rest are
plus/percent-decoded. -/
def qslEntry (nameValue : List Char) : Option (List Char × List Char) :=
  if nameValue.isEmpty then none
  else
    match splitFirst '=' nameValue with
    | none => none
    | some (n, v) =>
      if v.isEmpty then none
      else some (percentUnquote (plusToSpace n), percentUnquote (plusToSpace v))

/-- `urllib.parse.parse_qsl` with the default flags. -/
def parse_qsl (qs : List Char) : List (List Char × List Char) :=
  (if qs.isEmpty then [] else splitOnChar '&' qs).filterMap qslEntry

/-- Group a parsed pair into the `parse_qs` dictionary (insertion order of
first occurrence, values appended in order). -/
def qsInsert : List (List Char × List (List Char)) → List Char → List Char →
    List (List Char × List (List Char))
  | [], name, value => [(name, [value])]
  | (k, vs) :: rest, name, value =>
    if k = name then (k, vs ++ [value]) :: rest
    else (k, vs) :: qsInsert rest name value

/-- `urllib.parse.parse_qs`. -/
def parse_qs (qs : List Char) : List (List Char × List (List Char)) :=
  (parse_qsl qs).foldl (fun acc p => qsInsert acc p.1 p.2) []

/-- `urllib.parse.urlencode` with `doseq=True` and `quote_plus`. -/
def urlencode (query : List (List Char × List (List Char))) : List Char :=
  joinSep '&' (query.flatMap fun p => p.2.map fun v => quotePlus p.1 ++ '=' :: quotePlus v)

/-- Characters allowed in a URL scheme after the first letter. -/
def schemeChar (c : Char) : Bool :=
  c.isAlpha || c.isDigit || decide (c = '+' ∨ c = '-' ∨ c = '.')

/-- The scheme-extraction step of `urlsplit`: text before the first `:`
must start with a letter and consist of scheme characters; the scheme is
lower-cased. -/
def splitScheme (cs : List Char) : Option (List Char × List Char) :=
  match splitFirst ':' cs with
  | none => none
  | some (pre, rest) =>
    match pre with
    | [] => none
    | c0 :: _ =>
      if c0.isAlpha && pre.all schemeChar then some (pre.map Char.toLower, rest)
      else none

/-- `_splitnetloc`: the netloc runs until `/`, `?` or `#`. -/
def splitNetloc : List Char → List Char × List Char
  | [] => ([], [])
  | c :: rest =>
    if decide (c = '/' ∨ c = '?' ∨ c = '#') then ([], c :: rest)
    else
      match splitNetloc rest with
      | (a, b) => (c :: a, b)

/-- Split at the last occurrence of `sep`. -/
def splitLast (sep : Char) (s : List Char) : Option (List Char × List Char) :=
  match splitFirst sep s.reverse with
  | some (a, b) => some (b.reverse, a.reverse)
  | none => none

/-- `_splitparams` (only called when the path contains `;`): params start
at the first `;` of the last path segment. -/
def splitParams (url : List Char) : List Char × List Char :=
  if decide ('/' ∈ url) then
    match splitLast '/' url with
    | some (pre, seg) =>
      (match splitFirst ';' seg with
      | some (a, b) => (pre ++ '/' :: a, b)
      | none => (url, []))
    | none => (url, [])
  else
    match splitFirst ';' url with
    | some (a, b) => (a, b)
    | none => (url, [])

/-- The six components of `urlparse`. -/
structure UrlParts where
  scheme : List Char
  netloc : List Char
  path : List Char
  params : List Char
  query : List Char
  fragment : List Char
deriving DecidableEq, Repr

/-- `urllib.parse.urlparse` (Python 3.11): scheme, then `//netloc`, then
fragment, then query, then path params. -/
def urlparse (url : List Char) : UrlParts :=
  let sr :=
    match splitScheme url with
    | some (s, r) => (s, r)
    | none => (([] : List Char), url)
  let nr :=
    if sr.2.take 2 = ['/', '/'] then splitNetloc (sr.2.drop 2) else ([], sr.2)
  let fr :=
    match splitFirst '#' nr.2 with
    | some (a, b) => (a, b)
    | none => (nr.2, ([] : List Char))
  let qr :=
    match splitFirst '?' fr.1 with
    | some (a, b) => (a, b)
    | none => (fr.1, ([] : List Char))
  let pp := if decide (';' ∈ qr.1) then splitParams qr.1 else (qr.1, ([] : List Char))
  ⟨sr.1, nr.1, pp.1, pp.2, qr.2, fr.2⟩

/-- The schemes of `urllib.parse.uses_netloc` (Python 3.11). -/
def usesNetloc (s : List Char) : Bool :=
  decide (String.mk s ∈ ["", "ftp", "http", "gopher", "nntp", "telnet", "imap",
    "wais", "file", "mms", "https", "shttp", "snews", "prospero", "rtsp",
    "rtsps", "rtspu", "rsync", "svn", "svn+ssh", "sftp", "nfs", "git",
    "git+ssh", "ws", "wss"])

/-- `urllib.parse.urlunsplit` (Python 3.11). -/
def urlunsplit (scheme netloc url query fragment : List Char) : List Char :=
  let url1 :=
    if netloc ≠ [] ∨ (scheme ≠ [] ∧ usesNetloc scheme = true ∧ url.take 2 ≠ ['/', '/']) then
      '/' :: '/' :: (netloc ++ (if url ≠ [] ∧ url.take 1 ≠ ['/'] then '/' :: url else url))
    else url
  let url2 := if scheme ≠ [] then scheme ++ ':' :: url1 else url1
  let url3 := if query ≠ [] then url2 ++ '?' :: query else url2
  if fragment ≠ [] then url3 ++ '#' :: fragment else url3

/-- `urllib.parse.urlunparse` (= `ParseResult.geturl()`). -/
def urlunparse (p : UrlParts) : List Char :=
  urlunsplit p.scheme p.netloc
    (if p.params ≠ [] then p.path ++ ';' :: p.params else p.path) p.query p.fragment

/-- `query.setdefault(key, []).append(value)`. -/
def qsSetdefaultAppend : List (List Char × List (List Char)) → List Char → List Char →
    List (List Char × List (List Char))
  | [], k, v => [(k, [v])]
  | (k2, vs) :: rest, k, v =>
    if k2 = k then (k2, vs ++ [v]) :: rest
    else (k2, vs) :: qsSetdefaultAppend rest k v

/-- `query.pop(key)`: the removed values and the remaining dictionary. -/
def qsPop : List (List Char × List (List Char)) → List Char →
    Option (List (List Char) × List (List Char × List (List Char)))
  | [], _ => none
  | (k2, vs) :: rest, k =>
    if k2 = k then some (vs, rest)
    else
      match qsPop rest k with
      | none => none
      | some (vs2, rest2) => some (vs2, (k2, vs) :: rest2)

/-- A filter config argument or result: a scenario-filter configuration
dictionary, or a plain string (a path to a config file).  Of the four
converter modules only `scenario_filter` is present in the sources under
`src/`, so dictionary configs are scenario configs. -/
inductive ConfigArg where
  | scenarioConfig (name : String)
  | path (s : String)
deriving DecidableEq, Repr

/-- `a` is a prefix of the second list. -/
def listStartsWith : List Char → List Char → Bool
  | [], _ => true
  | _ :: _, [] => false
  | a :: as, b :: bs => a == b && listStartsWith as bs

/-- `_parse_shorthand` (for the tags present in the sources): dispatch on
the text before the first `:`; the scenario parser takes everything after
it as the scenario name.  Unknown tags raise `KeyError` (`none`). -/
def parse_shorthand (s : List Char) : Option ConfigArg :=
  let tag :=
    match splitFirst ':' s with
    | some (t, _) => t
    | none => s
  if tag = ("scenario".toList) then
    some (.scenarioConfig (String.mk
      (match splitFirst ':' s with
      | some (_, rest) => rest
      | none => [])))
  else none

/-- `append_filter_config`: parse the URL, append the config (dicts become
`cfg:`-shorthands) to the `spinedbfilter` query values, re-encode, and
rebuild the URL with `path = "//" + path`. -/
def append_filter_config (url : String) (config : ConfigArg) : String :=
  let p := urlparse url.toList
  let query := parse_qs p.query
  let shorthand :=
    match config with
    | .scenarioConfig n => ("cfg:scenario:".toList) ++ n.toList
    | .path s => s.toList
  let query2 := qsSetdefaultAppend query ("spinedbfilter".toList) shorthand
  String.mk (urlunparse
    { p with query := urlencode query2, path := '/' :: '/' :: p.path })

/-- `pop_filter_configs`: remove the `spinedbfilter` query values, parse
`cfg:`-shorthands back to config dictionaries (unknown shorthand tags
raise `KeyError`), and rebuild the remaining URL with
`path = "//" + path`. -/
def pop_filter_configs (url : String) : Except String (List ConfigArg × String) :=
  let p := urlparse url.toList
  let query := parse_qs p.query
  match qsPop query ("spinedbfilter".toList) with
  | none => .ok ([], url)
  | some (filters, query2) =>
    match filters.mapM (fun f =>
      if listStartsWith ("cfg:".toList) f then
        (match parse_shorthand (f.drop 4) with
        | some c => Except.ok c
        | none => Except.error ("KeyError"))
      else Except.ok (ConfigArg.path (String.mk f))) with
    | .error e => .error e
    | .ok parsed =>
      .ok (parsed, String.mk (urlunparse
        { p with query := urlencode query2, path := '/' :: '/' :: p.path }))

/-- Characters of a plain sqlite-style URL path: always-safe or `/`. -/
def plainUrlChar (c : Char) : Bool :=
  isAlwaysSafeChar c || decide (c = '/')

theorem isAlwaysSafeChar_ne (c : Char) (h : isAlwaysSafeChar c = true) :
    c ≠ '#' ∧ c ≠ '?' ∧ c ≠ ';' ∧ c ≠ ':' ∧ c ≠ '&' ∧ c ≠ '=' ∧ c ≠ '%' ∧
      c ≠ '+' ∧ c ≠ '/' ∧ c ≠ ' ' := by
  refine ⟨?_, ?_, ?_, ?_, ?_, ?_, ?_, ?_, ?_, ?_⟩ <;>
    (intro he; subst he; exact absurd h (by decide))

theorem plainUrlChar_ne (c : Char) (h : plainUrlChar c = true) :
    c ≠ '#' ∧ c ≠ '?' ∧ c ≠ ';' ∧ c ≠ ':' ∧ c ≠ '&' ∧ c ≠ '=' ∧ c ≠ '%' ∧
      c ≠ '+' ∧ c ≠ ' ' := by
  refine ⟨?_, ?_, ?_, ?_, ?_, ?_, ?_, ?_, ?_⟩ <;>
    (intro he; subst he; exact absurd h (by decide))

theorem splitFirst_append_of_not_mem (sep : Char) :
    ∀ (a b : List Char), (∀ c ∈ a, c ≠ sep) →
      splitFirst sep (a ++ sep :: b) = some (a, b)
  | [], b, _ => by
    show splitFirst sep (sep :: b) = some ([], b)
    unfold splitFirst
    rw [if_pos rfl]
  | c :: a2, b, ha => by
    show splitFirst sep (c :: (a2 ++ sep :: b)) = some (c :: a2, b)
    unfold splitFirst
    rw [if_neg (ha c (List.mem_cons_self _ _))]
    rw [splitFirst_append_of_not_mem sep a2 b
      (fun x hx => ha x (List.mem_cons_of_mem _ hx))]

theorem splitFirst_eq_none (sep : Char) :
    ∀ (s : List Char), (∀ c ∈ s, c ≠ sep) → splitFirst sep s = none
  | [], _ => rfl
  | c :: rest, hs => by
    unfold splitFirst
    rw [if_neg (hs c (List.mem_cons_self _ _))]
    rw [splitFirst_eq_none sep rest (fun x hx => hs x (List.mem_cons_of_mem _ hx))]

theorem splitOnChar_ne_nil (sep : Char) : ∀ (s : List Char), splitOnChar sep s ≠ []
  | [] => by
    unfold splitOnChar
    exact fun h => List.noConfusion h
  | c :: rest => by
    unfold splitOnChar
    cases hsp : splitOnChar sep rest with
    | nil => exact absurd hsp (splitOnChar_ne_nil sep rest)
    | cons h t =>
      dsimp only
      by_cases hc : c = sep
      · rw [if_pos hc]
        exact fun h0 => List.noConfusion h0
      · rw [if_neg hc]
        exact fun h0 => List.noConfusion h0

theorem splitOnChar_eq_single (sep : Char) :
    ∀ (s : List Char), (∀ c ∈ s, c ≠ sep) → splitOnChar sep s = [s]
  | [], _ => rfl
  | c :: rest, hs => by
    unfold splitOnChar
    rw [splitOnChar_eq_single sep rest (fun x hx => hs x (List.mem_cons_of_mem _ hx))]
    dsimp only
    rw [if_neg (hs c (List.mem_cons_self _ _))]

theorem splitOnChar_append (sep : Char) :
    ∀ (a b : List Char), (∀ c ∈ a, c ≠ sep) →
      splitOnChar sep (a ++ sep :: b) = a :: splitOnChar sep b
  | [], b, _ => by
    show splitOnChar sep (sep :: b) = [] :: splitOnChar sep b
    cases hsp : splitOnChar sep b with
    | nil => exact absurd hsp (splitOnChar_ne_nil sep b)
    | cons h t =>
      unfold splitOnChar
      rw [hsp]
      dsimp only
      rw [if_pos rfl]
  | c :: a2, b, ha => by
    show splitOnChar sep (c :: (a2 ++ sep :: b)) = (c :: a2) :: splitOnChar sep b
    have ih := splitOnChar_append sep a2 b (fun x hx => ha x (List.mem_cons_of_mem _ hx))
    cases hsp : splitOnChar sep b with
    | nil => exact absurd hsp (splitOnChar_ne_nil sep b)
    | cons h t =>
      unfold splitOnChar
      rw [ih]
      dsimp only
      rw [if_neg (ha c (List.mem_cons_self _ _))]
      rw [hsp]

theorem percentUnquote_cons_ne (c : Char) (r : List Char) (hc : c ≠ '%') :
    percentUnquote (c :: r) = c :: percentUnquote r := by
  unfold percentUnquote
  cases hsp : splitOnChar '%' r with
  | nil => exact absurd hsp (splitOnChar_ne_nil _ _)
  | cons h t =>
    have hsp2 : splitOnChar '%' (c :: r) = (c :: h) :: t := by
      unfold splitOnChar
      rw [hsp]
      dsimp only
      rw [if_neg hc]
    rw [hsp2]
    dsimp only
    rfl

theorem percentUnquote_append_no_pct :
    ∀ (a s : List Char), (∀ c ∈ a, c ≠ '%') →
      percentUnquote (a ++ s) = a ++ percentUnquote s
  | [], s, _ => by rw [List.nil_append, List.nil_append]
  | c :: a2, s, ha => by
    show percentUnquote (c :: (a2 ++ s)) = c :: (a2 ++ percentUnquote s)
    rw [percentUnquote_cons_ne c _ (ha c (List.mem_cons_self _ _))]
    rw [percentUnquote_append_no_pct a2 s (fun x hx => ha x (List.mem_cons_of_mem _ hx))]

theorem percentUnquote_of_no_pct (s : List Char) (hs : ∀ c ∈ s, c ≠ '%') :
    percentUnquote s = s := by
  unfold percentUnquote
  rw [splitOnChar_eq_single _ _ hs]
  dsimp only
  rw [List.flatMap_nil, List.append_nil]

theorem percentUnquote_escape (c1 c2 : Char) (h1 h2 : ℕ) (r : List Char)
    (hc1 : hexVal c1 = some h1) (hc2 : hexVal c2 = some h2) :
    percentUnquote ('%' :: c1 :: c2 :: r)
      = Char.ofNat (16 * h1 + h2) :: percentUnquote r := by
  have hne1 : c1 ≠ '%' := by
    intro he
    rw [he] at hc1
    exact Option.noConfusion hc1
  have hne2 : c2 ≠ '%' := by
    intro he
    rw [he] at hc2
    exact Option.noConfusion hc2
  cases hsp : splitOnChar '%' r with
  | nil => exact absurd hsp (splitOnChar_ne_nil _ _)
  | cons h t =>
    have hsp1 : splitOnChar '%' (c2 :: r) = (c2 :: h) :: t := by
      unfold splitOnChar
      rw [hsp]
      dsimp only
      rw [if_neg hne2]
    have hsp2 : splitOnChar '%' (c1 :: c2 :: r) = (c1 :: c2 :: h) :: t := by
      unfold splitOnChar
      rw [hsp1]
      dsimp only
      rw [if_neg hne1]
    have hsp3 : splitOnChar '%' ('%' :: c1 :: c2 :: r) = [] :: (c1 :: c2 :: h) :: t := by
      unfold splitOnChar
      rw [hsp2]
      dsimp only
      rw [if_pos rfl]
    unfold percentUnquote
    rw [hsp3, hsp]
    dsimp only
    rw [List.flatMap_cons]
    have hitem : unquoteItem (c1 :: c2 :: h) = Char.ofNat (16 * h1 + h2) :: h := by
      unfold unquoteItem
      dsimp only
      rw [hc1, hc2]
    rw [hitem]
    rw [List.nil_append]
    rfl

theorem plusToSpace_of_no_plus :
    ∀ (s : List Char), (∀ c ∈ s, c ≠ '+') → plusToSpace s = s
  | [], _ => rfl
  | c :: rest, hs => by
    unfold plusToSpace
    rw [List.map_cons]
    rw [if_neg (hs c (List.mem_cons_self _ _))]
    have hr := plusToSpace_of_no_plus rest (fun x hx => hs x (List.mem_cons_of_mem _ hx))
    unfold plusToSpace at hr
    rw [hr]

theorem quotePlus_of_safe :
    ∀ (s : List Char), (∀ c ∈ s, isAlwaysSafeChar c = true) → quotePlus s = s
  | [], _ => rfl
  | c :: rest, hs => by
    unfold quotePlus
    rw [List.flatMap_cons]
    have hc : quotePlusChar c = [c] := by
      unfold quotePlusChar
      rw [if_pos (hs c (List.mem_cons_self _ _))]
    rw [hc]
    have hr := quotePlus_of_safe rest (fun x hx => hs x (List.mem_cons_of_mem _ hx))
    unfold quotePlus at hr
    rw [hr]
    rfl

theorem quotePlus_append (a b : List Char) :
    quotePlus (a ++ b) = quotePlus a ++ quotePlus b := by
  unfold quotePlus
  rw [List.flatMap_append]

/-- A list with a non-empty left append part is non-empty. -/
theorem append_not_isEmpty (a b : List Char) (ha : a ≠ []) :
    ¬((a ++ b).isEmpty = true) := by
  intro h
  have h2 := List.append_eq_nil.mp (List.isEmpty_iff.mp h)
  exact ha h2.1

/-- `urlparse` of a query-free netloc-free sqlite URL. -/
theorem urlparse_sqlite_noquery (tail : List Char)
    (htail : ∀ c ∈ tail, plainUrlChar c = true) :
    urlparse ("sqlite:///".toList ++ tail)
      = ⟨"sqlite".toList, [], '/' :: tail, [], [], []⟩ := by
  have hscheme : splitScheme ("sqlite:///".toList ++ tail)
      = some ("sqlite".toList, '/' :: '/' :: '/' :: tail) := by
    unfold splitScheme
    have hsf : splitFirst ':' ("sqlite:///".toList ++ tail)
        = some ("sqlite".toList, '/' :: '/' :: '/' :: tail) := by
      show splitFirst ':' ("sqlite".toList ++ ':' :: ('/' :: '/' :: '/' :: tail)) = _
      exact splitFirst_append_of_not_mem ':' _ _ (by decide)
    rw [hsf]
    dsimp only
    show (if ('s'.isAlpha && ("sqlite".toList).all schemeChar) = true then _ else _) = _
    rw [if_pos (by decide)]
    rfl
  have hnl : splitNetloc (('/' :: '/' :: '/' :: tail).drop 2) = ([], '/' :: tail) := by
    show splitNetloc ('/' :: tail) = ([], '/' :: tail)
    unfold splitNetloc
    rw [if_pos (by decide)]
  have hfr : splitFirst '#' ('/' :: tail) = none := by
    refine splitFirst_eq_none '#' _ ?_
    intro c hc
    rcases List.mem_cons.mp hc with h | h
    · subst h
      decide
    · exact (plainUrlChar_ne c (htail c h)).1
  have hqr : splitFirst '?' ('/' :: tail) = none := by
    refine splitFirst_eq_none '?' _ ?_
    intro c hc
    rcases List.mem_cons.mp hc with h | h
    · subst h
      decide
    · exact (plainUrlChar_ne c (htail c h)).2.1
  have hsemi : ¬(';' ∈ ('/' :: tail)) := by
    intro hmem
    rcases List.mem_cons.mp hmem with h | h
    · exact absurd h (by decide)
    · exact absurd (htail ';' h) (by decide)
  unfold urlparse
  rw [hscheme]
  dsimp only
  rw [if_pos (show (('/' :: '/' :: '/' :: tail).take 2 : List Char) = ['/', '/'] from rfl)]
  rw [hnl]
  dsimp only
  rw [hfr]
  dsimp only
  rw [hqr]
  dsimp only
  rw [if_neg (fun hc => hsemi (of_decide_eq_true hc))]

/-- `urlparse` of a netloc-free sqlite URL carrying a query. -/
theorem urlparse_sqlite_query (tail q : List Char)
    (htail : ∀ c ∈ tail, plainUrlChar c = true)
    (hq : ∀ c ∈ q, c ≠ '#') :
    urlparse ("sqlite:///".toList ++ tail ++ '?' :: q)
      = ⟨"sqlite".toList, [], '/' :: tail, [], q, []⟩ := by
  have hscheme : splitScheme ("sqlite:///".toList ++ tail ++ '?' :: q)
      = some ("sqlite".toList, '/' :: '/' :: '/' :: (tail ++ '?' :: q)) := by
    unfold splitScheme
    have hsf : splitFirst ':' ("sqlite:///".toList ++ tail ++ '?' :: q)
        = some ("sqlite".toList, '/' :: '/' :: '/' :: (tail ++ '?' :: q)) := by
      show splitFirst ':' ("sqlite".toList ++ ':' :: ('/' :: '/' :: '/' :: (tail ++ '?' :: q))) = _
      exact splitFirst_append_of_not_mem ':' _ _ (by decide)
    rw [hsf]
    dsimp only
    show (if ('s'.isAlpha && ("sqlite".toList).all schemeChar) = true then _ else _) = _
    rw [if_pos (by decide)]
    rfl
  have hnl : splitNetloc (('/' :: '/' :: '/' :: (tail ++ '?' :: q)).drop 2)
      = ([], '/' :: (tail ++ '?' :: q)) := by
    show splitNetloc ('/' :: (tail ++ '?' :: q)) = ([], '/' :: (tail ++ '?' :: q))
    unfold splitNetloc
    rw [if_pos (by decide)]
  have hfr : splitFirst '#' ('/' :: (tail ++ '?' :: q)) = none := by
    refine splitFirst_eq_none '#' _ ?_
    intro c hc
    rcases List.mem_cons.mp hc with h | h
    · subst h
      decide
    · rcases List.mem_append.mp h with h2 | h2
      · exact (plainUrlChar_ne c (htail c h2)).1
      · rcases List.mem_cons.mp h2 with h3 | h3
        · subst h3
          decide
        · exact hq c h3
  have hqr : splitFirst '?' ('/' :: (tail ++ '?' :: q)) = some ('/' :: tail, q) := by
    show splitFirst '?' (('/' :: tail) ++ '?' :: q) = _
    refine splitFirst_append_of_not_mem '?' _ _ ?_
    intro c hc
    rcases List.mem_cons.mp hc with h | h
    · subst h
      decide
    · exact (plainUrlChar_ne c (htail c h)).2.1
  have hsemi : ¬(';' ∈ ('/' :: tail)) := by
    intro hmem
    rcases List.mem_cons.mp hmem with h | h
    · exact absurd h (by decide)
    · exact absurd (htail ';' h) (by decide)
  unfold urlparse
  rw [hscheme]
  dsimp only
  rw [if_pos (show (('/' :: '/' :: '/' :: (tail ++ '?' :: q)).take 2 : List Char)
    = ['/', '/'] from rfl)]
  rw [hnl]
  dsimp only
  rw [hfr]
  dsimp only
  rw [hqr]
  dsimp only
  rw [if_neg (fun hc => hsemi (of_decide_eq_true hc))]

/-- The decoded single filter field. -/
theorem qslEntry_filter (n : List Char)
    (hn : ∀ c ∈ n, isAlwaysSafeChar c = true) :
    qslEntry ("spinedbfilter=cfg%3Ascenario%3A".toList ++ n)
      = some ("spinedbfilter".toList, "cfg:scenario:".toList ++ n) := by
  have hval : percentUnquote (plusToSpace ("cfg%3Ascenario%3A".toList ++ n))
      = "cfg:scenario:".toList ++ n := by
    have hplus : plusToSpace ("cfg%3Ascenario%3A".toList ++ n)
        = "cfg%3Ascenario%3A".toList ++ n := by
      refine plusToSpace_of_no_plus _ ?_
      intro c hc
      rcases List.mem_append.mp hc with h | h
      · exact (by decide : ∀ c ∈ ("cfg%3Ascenario%3A".toList), c ≠ '+') c h
      · exact (isAlwaysSafeChar_ne c (hn c h)).2.2.2.2.2.2.2.1
    rw [hplus]
    show percentUnquote ("cfg".toList ++
      ('%' :: '3' :: 'A' :: ("scenario".toList ++ '%' :: '3' :: 'A' :: n))) = _
    rw [percentUnquote_append_no_pct "cfg".toList _ (by decide)]
    rw [percentUnquote_escape '3' 'A' 3 10 _ rfl rfl]
    rw [percentUnquote_append_no_pct "scenario".toList _ (by decide)]
    rw [percentUnquote_escape '3' 'A' 3 10 _ rfl rfl]
    rw [percentUnquote_of_no_pct n
      (fun c hc => (isAlwaysSafeChar_ne c (hn c hc)).2.2.2.2.2.2.1)]
    rfl
  have hkey : percentUnquote (plusToSpace ("spinedbfilter".toList))
      = "spinedbfilter".toList := by
    rw [plusToSpace_of_no_plus _ (by decide), percentUnquote_of_no_pct _ (by decide)]
  unfold qslEntry
  rw [if_neg (append_not_isEmpty ("spinedbfilter=cfg%3Ascenario%3A".toList) n (by decide))]
  have hsf : splitFirst '=' ("spinedbfilter=cfg%3Ascenario%3A".toList ++ n)
      = some ("spinedbfilter".toList, "cfg%3Ascenario%3A".toList ++ n) := by
    show splitFirst '=' ("spinedbfilter".toList ++ '=' :: ("cfg%3Ascenario%3A".toList ++ n)) = _
    exact splitFirst_append_of_not_mem '=' _ _ (by decide)
  rw [hsf]
  dsimp only
  rw [if_neg (append_not_isEmpty ("cfg%3Ascenario%3A".toList) n (by decide))]
  rw [hkey, hval]

theorem parse_qs_single_filter (n : List Char)
    (hn : ∀ c ∈ n, isAlwaysSafeChar c = true) :
    parse_qs ("spinedbfilter=cfg%3Ascenario%3A".toList ++ n)
      = [("spinedbfilter".toList, ["cfg:scenario:".toList ++ n])] := by
  have hqsl : parse_qsl ("spinedbfilter=cfg%3Ascenario%3A".toList ++ n)
      = [("spinedbfilter".toList, "cfg:scenario:".toList ++ n)] := by
    unfold parse_qsl
    rw [if_neg (append_not_isEmpty ("spinedbfilter=cfg%3Ascenario%3A".toList) n (by decide))]
    rw [splitOnChar_eq_single '&' _ (by
      intro c hc
      rcases List.mem_append.mp hc with h | h
      · exact (by decide : ∀ c ∈ ("spinedbfilter=cfg%3Ascenario%3A".toList), c ≠ '&') c h
      · exact (isAlwaysSafeChar_ne c (hn c h)).2.2.2.2.1)]
    rw [List.filterMap_cons, qslEntry_filter n hn]
    rfl
  unfold parse_qs
  rw [hqsl]
  rfl

theorem parse_qs_double_filter (n1 n2 : List Char)
    (hn1 : ∀ c ∈ n1, isAlwaysSafeChar c = true)
    (hn2 : ∀ c ∈ n2, isAlwaysSafeChar c = true) :
    parse_qs (("spinedbfilter=cfg%3Ascenario%3A".toList ++ n1) ++
        '&' :: ("spinedbfilter=cfg%3Ascenario%3A".toList ++ n2))
      = [("spinedbfilter".toList,
          ["cfg:scenario:".toList ++ n1, "cfg:scenario:".toList ++ n2])] := by
  have hqsl : parse_qsl (("spinedbfilter=cfg%3Ascenario%3A".toList ++ n1) ++
        '&' :: ("spinedbfilter=cfg%3Ascenario%3A".toList ++ n2))
      = [("spinedbfilter".toList, "cfg:scenario:".toList ++ n1),
         ("spinedbfilter".toList, "cfg:scenario:".toList ++ n2)] := by
    unfold parse_qsl
    rw [if_neg (show ¬((("spinedbfilter=cfg%3Ascenario%3A".toList ++ n1) ++
        '&' :: ("spinedbfilter=cfg%3Ascenario%3A".toList ++ n2)).isEmpty = true) from by
      intro h
      have h2 := List.append_eq_nil.mp (List.isEmpty_iff.mp h)
      have h3 := List.append_eq_nil.mp h2.1
      exact absurd h3.1 (by decide))]
    rw [splitOnChar_append '&' _ _ (by
      intro c hc
      rcases List.mem_append.mp hc with h | h
      · exact (by decide : ∀ c ∈ ("spinedbfilter=cfg%3Ascenario%3A".toList), c ≠ '&') c h
      · exact (isAlwaysSafeChar_ne c (hn1 c h)).2.2.2.2.1)]
    rw [splitOnChar_eq_single '&' _ (by
      intro c hc
      rcases List.mem_append.mp hc with h | h
      · exact (by decide : ∀ c ∈ ("spinedbfilter=cfg%3Ascenario%3A".toList), c ≠ '&') c h
      · exact (isAlwaysSafeChar_ne c (hn2 c h)).2.2.2.2.1)]
    rw [List.filterMap_cons, qslEntry_filter n1 hn1]
    dsimp only
    rw [List.filterMap_cons, qslEntry_filter n2 hn2]
    rfl
  unfold parse_qs
  rw [hqsl]
  rfl

/-- `urlunparse` on the sqlite-shaped components. -/
theorem urlunparse_sqlite (p2 q : List Char) :
    urlunparse ⟨"sqlite".toList, [], p2, [], q, []⟩
      = "sqlite".toList ++ ':' :: (p2 ++ if q = [] then [] else '?' :: q) := by
  unfold urlunparse urlunsplit
  dsimp only
  have hpar : ¬(([] : List Char) ≠ []) := fun h => h rfl
  simp only [if_neg hpar]
  have hnet : ¬(([] : List Char) ≠ [] ∨ ("sqlite".toList ≠ [] ∧
      usesNetloc ("sqlite".toList) = true ∧ p2.take 2 ≠ (['/', '/'] : List Char))) := by
    rintro (h | ⟨h1, h2, h3⟩)
    · exact h rfl
    · exact absurd h2 (by decide)
  rw [if_neg hnet]
  rw [if_pos (by decide : ("sqlite".toList : List Char) ≠ [])]
  by_cases hq0 : q = []
  · rw [if_neg (fun h => h hq0), if_pos hq0, List.append_nil]
  · rw [if_pos hq0, if_neg hq0]
    rfl

/-- C9 (counterexample): the append/pop round trip does not return the
original URL for every URL.  On a URL with a netloc the `path = "//" +
path` hack adds two path slashes per operation: appending to
`mysql://user@host/dbname` and popping yields
`mysql://user@host/////dbname`. -/
theorem append_pop_mangles_netloc_url :
    pop_filter_configs (append_filter_config "mysql://user@host/dbname"
        (.scenarioConfig "sc1"))
      = .ok ([.scenarioConfig "sc1"], "mysql://user@host/////dbname") ∧
    ("mysql://user@host/////dbname" : String) ≠ "mysql://user@host/dbname" := by
  constructor
  · decide
  · decide

/-- C9 (amended): for netloc-free sqlite-style URLs over plain characters
and scenario names over always-safe characters, popping returns exactly
the appended configs in order together with the original URL — both for a
single appended config and for two stacked ones. -/
theorem append_pop_roundtrip (path n1 n2 : List Char)
    (hpath : ∀ c ∈ path, plainUrlChar c = true)
    (hn1 : ∀ c ∈ n1, isAlwaysSafeChar c = true)
    (hn2 : ∀ c ∈ n2, isAlwaysSafeChar c = true) :
    (pop_filter_configs (append_filter_config
        (String.mk ("sqlite:///".toList ++ path)) (.scenarioConfig (String.mk n1)))
      = .ok ([.scenarioConfig (String.mk n1)],
          String.mk ("sqlite:///".toList ++ path))) ∧
    (pop_filter_configs (append_filter_config (append_filter_config
        (String.mk ("sqlite:///".toList ++ path)) (.scenarioConfig (String.mk n1)))
        (.scenarioConfig (String.mk n2)))
      = .ok ([.scenarioConfig (String.mk n1), .scenarioConfig (String.mk n2)],
          String.mk ("sqlite:///".toList ++ path))) := by
  have hqE1 : ∀ c ∈ ("spinedbfilter=cfg%3Ascenario%3A".toList ++ n1), c ≠ '#' := by
    intro c hc
    rcases List.mem_append.mp hc with h | h
    · exact (by decide : ∀ c ∈ ("spinedbfilter=cfg%3Ascenario%3A".toList), c ≠ '#') c h
    · exact (isAlwaysSafeChar_ne c (hn1 c h)).1
  have hqE2 : ∀ c ∈ ("spinedbfilter=cfg%3Ascenario%3A".toList ++ n2), c ≠ '#' := by
    intro c hc
    rcases List.mem_append.mp hc with h | h
    · exact (by decide : ∀ c ∈ ("spinedbfilter=cfg%3Ascenario%3A".toList), c ≠ '#') c h
    · exact (isAlwaysSafeChar_ne c (hn2 c h)).1
  have hp1 : urlparse (String.toList (String.mk ("sqlite:///".toList ++ path)))
      = ⟨"sqlite".toList, [], '/' :: path, [], [], []⟩ := by
    show urlparse ("sqlite:///".toList ++ path) = _
    exact urlparse_sqlite_noquery path hpath
  have hp2 : urlparse (String.toList (String.mk ("sqlite:///".toList ++ path ++
      '?' :: ("spinedbfilter=cfg%3Ascenario%3A".toList ++ n1))))
      = ⟨"sqlite".toList, [], '/' :: path, [],
          "spinedbfilter=cfg%3Ascenario%3A".toList ++ n1, []⟩ := by
    show urlparse ("sqlite:///".toList ++ path ++
      '?' :: ("spinedbfilter=cfg%3Ascenario%3A".toList ++ n1)) = _
    exact urlparse_sqlite_query path _ hpath hqE1
  have henc1 : urlencode (qsSetdefaultAppend (parse_qs ([] : List Char))
      ("spinedbfilter".toList) ("cfg:scenario:".toList ++ (String.mk n1).toList))
      = "spinedbfilter=cfg%3Ascenario%3A".toList ++ n1 := by
    show quotePlus ("spinedbfilter".toList) ++
      '=' :: quotePlus ("cfg:scenario:".toList ++ (String.mk n1).toList) = _
    rw [quotePlus_append]
    rw [(by decide : quotePlus ("spinedbfilter".toList) = "spinedbfilter".toList)]
    rw [(by decide : quotePlus ("cfg:scenario:".toList) = "cfg%3Ascenario%3A".toList)]
    rw [show quotePlus ((String.mk n1).toList) = n1 from quotePlus_of_safe n1 hn1]
    rfl
  have hE1ne : ¬(("spinedbfilter=cfg%3Ascenario%3A".toList ++ n1) = ([] : List Char)) := by
    intro h
    exact absurd (List.append_eq_nil.mp h).1 (by decide)
  have step1 : append_filter_config (String.mk ("sqlite:///".toList ++ path))
      (.scenarioConfig (String.mk n1))
      = String.mk ("sqlite:///".toList ++ path ++
          '?' :: ("spinedbfilter=cfg%3Ascenario%3A".toList ++ n1)) := by
    unfold append_filter_config
    dsimp only
    rw [hp1]
    dsimp only
    rw [henc1]
    rw [urlunparse_sqlite ('/' :: '/' :: '/' :: path)
      ("spinedbfilter=cfg%3Ascenario%3A".toList ++ n1)]
    rw [if_neg hE1ne]
    rfl
  have step2 : pop_filter_configs (String.mk ("sqlite:///".toList ++ path ++
      '?' :: ("spinedbfilter=cfg%3Ascenario%3A".toList ++ n1)))
      = .ok ([.scenarioConfig (String.mk n1)],
          String.mk ("sqlite:///".toList ++ path)) := by
    unfold pop_filter_configs
    dsimp only
    rw [hp2]
    dsimp only
    rw [parse_qs_single_filter n1 hn1]
    rfl
  refine ⟨by rw [step1]; exact step2, ?_⟩
  have hqBig : ∀ c ∈ (("spinedbfilter=cfg%3Ascenario%3A".toList ++ n1) ++
      '&' :: ("spinedbfilter=cfg%3Ascenario%3A".toList ++ n2)), c ≠ '#' := by
    intro c hc
    rcases List.mem_append.mp hc with h | h
    · exact hqE1 c h
    · rcases List.mem_cons.mp h with h2 | h2
      · subst h2
        decide
      · exact hqE2 c h2
  have hp4 : urlparse (String.toList (String.mk ("sqlite:///".toList ++ path ++
      '?' :: (("spinedbfilter=cfg%3Ascenario%3A".toList ++ n1) ++
        '&' :: ("spinedbfilter=cfg%3Ascenario%3A".toList ++ n2)))))
      = ⟨"sqlite".toList, [], '/' :: path, [],
          ("spinedbfilter=cfg%3Ascenario%3A".toList ++ n1) ++
            '&' :: ("spinedbfilter=cfg%3Ascenario%3A".toList ++ n2), []⟩ := by
    show urlparse ("sqlite:///".toList ++ path ++
      '?' :: (("spinedbfilter=cfg%3Ascenario%3A".toList ++ n1) ++
        '&' :: ("spinedbfilter=cfg%3Ascenario%3A".toList ++ n2))) = _
    exact urlparse_sqlite_query path _ hpath hqBig
  have hsd : qsSetdefaultAppend [("spinedbfilter".toList, ["cfg:scenario:".toList ++ n1])]
      ("spinedbfilter".toList) ("cfg:scenario:".toList ++ (String.mk n2).toList)
      = [("spinedbfilter".toList, ["cfg:scenario:".toList ++ n1,
          "cfg:scenario:".toList ++ (String.mk n2).toList])] := by
    unfold qsSetdefaultAppend
    rw [if_pos rfl]
    rfl
  have henc2 : urlencode [("spinedbfilter".toList, ["cfg:scenario:".toList ++ n1,
      "cfg:scenario:".toList ++ (String.mk n2).toList])]
      = ("spinedbfilter=cfg%3Ascenario%3A".toList ++ n1) ++
        '&' :: ("spinedbfilter=cfg%3Ascenario%3A".toList ++ n2) := by
    show (quotePlus ("spinedbfilter".toList) ++
        '=' :: quotePlus ("cfg:scenario:".toList ++ n1)) ++
      '&' :: (quotePlus ("spinedbfilter".toList) ++
        '=' :: quotePlus ("cfg:scenario:".toList ++ (String.mk n2).toList)) = _
    rw [quotePlus_append, quotePlus_append]
    rw [(by decide : quotePlus ("spinedbfilter".toList) = "spinedbfilter".toList)]
    rw [(by decide : quotePlus ("cfg:scenario:".toList) = "cfg%3Ascenario%3A".toList)]
    rw [quotePlus_of_safe n1 hn1]
    rw [show quotePlus ((String.mk n2).toList) = n2 from quotePlus_of_safe n2 hn2]
    rfl
  have hBigne : ¬((("spinedbfilter=cfg%3Ascenario%3A".toList ++ n1) ++
      '&' :: ("spinedbfilter=cfg%3Ascenario%3A".toList ++ n2)) = ([] : List Char)) := by
    intro h
    exact hE1ne (List.append_eq_nil.mp h).1
  have step3 : append_filter_config (String.mk ("sqlite:///".toList ++ path ++
      '?' :: ("spinedbfilter=cfg%3Ascenario%3A".toList ++ n1)))
      (.scenarioConfig (String.mk n2))
      = String.mk ("sqlite:///".toList ++ path ++
          '?' :: (("spinedbfilter=cfg%3Ascenario%3A".toList ++ n1) ++
            '&' :: ("spinedbfilter=cfg%3Ascenario%3A".toList ++ n2))) := by
    unfold append_filter_config
    dsimp only
    rw [hp2]
    dsimp only
    rw [parse_qs_single_filter n1 hn1]
    rw [hsd]
    rw [henc2]
    rw [urlunparse_sqlite ('/' :: '/' :: '/' :: path)
      (("spinedbfilter=cfg%3Ascenario%3A".toList ++ n1) ++
        '&' :: ("spinedbfilter=cfg%3Ascenario%3A".toList ++ n2))]
    rw [if_neg hBigne]
    rfl
  have step4 : pop_filter_configs (String.mk ("sqlite:///".toList ++ path ++
      '?' :: (("spinedbfilter=cfg%3Ascenario%3A".toList ++ n1) ++
        '&' :: ("spinedbfilter=cfg%3Ascenario%3A".toList ++ n2))))
      = .ok ([.scenarioConfig (String.mk n1), .scenarioConfig (String.mk n2)],
          String.mk ("sqlite:///".toList ++ path)) := by
    unfold pop_filter_configs
    dsimp only
    rw [hp4]
    dsimp only
    rw [parse_qs_double_filter n1 n2 hn1 hn2]
    rfl
  rw [step1, step3]
  exact step4

/-- The round trip evaluated at a concrete sqlite URL and scenario names. -/
theorem append_pop_roundtrip_witness :
    (pop_filter_configs (append_filter_config
        (String.mk ("sqlite:///".toList ++ "home/db.sqlite".toList))
        (.scenarioConfig (String.mk "sc1".toList)))
      = .ok ([.scenarioConfig (String.mk "sc1".toList)],
          String.mk ("sqlite:///".toList ++ "home/db.sqlite".toList))) ∧
    (pop_filter_configs (append_filter_config (append_filter_config
        (String.mk ("sqlite:///".toList ++ "home/db.sqlite".toList))
        (.scenarioConfig (String.mk "sc1".toList)))
        (.scenarioConfig (String.mk "sc2".toList)))
      = .ok ([.scenarioConfig (String.mk "sc1".toList),
              .scenarioConfig (String.mk "sc2".toList)],
          String.mk ("sqlite:///".toList ++ "home/db.sqlite".toList))) :=
  append_pop_roundtrip ("home/db.sqlite".toList) ("sc1".toList) ("sc2".toList)
    (by decide) (by decide) (by decide)

end SpineDB
